import Mathlib

/-! # Elevator simulation (ECElevatorSim.cpp): embedding and verified properties

The C++ program is a discrete-time elevator stepper.  The embedding below
follows `ECElevatorSim.cpp` function by function.

Modelling conventions.
* `int` values (floors, ticks) are `Int`.  The one `int` computation that can
  leave the 32-bit range while every input and every intended result is in
  range is the sum `currFloor + numFloors` that starts the scan of
  `GetClosestRequestFloor` (source line 142); it is reduced to the 32-bit
  two's-complement range by `wrapInt32`.  The other operations (`floor + 1`,
  `floor - 1`, `time + 1`, differences of floors) leave the range only when
  their result is itself not representable.
* The simulation object is an explicit record that every operation takes and
  returns.
* A `ECElevatorSimRequest*` pointing into the master list is the index of the
  request in that list; a `vector<ECElevatorSimRequest*>` is a `List Nat`.
* The heap-allocated state object (`ECElevatorStopped`, `ECElevatorUp`,
  `ECElevatorDown`) is a three-valued tag; virtual dispatch is a `match`.
* Console output (`cout`) is not modelled.
-/

namespace ECElevator

/-- Direction of the elevator, enum `EC_ELEVATOR_DIR` (used by the source as
`EC_ELEVATOR_STOPPED`, `EC_ELEVATOR_UP`, `EC_ELEVATOR_DOWN`). -/
inductive EC_ELEVATOR_DIR where
  | EC_ELEVATOR_STOPPED
  | EC_ELEVATOR_UP
  | EC_ELEVATOR_DOWN
  deriving DecidableEq, Repr

/-- The three concrete subclasses of `ECElevatorState`; the tag says which
object `currState` points to. -/
inductive ECElevatorState where
  | ECElevatorStopped
  | ECElevatorUp
  | ECElevatorDown
  deriving DecidableEq, Repr

/-- Modelled from the spec: the request record (class `ECElevatorSimRequest`,
declared in the header `ECElevatorSim.h`, which is not part of the sources).
Fields are named after the accessors the source calls: `GetFloorSrc`,
`GetFloorDest`, `GetTime`, `IsFloorRequestDone`/`SetFloorRequestDone`,
`IsServiced`/`SetServiced`, `SetArriveTime`. -/
structure ECElevatorSimRequest where
  /-- origin floor -/
  floorSrc : Int
  /-- destination floor -/
  floorDest : Int
  /-- creation time -/
  time : Int
  /-- picked-up flag -/
  fFloorReqDone : Bool
  /-- serviced flag -/
  fServiced : Bool
  /-- arrival time -/
  timeArrive : Int
  deriving DecidableEq, Repr

/-- Members of class `ECElevatorSim`. -/
structure ECElevatorSim where
  numFloors : Int
  currFloor : Int
  currDir : EC_ELEVATOR_DIR
  currState : ECElevatorState
  time : Int
  listRequests : List ECElevatorSimRequest
  deriving DecidableEq, Repr

/-- Constructor `ECElevatorSim::ECElevatorSim(numFloors, listRequests)`. -/
def ECElevatorSim.new (numFloors : Int) (listRequests : List ECElevatorSimRequest) :
    ECElevatorSim :=
  { numFloors := numFloors
    currFloor := 1
    currDir := .EC_ELEVATOR_STOPPED
    currState := .ECElevatorStopped
    time := 0
    listRequests := listRequests }

/-- `ECElevatorSim::SetCurrFloor`. -/
def ECElevatorSim.SetCurrFloor (sim : ECElevatorSim) (f : Int) : ECElevatorSim :=
  { sim with currFloor := f }

/-- `ECElevatorSim::SetCurrDir`. -/
def ECElevatorSim.SetCurrDir (sim : ECElevatorSim) (dir : EC_ELEVATOR_DIR) : ECElevatorSim :=
  { sim with currDir := dir }

/-- `ECElevatorSim::SetTime`. -/
def ECElevatorSim.SetTime (sim : ECElevatorSim) (t : Int) : ECElevatorSim :=
  { sim with time := t }

/-- `ECElevatorSim::ChangeState`. -/
def ECElevatorSim.ChangeState (sim : ECElevatorSim) (newState : ECElevatorState) :
    ECElevatorSim :=
  { sim with currState := newState }

/-- The virtual `GetDirection` of the three state classes. -/
def ECElevatorState.GetDirection : ECElevatorState → EC_ELEVATOR_DIR
  | .ECElevatorStopped => .EC_ELEVATOR_STOPPED
  | .ECElevatorUp => .EC_ELEVATOR_UP
  | .ECElevatorDown => .EC_ELEVATOR_DOWN

/-- Loop of `GetActiveRequests`: `i` is the index of the head of the part of
the master list still to be scanned. -/
def GetActiveRequests.loop (time : Int) : Nat → List ECElevatorSimRequest → List Nat
  | _, [] => []
  | i, r :: rs =>
    if r.time ≤ time ∧ r.fServiced = false then
      i :: GetActiveRequests.loop time (i + 1) rs
    else
      GetActiveRequests.loop time (i + 1) rs

/-- `ECElevatorState::GetActiveRequests`: the output vector is cleared, then
every request made no later than the current time and not serviced is
appended, in list order. -/
def GetActiveRequests (sim : ECElevatorSim) (activeRequests : List Nat) : List Nat :=
  let cleared : List Nat := activeRequests.drop activeRequests.length
  cleared ++ GetActiveRequests.loop sim.time 0 sim.listRequests

/-- Result of `DoCurrentFloorRequests`: the returned flag, the master list
after the mutations made through the pointers, and the pointer vector after
the erasures. -/
structure FloorResult where
  requestFound : Bool
  listRequests : List ECElevatorSimRequest
  requests : List Nat
  deriving DecidableEq, Repr

/-- Loop of `DoCurrentFloorRequests` over the pointers not yet examined
(`requests[i..]`).  Erasing `requests[i]` and decrementing `i` makes the next
iteration examine the element that followed it, so the loop visits every
pointer of the vector once, in order; the pointers kept are returned in
`requests`.  A pointer outside the master list would be a dangling pointer in
the source; it is left alone here. -/
def DoCurrentFloorRequests.loop (currFloor time : Int) :
    List Nat → List ECElevatorSimRequest → Bool → FloorResult
  | [], reqs, requestFound => ⟨requestFound, reqs, []⟩
  | p :: ps, reqs, requestFound =>
    match reqs[p]? with
    | none =>
      let res := DoCurrentFloorRequests.loop currFloor time ps reqs requestFound
      { res with requests := p :: res.requests }
    | some r =>
      if r.floorSrc = currFloor ∧ r.fFloorReqDone = false then
        let res := DoCurrentFloorRequests.loop currFloor time ps
          (reqs.set p { r with fFloorReqDone := true }) true
        { res with requests := p :: res.requests }
      else if r.floorDest = currFloor ∧ r.fFloorReqDone = true then
        DoCurrentFloorRequests.loop currFloor time ps
          (reqs.set p { r with timeArrive := time, fServiced := true }) true
      else
        let res := DoCurrentFloorRequests.loop currFloor time ps reqs requestFound
        { res with requests := p :: res.requests }

/-- `ECElevatorState::DoCurrentFloorRequests`. -/
def DoCurrentFloorRequests (sim : ECElevatorSim) (requests : List Nat) : FloorResult :=
  DoCurrentFloorRequests.loop sim.currFloor sim.time requests sim.listRequests false

/-- Loop body of `GetClosestRequestFloor` for one request; the pair is
`(minDist, closestFloor)`. -/
def GetClosestRequestFloor.body (floor : Int) (acc : Int × Int)
    (request : ECElevatorSimRequest) : Int × Int :=
  let currDist : Int :=
    if request.fFloorReqDone = true then ((request.floorDest - floor).natAbs : Int)
    else ((request.floorSrc - floor).natAbs : Int)
  let currFloor : Int :=
    if request.fFloorReqDone = true then request.floorDest else request.floorSrc
  if currDist < acc.1 then (currDist, currFloor)
  else if currDist = acc.1 ∧ currFloor > floor then (acc.1, currFloor)
  else acc

/-- Loop of `GetClosestRequestFloor` over the active pointers. -/
def GetClosestRequestFloor.loop (floor : Int) (reqs : List ECElevatorSimRequest) :
    List Nat → Int × Int → Int × Int
  | [], acc => acc
  | p :: ps, acc =>
    match reqs[p]? with
    | none => GetClosestRequestFloor.loop floor reqs ps acc
    | some r =>
      GetClosestRequestFloor.loop floor reqs ps (GetClosestRequestFloor.body floor acc r)

/-- A value of type `int` after a 32-bit signed operation: the argument
reduced modulo `2^32` into `[-2^31, 2^31 - 1]`. -/
def wrapInt32 (x : Int) : Int :=
  (x + 2147483648) % 4294967296 - 2147483648

/-- `ECElevatorStopped::GetClosestRequestFloor`.  The start value of
`minDist` is the `int` sum `currFloor + numFloors`, which wraps when it
exceeds `INT_MAX = 2147483647`. -/
def GetClosestRequestFloor (sim : ECElevatorSim) (activeRequests : List Nat) : Int :=
  (GetClosestRequestFloor.loop sim.currFloor sim.listRequests activeRequests
    (wrapInt32 (sim.currFloor + sim.numFloors), 0)).2

/-- `ECElevatorStopped::NextDecision`. -/
def ECElevatorStopped.NextDecision (sim : ECElevatorSim) : ECElevatorSim :=
  let activeRequests := GetActiveRequests sim []
  if activeRequests.length > 0 then
    let res := DoCurrentFloorRequests sim activeRequests
    let sim : ECElevatorSim := { sim with listRequests := res.listRequests }
    let sim : ECElevatorSim :=
      if GetClosestRequestFloor sim res.requests > sim.currFloor then
        (sim.ChangeState .ECElevatorUp).SetCurrFloor (sim.currFloor + 1)
      else
        (sim.ChangeState .ECElevatorDown).SetCurrFloor (sim.currFloor - 1)
    let sim := sim.SetCurrDir sim.currState.GetDirection
    sim.SetTime (sim.time + 1)
  else
    sim.SetTime (sim.time + 1)

/-- `ECElevatorUp::RequestOnPath`. -/
def ECElevatorUp.RequestOnPath (sim : ECElevatorSim) : List Nat → Bool
  | [] => false
  | p :: ps =>
    match sim.listRequests[p]? with
    | none => ECElevatorUp.RequestOnPath sim ps
    | some request =>
      if request.floorSrc > sim.currFloor ∧ request.fFloorReqDone = false then true
      else if request.floorDest > sim.currFloor ∧ request.fFloorReqDone = true then true
      else ECElevatorUp.RequestOnPath sim ps

/-- `ECElevatorDown::RequestOnPath`. -/
def ECElevatorDown.RequestOnPath (sim : ECElevatorSim) : List Nat → Bool
  | [] => false
  | p :: ps =>
    match sim.listRequests[p]? with
    | none => ECElevatorDown.RequestOnPath sim ps
    | some request =>
      if request.floorSrc < sim.currFloor ∧ request.fFloorReqDone = false then true
      else if request.floorDest < sim.currFloor ∧ request.fFloorReqDone = true then true
      else ECElevatorDown.RequestOnPath sim ps

/-- The branch of `ECElevatorUp::NextDecision` taken when nothing was loaded
or unloaded at this floor (source lines 245-255). -/
def ECElevatorUp.advance (sim : ECElevatorSim) (activeRequests : List Nat) : ECElevatorSim :=
  let sim : ECElevatorSim :=
    if ECElevatorUp.RequestOnPath sim activeRequests then
      sim.SetCurrFloor (sim.currFloor + 1)
    else
      (sim.ChangeState .ECElevatorDown).SetCurrFloor (sim.currFloor - 1)
  sim.SetCurrDir sim.currState.GetDirection

/-- `ECElevatorUp::NextDecision`.  The `||` of the source short-circuits:
`DoCurrentFloorRequests` is not called when the reported direction is
`EC_ELEVATOR_STOPPED`. -/
def ECElevatorUp.NextDecision (sim : ECElevatorSim) : ECElevatorSim :=
  let activeRequests := GetActiveRequests sim []
  if activeRequests.length = 0 then
    let sim := sim.ChangeState .ECElevatorStopped
    let sim := sim.SetCurrDir sim.currState.GetDirection
    sim.SetTime (sim.time + 1)
  else if sim.currDir = .EC_ELEVATOR_STOPPED then
    let sim := ECElevatorUp.advance sim activeRequests
    sim.SetTime (sim.time + 1)
  else
    let res := DoCurrentFloorRequests sim activeRequests
    let sim : ECElevatorSim := { sim with listRequests := res.listRequests }
    if res.requestFound = false then
      let sim := ECElevatorUp.advance sim res.requests
      sim.SetTime (sim.time + 1)
    else
      let sim := sim.SetCurrDir .EC_ELEVATOR_STOPPED
      sim.SetTime (sim.time + 1)

/-- The branch of `ECElevatorDown::NextDecision` taken when nothing was
loaded or unloaded at this floor (source lines 309-319). -/
def ECElevatorDown.advance (sim : ECElevatorSim) (activeRequests : List Nat) : ECElevatorSim :=
  let sim : ECElevatorSim :=
    if ECElevatorDown.RequestOnPath sim activeRequests then
      sim.SetCurrFloor (sim.currFloor - 1)
    else
      (sim.ChangeState .ECElevatorUp).SetCurrFloor (sim.currFloor + 1)
  sim.SetCurrDir sim.currState.GetDirection

/-- `ECElevatorDown::NextDecision`. -/
def ECElevatorDown.NextDecision (sim : ECElevatorSim) : ECElevatorSim :=
  let activeRequests := GetActiveRequests sim []
  if activeRequests.length = 0 then
    let sim := sim.ChangeState .ECElevatorStopped
    let sim := sim.SetCurrDir sim.currState.GetDirection
    sim.SetTime (sim.time + 1)
  else if sim.currDir = .EC_ELEVATOR_STOPPED then
    let sim := ECElevatorDown.advance sim activeRequests
    sim.SetTime (sim.time + 1)
  else
    let res := DoCurrentFloorRequests sim activeRequests
    let sim : ECElevatorSim := { sim with listRequests := res.listRequests }
    if res.requestFound = false then
      let sim := ECElevatorDown.advance sim res.requests
      sim.SetTime (sim.time + 1)
    else
      let sim := sim.SetCurrDir .EC_ELEVATOR_STOPPED
      sim.SetTime (sim.time + 1)

/-- One tick: `currState->NextDecision(*this)`, dispatched on the object
`currState` points to. -/
def NextDecision (sim : ECElevatorSim) : ECElevatorSim :=
  match sim.currState with
  | .ECElevatorStopped => ECElevatorStopped.NextDecision sim
  | .ECElevatorUp => ECElevatorUp.NextDecision sim
  | .ECElevatorDown => ECElevatorDown.NextDecision sim

/-- The `for` loop of `Simulate`; `time` is the loop counter (a local that
shadows the member of the same name). -/
def Simulate.loop (lenSim : Int) (time : Int) (sim : ECElevatorSim) : ECElevatorSim :=
  if time < lenSim then Simulate.loop lenSim (time + 1) (NextDecision sim) else sim
termination_by (lenSim - time).toNat
decreasing_by omega

/-- `ECElevatorSim::Simulate`. -/
def Simulate (lenSim : Int) (sim : ECElevatorSim) : ECElevatorSim :=
  Simulate.loop lenSim 0 sim

/-- Modelled from the spec: the constructor of `ECElevatorSimRequest` (in the
missing header).  A request is supplied with origin, destination and creation
time, not picked up and not serviced; its arrival time is unset until it is
serviced, and the source never reads it, so the value `-1` stored here has no
influence on a run. -/
def ECElevatorSimRequest.request (floorSrc floorDest time : Int) : ECElevatorSimRequest :=
  { floorSrc := floorSrc, floorDest := floorDest, time := time,
    fFloorReqDone := false, fServiced := false, timeArrive := -1 }

/-- A request as the caller supplies it: not picked up, not serviced. -/
def ECElevatorSimRequest.fresh (r : ECElevatorSimRequest) : Prop :=
  r.fFloorReqDone = false ∧ r.fServiced = false

/-- States the simulation reaches from `init` by some number of ticks. -/
def Reachable (init s : ECElevatorSim) : Prop :=
  ∃ n : Nat, NextDecision^[n] init = s

/-! ## Auxiliary definitions used by the proofs -/

/-- What `DoCurrentFloorRequests` does to one examined request. -/
def serviceOne (currFloor time : Int) (r : ECElevatorSimRequest) : ECElevatorSimRequest :=
  if r.floorSrc = currFloor ∧ r.fFloorReqDone = false then
    { r with fFloorReqDone := true }
  else if r.floorDest = currFloor ∧ r.fFloorReqDone = true then
    { r with timeArrive := time, fServiced := true }
  else r

/-- A serviced request is picked up and did not arrive before it was made. -/
def ServicedOk (s : ECElevatorSim) : Prop :=
  ∀ (j : Nat) (r : ECElevatorSimRequest), s.listRequests[j]? = some r → r.fServiced = true →
    r.fFloorReqDone = true ∧ r.time ≤ r.timeArrive

/-- A request whose creation time is not before the clock is untouched. -/
def FutureFresh (s : ECElevatorSim) : Prop :=
  ∀ (j : Nat) (r : ECElevatorSimRequest), s.listRequests[j]? = some r → s.time ≤ r.time →
    r.fFloorReqDone = false ∧ r.fServiced = false

/-- The condition under which `GetActiveRequests` keeps a request: made no
later than `time` and not serviced. -/
def ECElevatorSimRequest.isActive (time : Int) (r : ECElevatorSimRequest) : Bool :=
  decide (r.time ≤ time) && !r.fServiced

/-- Whether the pointer `p` stays in the vector after a same-floor service
pass at floor `currFloor`: it is erased exactly when its request is picked up
and has its destination here. -/
def staysAfterService (currFloor : Int) (reqs : List ECElevatorSimRequest) (p : Nat) : Bool :=
  match reqs[p]? with
  | some r => !(decide (r.floorDest = currFloor) && r.fFloorReqDone)
  | none => true

/-- The floor a request asks the elevator to visit next: its destination once
picked up, its origin before. -/
def ECElevatorSimRequest.target (r : ECElevatorSimRequest) : Int :=
  if r.fFloorReqDone = true then r.floorDest else r.floorSrc

/-- Distance between the target floor of a request and floor `floor`. -/
def ECElevatorSimRequest.dist (floor : Int) (r : ECElevatorSimRequest) : Int :=
  ((r.target - floor).natAbs : Int)

/-- The requests a pointer vector points to, in order. -/
def pointed (reqs : List ECElevatorSimRequest) (ps : List Nat) : List ECElevatorSimRequest :=
  ps.filterMap (fun p => reqs[p]?)

/-- The request has something to do at floor `floor`: it waits there, or it
is in the elevator and wants to get off there. -/
def ECElevatorSimRequest.handledAt (floor : Int) (r : ECElevatorSimRequest) : Prop :=
  (r.floorSrc = floor ∧ r.fFloorReqDone = false) ∨
    (r.floorDest = floor ∧ r.fFloorReqDone = true)

/-- The request has an unfulfilled target strictly above `floor`. -/
def ECElevatorSimRequest.aheadUp (floor : Int) (r : ECElevatorSimRequest) : Prop :=
  (r.floorSrc > floor ∧ r.fFloorReqDone = false) ∨
    (r.floorDest > floor ∧ r.fFloorReqDone = true)

/-- The request has an unfulfilled target strictly below `floor`. -/
def ECElevatorSimRequest.aheadDown (floor : Int) (r : ECElevatorSimRequest) : Prop :=
  (r.floorSrc < floor ∧ r.fFloorReqDone = false) ∨
    (r.floorDest < floor ∧ r.fFloorReqDone = true)

/-- The request stored at index `j` is `r` and it is active at the clock of
`sim`. -/
def ActiveAt (sim : ECElevatorSim) (j : Nat) (r : ECElevatorSimRequest) : Prop :=
  sim.listRequests[j]? = some r ∧ r.time ≤ sim.time ∧ r.fServiced = false

/-- While the Stopped variant is active, every picked-up request is already
serviced (nobody is in the elevator). -/
def StoppedClear (s : ECElevatorSim) : Prop :=
  s.currState = .ECElevatorStopped →
    ∀ (j : Nat) (r : ECElevatorSimRequest), s.listRequests[j]? = some r →
      r.fFloorReqDone = true → r.fServiced = true

/-- Floor invariant of a run with `N` floors: the floor count is `N`, every
request has origin and destination in `[1, N]` and different from each
other, the current floor is in `[1, N]`, the MovingUp variant is active only
at a floor >= 2 and the MovingDown variant only at a floor <= `N - 1`. -/
def FloorsOk (N : Int) (s : ECElevatorSim) : Prop :=
  s.numFloors = N ∧
  (∀ (j : Nat) (r : ECElevatorSimRequest), s.listRequests[j]? = some r →
    1 ≤ r.floorSrc ∧ r.floorSrc ≤ N ∧ 1 ≤ r.floorDest ∧ r.floorDest ≤ N ∧
      r.floorSrc ≠ r.floorDest) ∧
  1 ≤ s.currFloor ∧ s.currFloor ≤ N ∧
  (s.currState = .ECElevatorUp → 2 ≤ s.currFloor) ∧
  (s.currState = .ECElevatorDown → s.currFloor ≤ N - 1)

/-- Closed-form service time of a lone request made at `r.time` from floor
`r.floorSrc` to floor `r.floorDest`, as the claim words it: `t + |d - s|` if
`s = 1`, and `t + s + |d - s|` otherwise. -/
def loneServiceTime (r : ECElevatorSimRequest) : Int :=
  if r.floorSrc = 1 then r.time + ((r.floorDest - r.floorSrc).natAbs : Int)
  else r.time + r.floorSrc + ((r.floorDest - r.floorSrc).natAbs : Int)

/-! ## Same-floor service: what one pass does to each request -/

theorem DoCurrentFloorRequests_loop_length (F T : Int) (ps : List Nat)
    (reqs : List ECElevatorSimRequest) (b : Bool) :
    (DoCurrentFloorRequests.loop F T ps reqs b).listRequests.length = reqs.length := by
  induction ps generalizing reqs b with
  | nil => rfl
  | cons p ps ih =>
    unfold DoCurrentFloorRequests.loop
    split
    · simp [ih]
    · split_ifs <;> simp [ih]

theorem DoCurrentFloorRequests_loop_frame (F T : Int) (j : Nat) (ps : List Nat)
    (reqs : List ECElevatorSimRequest) (b : Bool) (hj : j ∉ ps) :
    (DoCurrentFloorRequests.loop F T ps reqs b).listRequests[j]? = reqs[j]? := by
  induction ps generalizing reqs b with
  | nil => rfl
  | cons p ps ih =>
    have hne : p ≠ j := fun h => hj (by simp [h])
    have hps : j ∉ ps := fun h => hj (by simp [h])
    unfold DoCurrentFloorRequests.loop
    split
    · simp [ih _ _ hps]
    · split_ifs <;> simp [ih _ _ hps, List.getElem?_set_ne hne]

theorem DoCurrentFloorRequests_loop_mem (F T : Int) (j : Nat) (ps : List Nat)
    (reqs : List ECElevatorSimRequest) (b : Bool) (r : ECElevatorSimRequest)
    (hnd : ps.Nodup) (hj : j ∈ ps) (hr : reqs[j]? = some r) :
    (DoCurrentFloorRequests.loop F T ps reqs b).listRequests[j]? =
      some (serviceOne F T r) := by
  induction ps generalizing reqs b with
  | nil => simp at hj
  | cons p ps ih =>
    have hp : p ∉ ps := (List.nodup_cons.mp hnd).1
    have hnd2 : ps.Nodup := (List.nodup_cons.mp hnd).2
    by_cases hjp : j = p
    · subst hjp
      have hlt : j < reqs.length := by
        rcases Nat.lt_or_ge j reqs.length with h | h
        · exact h
        · rw [List.getElem?_eq_none h] at hr; cases hr
      unfold DoCurrentFloorRequests.loop
      rw [hr]
      simp only
      unfold serviceOne
      split_ifs with h1 h2
      · rw [DoCurrentFloorRequests_loop_frame F T j ps _ _ hp]
        simp [List.getElem?_set_self, hlt]
      · rw [DoCurrentFloorRequests_loop_frame F T j ps _ _ hp]
        simp [List.getElem?_set_self, hlt]
      · simp only
        rw [DoCurrentFloorRequests_loop_frame F T j ps _ _ hp, hr]
    · have hjps : j ∈ ps := by
        rcases List.mem_cons.mp hj with h | h
        · exact absurd h hjp
        · exact h
      have hne : p ≠ j := fun h => hjp h.symm
      unfold DoCurrentFloorRequests.loop
      split
      · simp [ih _ _ hnd2 hjps hr]
      · split_ifs
        · simp only
          exact ih _ _ hnd2 hjps (by rw [List.getElem?_set_ne hne]; exact hr)
        · exact ih _ _ hnd2 hjps (by rw [List.getElem?_set_ne hne]; exact hr)
        · simp only
          exact ih _ _ hnd2 hjps hr

/-! ## The active-request query -/

theorem GetActiveRequests_loop_mem (T : Int) (j i : Nat) (rs : List ECElevatorSimRequest) :
    j ∈ GetActiveRequests.loop T i rs ↔
      i ≤ j ∧ ∃ r, rs[j - i]? = some r ∧ r.time ≤ T ∧ r.fServiced = false := by
  induction rs generalizing i with
  | nil => simp [GetActiveRequests.loop]
  | cons r rs ih =>
    unfold GetActiveRequests.loop
    rcases Nat.lt_trichotomy j i with hlt | heq | hgt
    · have h1 : ¬ i ≤ j := by omega
      have h2 : ¬ i + 1 ≤ j := by omega
      have h3 : j ≠ i := by omega
      split_ifs <;> simp [ih, h1, h2, h3]
    · subst heq
      have h2 : ¬ j + 1 ≤ j := by omega
      split_ifs with hc
      · simp [hc]
      · simp [ih, h2]
        intro h
        cases hs : r.fServiced
        · exact absurd ⟨h, hs⟩ hc
        · rfl
    · have h1 : i ≤ j := by omega
      have h2 : i + 1 ≤ j := by omega
      have h3 : j ≠ i := by omega
      have h4 : j - i = (j - (i + 1)) + 1 := by omega
      split_ifs <;> simp [ih, h1, h2, h3, h4]

theorem GetActiveRequests_loop_nodup (T : Int) (i : Nat) (rs : List ECElevatorSimRequest) :
    (GetActiveRequests.loop T i rs).Nodup := by
  induction rs generalizing i with
  | nil => simp [GetActiveRequests.loop]
  | cons r rs ih =>
    unfold GetActiveRequests.loop
    split_ifs
    · refine List.nodup_cons.mpr ⟨?_, ih (i + 1)⟩
      intro h
      have := ((GetActiveRequests_loop_mem T i (i + 1) rs).mp h).1
      omega
    · exact ih (i + 1)

theorem GetActiveRequests_eq (sim : ECElevatorSim) (a : List Nat) :
    GetActiveRequests sim a = GetActiveRequests.loop sim.time 0 sim.listRequests := by
  simp [GetActiveRequests]

theorem GetActiveRequests_mem (sim : ECElevatorSim) (a : List Nat) (j : Nat) :
    j ∈ GetActiveRequests sim a ↔
      ∃ r, sim.listRequests[j]? = some r ∧ r.time ≤ sim.time ∧ r.fServiced = false := by
  rw [GetActiveRequests_eq, GetActiveRequests_loop_mem]
  simp

theorem GetActiveRequests_nodup (sim : ECElevatorSim) (a : List Nat) :
    (GetActiveRequests sim a).Nodup := by
  rw [GetActiveRequests_eq]
  exact GetActiveRequests_loop_nodup _ _ _

/-- Effect of one same-floor service pass over the active requests on the
request stored at index `j`. -/
theorem DoCurrentFloorRequests_get (sim : ECElevatorSim) (j : Nat) (r : ECElevatorSimRequest)
    (hr : sim.listRequests[j]? = some r) :
    (DoCurrentFloorRequests sim (GetActiveRequests sim [])).listRequests[j]? =
      some (if r.time ≤ sim.time ∧ r.fServiced = false
        then serviceOne sim.currFloor sim.time r else r) := by
  unfold DoCurrentFloorRequests
  by_cases hj : j ∈ GetActiveRequests sim []
  · obtain ⟨r2, hr2, hact⟩ := (GetActiveRequests_mem sim [] j).mp hj
    rw [hr] at hr2
    cases hr2
    rw [DoCurrentFloorRequests_loop_mem _ _ j _ _ _ r (GetActiveRequests_nodup sim []) hj hr]
    simp [hact]
  · rw [DoCurrentFloorRequests_loop_frame _ _ j _ _ _ hj, hr]
    have : ¬ (r.time ≤ sim.time ∧ r.fServiced = false) := fun h =>
      hj ((GetActiveRequests_mem sim [] j).mpr ⟨r, hr, h⟩)
    simp only [this, if_false]

/-! ## One tick: frame facts shared by the three variants -/

theorem ECElevatorUp_advance_listRequests (sim : ECElevatorSim) (a : List Nat) :
    (ECElevatorUp.advance sim a).listRequests = sim.listRequests := by
  unfold ECElevatorUp.advance
  simp only [ECElevatorSim.SetCurrDir, ECElevatorSim.SetCurrFloor, ECElevatorSim.ChangeState]
  split_ifs <;> rfl

theorem ECElevatorDown_advance_listRequests (sim : ECElevatorSim) (a : List Nat) :
    (ECElevatorDown.advance sim a).listRequests = sim.listRequests := by
  unfold ECElevatorDown.advance
  simp only [ECElevatorSim.SetCurrDir, ECElevatorSim.SetCurrFloor, ECElevatorSim.ChangeState]
  split_ifs <;> rfl

theorem ECElevatorUp_advance_time (sim : ECElevatorSim) (a : List Nat) :
    (ECElevatorUp.advance sim a).time = sim.time := by
  unfold ECElevatorUp.advance
  simp only [ECElevatorSim.SetCurrDir, ECElevatorSim.SetCurrFloor, ECElevatorSim.ChangeState]
  split_ifs <;> rfl

theorem ECElevatorDown_advance_time (sim : ECElevatorSim) (a : List Nat) :
    (ECElevatorDown.advance sim a).time = sim.time := by
  unfold ECElevatorDown.advance
  simp only [ECElevatorSim.SetCurrDir, ECElevatorSim.SetCurrFloor, ECElevatorSim.ChangeState]
  split_ifs <;> rfl

theorem ECElevatorUp_advance_currFloor (sim : ECElevatorSim) (a : List Nat) :
    (ECElevatorUp.advance sim a).currFloor = sim.currFloor + 1 ∨
      (ECElevatorUp.advance sim a).currFloor = sim.currFloor - 1 := by
  unfold ECElevatorUp.advance
  simp only [ECElevatorSim.SetCurrDir, ECElevatorSim.SetCurrFloor, ECElevatorSim.ChangeState]
  split_ifs
  · exact Or.inl rfl
  · exact Or.inr rfl

theorem ECElevatorDown_advance_currFloor (sim : ECElevatorSim) (a : List Nat) :
    (ECElevatorDown.advance sim a).currFloor = sim.currFloor + 1 ∨
      (ECElevatorDown.advance sim a).currFloor = sim.currFloor - 1 := by
  unfold ECElevatorDown.advance
  simp only [ECElevatorSim.SetCurrDir, ECElevatorSim.SetCurrFloor, ECElevatorSim.ChangeState]
  split_ifs
  · exact Or.inr rfl
  · exact Or.inl rfl

theorem ECElevatorUp_advance_currDir (sim : ECElevatorSim) (a : List Nat) :
    (ECElevatorUp.advance sim a).currDir = (ECElevatorUp.advance sim a).currState.GetDirection := by
  unfold ECElevatorUp.advance
  simp only [ECElevatorSim.SetCurrDir, ECElevatorSim.SetCurrFloor, ECElevatorSim.ChangeState]

theorem ECElevatorDown_advance_currDir (sim : ECElevatorSim) (a : List Nat) :
    (ECElevatorDown.advance sim a).currDir =
      (ECElevatorDown.advance sim a).currState.GetDirection := by
  unfold ECElevatorDown.advance
  simp only [ECElevatorSim.SetCurrDir, ECElevatorSim.SetCurrFloor, ECElevatorSim.ChangeState]

/-- The request list after a tick of the Stopped variant is the old one, or
the old one after one same-floor service pass over the active requests. -/
theorem ECElevatorStopped_NextDecision_listRequests (sim : ECElevatorSim) :
    (ECElevatorStopped.NextDecision sim).listRequests = sim.listRequests ∨
    (ECElevatorStopped.NextDecision sim).listRequests =
      (DoCurrentFloorRequests sim (GetActiveRequests sim [])).listRequests := by
  unfold ECElevatorStopped.NextDecision
  simp only [ECElevatorSim.SetCurrDir, ECElevatorSim.SetCurrFloor, ECElevatorSim.ChangeState,
    ECElevatorSim.SetTime]
  split_ifs
  · exact Or.inr rfl
  · exact Or.inr rfl
  · exact Or.inl rfl

theorem ECElevatorUp_NextDecision_listRequests (sim : ECElevatorSim) :
    (ECElevatorUp.NextDecision sim).listRequests = sim.listRequests ∨
    (ECElevatorUp.NextDecision sim).listRequests =
      (DoCurrentFloorRequests sim (GetActiveRequests sim [])).listRequests := by
  unfold ECElevatorUp.NextDecision
  simp only [ECElevatorSim.SetCurrDir, ECElevatorSim.ChangeState, ECElevatorSim.SetTime]
  split_ifs
  · exact Or.inl rfl
  · exact Or.inl (ECElevatorUp_advance_listRequests _ _)
  · exact Or.inr (ECElevatorUp_advance_listRequests _ _)
  · exact Or.inr rfl

theorem ECElevatorDown_NextDecision_listRequests (sim : ECElevatorSim) :
    (ECElevatorDown.NextDecision sim).listRequests = sim.listRequests ∨
    (ECElevatorDown.NextDecision sim).listRequests =
      (DoCurrentFloorRequests sim (GetActiveRequests sim [])).listRequests := by
  unfold ECElevatorDown.NextDecision
  simp only [ECElevatorSim.SetCurrDir, ECElevatorSim.ChangeState, ECElevatorSim.SetTime]
  split_ifs
  · exact Or.inl rfl
  · exact Or.inl (ECElevatorDown_advance_listRequests _ _)
  · exact Or.inr (ECElevatorDown_advance_listRequests _ _)
  · exact Or.inr rfl

theorem NextDecision_listRequests (sim : ECElevatorSim) :
    (NextDecision sim).listRequests = sim.listRequests ∨
    (NextDecision sim).listRequests =
      (DoCurrentFloorRequests sim (GetActiveRequests sim [])).listRequests := by
  unfold NextDecision
  split
  · exact ECElevatorStopped_NextDecision_listRequests sim
  · exact ECElevatorUp_NextDecision_listRequests sim
  · exact ECElevatorDown_NextDecision_listRequests sim

/-- Every variant advances the clock by exactly one. -/
theorem ECElevatorStopped_NextDecision_time (sim : ECElevatorSim) :
    (ECElevatorStopped.NextDecision sim).time = sim.time + 1 := by
  unfold ECElevatorStopped.NextDecision
  simp only [ECElevatorSim.SetCurrDir, ECElevatorSim.SetCurrFloor, ECElevatorSim.ChangeState,
    ECElevatorSim.SetTime]
  split_ifs <;> rfl

theorem ECElevatorUp_NextDecision_time (sim : ECElevatorSim) :
    (ECElevatorUp.NextDecision sim).time = sim.time + 1 := by
  unfold ECElevatorUp.NextDecision
  simp only [ECElevatorSim.SetCurrDir, ECElevatorSim.ChangeState, ECElevatorSim.SetTime]
  split_ifs <;> simp [ECElevatorUp_advance_time]

theorem ECElevatorDown_NextDecision_time (sim : ECElevatorSim) :
    (ECElevatorDown.NextDecision sim).time = sim.time + 1 := by
  unfold ECElevatorDown.NextDecision
  simp only [ECElevatorSim.SetCurrDir, ECElevatorSim.ChangeState, ECElevatorSim.SetTime]
  split_ifs <;> simp [ECElevatorDown_advance_time]

theorem NextDecision_time (sim : ECElevatorSim) :
    (NextDecision sim).time = sim.time + 1 := by
  unfold NextDecision
  split
  · exact ECElevatorStopped_NextDecision_time sim
  · exact ECElevatorUp_NextDecision_time sim
  · exact ECElevatorDown_NextDecision_time sim

/-- A tick of a variant keeps the active variant, or ends with the reported
direction equal to the direction of the active variant. -/
theorem ECElevatorStopped_NextDecision_currDir (sim : ECElevatorSim) :
    (ECElevatorStopped.NextDecision sim).currState = sim.currState ∨
      (ECElevatorStopped.NextDecision sim).currDir =
        (ECElevatorStopped.NextDecision sim).currState.GetDirection := by
  unfold ECElevatorStopped.NextDecision
  simp only [ECElevatorSim.SetCurrDir, ECElevatorSim.SetCurrFloor, ECElevatorSim.ChangeState,
    ECElevatorSim.SetTime]
  split_ifs
  · exact Or.inr rfl
  · exact Or.inr rfl
  · exact Or.inl rfl

theorem ECElevatorUp_NextDecision_currDir (sim : ECElevatorSim) :
    (ECElevatorUp.NextDecision sim).currState = sim.currState ∨
      (ECElevatorUp.NextDecision sim).currDir =
        (ECElevatorUp.NextDecision sim).currState.GetDirection := by
  unfold ECElevatorUp.NextDecision
  simp only [ECElevatorSim.SetCurrDir, ECElevatorSim.ChangeState, ECElevatorSim.SetTime]
  split_ifs
  · exact Or.inr rfl
  · exact Or.inr (ECElevatorUp_advance_currDir _ _)
  · exact Or.inr (ECElevatorUp_advance_currDir _ _)
  · exact Or.inl rfl

theorem ECElevatorDown_NextDecision_currDir (sim : ECElevatorSim) :
    (ECElevatorDown.NextDecision sim).currState = sim.currState ∨
      (ECElevatorDown.NextDecision sim).currDir =
        (ECElevatorDown.NextDecision sim).currState.GetDirection := by
  unfold ECElevatorDown.NextDecision
  simp only [ECElevatorSim.SetCurrDir, ECElevatorSim.ChangeState, ECElevatorSim.SetTime]
  split_ifs
  · exact Or.inr rfl
  · exact Or.inr (ECElevatorDown_advance_currDir _ _)
  · exact Or.inr (ECElevatorDown_advance_currDir _ _)
  · exact Or.inl rfl

/-! ## One tick: effect on a single request -/

/-- A list that is the old request list, or the old list after one service
pass over the active requests, holds at every index either the old request
or the old request after `serviceOne`, the latter only for an active one. -/
theorem listRequests_get_of_cases (sim : ECElevatorSim) (L : List ECElevatorSimRequest)
    (hL : L = sim.listRequests ∨
      L = (DoCurrentFloorRequests sim (GetActiveRequests sim [])).listRequests) (j : Nat) :
    L[j]? = sim.listRequests[j]? ∨
      ∃ r, sim.listRequests[j]? = some r ∧ r.time ≤ sim.time ∧ r.fServiced = false ∧
        L[j]? = some (serviceOne sim.currFloor sim.time r) := by
  rcases hL with h | h
  · exact Or.inl (by rw [h])
  · cases hr : sim.listRequests[j]? with
    | none =>
      left
      rw [h]
      have hlen : sim.listRequests.length ≤ j := by
        rcases Nat.lt_or_ge j sim.listRequests.length with hlt | hge
        · rw [List.getElem?_eq_getElem hlt] at hr; cases hr
        · exact hge
      apply List.getElem?_eq_none
      unfold DoCurrentFloorRequests
      rw [DoCurrentFloorRequests_loop_length]
      exact hlen
    | some r =>
      have hget := DoCurrentFloorRequests_get sim j r hr
      by_cases hact : r.time ≤ sim.time ∧ r.fServiced = false
      · right
        refine ⟨r, rfl, hact.1, hact.2, ?_⟩
        rw [h, hget]
        simp only [hact, and_self, if_true]
      · left
        rw [h, hget]
        simp only [hact, if_false]

theorem NextDecision_get (sim : ECElevatorSim) (j : Nat) :
    (NextDecision sim).listRequests[j]? = sim.listRequests[j]? ∨
      ∃ r, sim.listRequests[j]? = some r ∧ r.time ≤ sim.time ∧ r.fServiced = false ∧
        (NextDecision sim).listRequests[j]? = some (serviceOne sim.currFloor sim.time r) :=
  listRequests_get_of_cases sim _ (NextDecision_listRequests sim) j

theorem NextDecision_length (sim : ECElevatorSim) :
    (NextDecision sim).listRequests.length = sim.listRequests.length := by
  rcases NextDecision_listRequests sim with h | h
  · rw [h]
  · rw [h]
    unfold DoCurrentFloorRequests
    exact DoCurrentFloorRequests_loop_length _ _ _ _ _

theorem serviceOne_time (F T : Int) (r : ECElevatorSimRequest) :
    (serviceOne F T r).time = r.time := by
  unfold serviceOne
  split_ifs <;> rfl

theorem serviceOne_floorSrc (F T : Int) (r : ECElevatorSimRequest) :
    (serviceOne F T r).floorSrc = r.floorSrc := by
  unfold serviceOne
  split_ifs <;> rfl

theorem serviceOne_floorDest (F T : Int) (r : ECElevatorSimRequest) :
    (serviceOne F T r).floorDest = r.floorDest := by
  unfold serviceOne
  split_ifs <;> rfl

/-- Flags after `serviceOne`, case by case. -/
theorem serviceOne_cases (F T : Int) (r : ECElevatorSimRequest) :
    (r.floorSrc = F ∧ r.fFloorReqDone = false ∧
        serviceOne F T r = { r with fFloorReqDone := true }) ∨
    (r.floorDest = F ∧ r.fFloorReqDone = true ∧
        serviceOne F T r = { r with timeArrive := T, fServiced := true }) ∨
    serviceOne F T r = r := by
  unfold serviceOne
  split_ifs with h1 h2
  · exact Or.inl ⟨h1.1, h1.2, rfl⟩
  · exact Or.inr (Or.inl ⟨h2.1, h2.2, rfl⟩)
  · exact Or.inr (Or.inr rfl)

/-! ## Runs -/

theorem iterate_time (n : Nat) (sim : ECElevatorSim) :
    (NextDecision^[n] sim).time = sim.time + n := by
  induction n generalizing sim with
  | zero => simp
  | succ n ih =>
    rw [Function.iterate_succ_apply, ih, NextDecision_time]
    push_cast
    ring

theorem Simulate_loop_eq_iterate (lenSim time : Int) (sim : ECElevatorSim) :
    Simulate.loop lenSim time sim = NextDecision^[(lenSim - time).toNat] sim := by
  generalize hn : (lenSim - time).toNat = n
  induction n generalizing time sim with
  | zero =>
    rw [Simulate.loop]
    have : ¬ time < lenSim := by omega
    simp [this]
  | succ n ih =>
    rw [Simulate.loop]
    have h1 : time < lenSim := by omega
    have h2 : (lenSim - (time + 1)).toNat = n := by omega
    simp only [h1, if_true]
    rw [ih (time + 1) (NextDecision sim) h2, Function.iterate_succ_apply]

theorem Simulate_eq_iterate (lenSim : Int) (sim : ECElevatorSim) :
    Simulate lenSim sim = NextDecision^[lenSim.toNat] sim := by
  unfold Simulate
  rw [Simulate_loop_eq_iterate]
  simp

theorem Reachable_step {init s : ECElevatorSim} (h : Reachable init s) :
    Reachable init (NextDecision s) := by
  obtain ⟨n, hn⟩ := h
  exact ⟨n + 1, by rw [Function.iterate_succ_apply', hn]⟩

/-- Induction over the runs from `init`. -/
theorem Reachable_induct {init : ECElevatorSim} (P : ECElevatorSim → Prop)
    (h0 : P init) (hstep : ∀ s, Reachable init s → P s → P (NextDecision s))
    {s : ECElevatorSim} (h : Reachable init s) : P s := by
  obtain ⟨n, hn⟩ := h
  subst hn
  induction n with
  | zero => exact h0
  | succ n ih =>
    rw [Function.iterate_succ_apply']
    exact hstep _ ⟨n, rfl⟩ ih

/-! ## Invariants of runs -/

theorem ServicedOk_step (s : ECElevatorSim) (h : ServicedOk s) : ServicedOk (NextDecision s) := by
  intro j r' hr' hserv
  rcases NextDecision_get s j with heq | ⟨r, hr, htime, hns, hget⟩
  · exact h j r' (by rw [← heq]; exact hr') hserv
  · rw [hget] at hr'
    cases hr'
    rcases serviceOne_cases s.currFloor s.time r with ⟨_, _, he⟩ | ⟨_, hdone, he⟩ | he
    · rw [he] at hserv
      simp only at hserv
      rw [hns] at hserv
      cases hserv
    · rw [he]
      exact ⟨hdone, htime⟩
    · rw [he] at hserv
      rw [hns] at hserv
      cases hserv

theorem FutureFresh_step (s : ECElevatorSim) (h : FutureFresh s) :
    FutureFresh (NextDecision s) := by
  intro j r' hr' hfut
  rw [NextDecision_time] at hfut
  rcases NextDecision_get s j with heq | ⟨r, hr, htime, hns, hget⟩
  · exact h j r' (by rw [← heq]; exact hr') (by omega)
  · rw [hget] at hr'
    cases hr'
    rw [serviceOne_time] at hfut
    omega

theorem ServicedOk_init (N : Int) (reqs : List ECElevatorSimRequest)
    (hfresh : ∀ r ∈ reqs, r.fresh) : ServicedOk (ECElevatorSim.new N reqs) := by
  intro j r hr hserv
  have := (hfresh r (List.getElem?_mem hr)).2
  rw [this] at hserv
  cases hserv

theorem FutureFresh_init (N : Int) (reqs : List ECElevatorSimRequest)
    (hfresh : ∀ r ∈ reqs, r.fresh) : FutureFresh (ECElevatorSim.new N reqs) := by
  intro j r hr _
  exact hfresh r (List.getElem?_mem hr)

/-! ## The claims -/

/-- C1 (the code breaks it): with three floors and the single request
(origin 1, destination 1, created at tick 0), whose floors lie in [1, 3] and
which is neither picked up nor serviced, the state after the first tick is
reachable from the initial state and has current floor 0, outside [1, 3]. -/
theorem C1_floor_leaves_range :
    (∀ r ∈ [ECElevatorSimRequest.request 1 1 0],
      1 ≤ r.floorSrc ∧ r.floorSrc ≤ 3 ∧ 1 ≤ r.floorDest ∧ r.floorDest ≤ 3 ∧ 0 ≤ r.time ∧
        r.fFloorReqDone = false ∧ r.fServiced = false) ∧
    Reachable (ECElevatorSim.new 3 [ECElevatorSimRequest.request 1 1 0])
      (NextDecision (ECElevatorSim.new 3 [ECElevatorSimRequest.request 1 1 0])) ∧
    (NextDecision (ECElevatorSim.new 3 [ECElevatorSimRequest.request 1 1 0])).currFloor = 0 ∧
    ¬ (1 ≤ (NextDecision (ECElevatorSim.new 3 [ECElevatorSimRequest.request 1 1 0])).currFloor) :=
  ⟨by decide, ⟨1, rfl⟩, by decide, by decide⟩

/-- C2: for every state, one tick (the `NextDecision` of the active variant)
leaves the current floor unchanged, or raises it by one, or lowers it by
one. -/
theorem C2_floor_changes_by_at_most_one (sim : ECElevatorSim) :
    (NextDecision sim).currFloor = sim.currFloor ∨
    (NextDecision sim).currFloor = sim.currFloor + 1 ∨
    (NextDecision sim).currFloor = sim.currFloor - 1 := by
  unfold NextDecision
  split
  · unfold ECElevatorStopped.NextDecision
    simp only [ECElevatorSim.SetCurrDir, ECElevatorSim.SetCurrFloor, ECElevatorSim.ChangeState,
      ECElevatorSim.SetTime]
    split_ifs
    · exact Or.inr (Or.inl rfl)
    · exact Or.inr (Or.inr rfl)
    · exact Or.inl rfl
  · unfold ECElevatorUp.NextDecision
    simp only [ECElevatorSim.SetCurrDir, ECElevatorSim.ChangeState, ECElevatorSim.SetTime]
    split_ifs
    · exact Or.inl rfl
    · exact Or.inr (ECElevatorUp_advance_currFloor _ _)
    · exact Or.inr (ECElevatorUp_advance_currFloor _ _)
    · exact Or.inl rfl
  · unfold ECElevatorDown.NextDecision
    simp only [ECElevatorSim.SetCurrDir, ECElevatorSim.ChangeState, ECElevatorSim.SetTime]
    split_ifs
    · exact Or.inl rfl
    · exact Or.inr (ECElevatorDown_advance_currFloor _ _)
    · exact Or.inr (ECElevatorDown_advance_currFloor _ _)
    · exact Or.inl rfl

/-- C3: in every state reachable from the initial state (all requests not
picked up and not serviced, creation times >= 0), every serviced request is
picked up and its arrival time is at least its creation time. -/
theorem C3_serviced_implies_picked_up (N : Int) (reqs : List ECElevatorSimRequest)
    (hfresh : ∀ r ∈ reqs, r.fFloorReqDone = false ∧ r.fServiced = false)
    (_hcreated : ∀ r ∈ reqs, 0 ≤ r.time)
    (s : ECElevatorSim) (hs : Reachable (ECElevatorSim.new N reqs) s)
    (r : ECElevatorSimRequest) (hr : r ∈ s.listRequests) (hserv : r.fServiced = true) :
    r.fFloorReqDone = true ∧ r.timeArrive ≥ r.time := by
  obtain ⟨j, hj⟩ := List.mem_iff_getElem?.mp hr
  have hinv : ServicedOk s :=
    Reachable_induct ServicedOk (ServicedOk_init N reqs hfresh) (fun t _ ht => ServicedOk_step t ht) hs
  exact hinv j r hj hserv

/-- C3 at a concrete run: five floors, one request from floor 1 to floor 5
made at tick 0, ten ticks. -/
theorem C3_serviced_implies_picked_up_witness :
    (⟨1, 5, 0, true, true, 4⟩ : ECElevatorSimRequest) ∈
      (NextDecision^[10] (ECElevatorSim.new 5 [ECElevatorSimRequest.request 1 5 0])).listRequests ∧
    ((⟨1, 5, 0, true, true, 4⟩ : ECElevatorSimRequest).fFloorReqDone = true ∧
      (⟨1, 5, 0, true, true, 4⟩ : ECElevatorSimRequest).timeArrive ≥
        (⟨1, 5, 0, true, true, 4⟩ : ECElevatorSimRequest).time) :=
  ⟨by decide,
   C3_serviced_implies_picked_up 5 [ECElevatorSimRequest.request 1 5 0] (by decide) (by decide)
    (NextDecision^[10] (ECElevatorSim.new 5 [ECElevatorSimRequest.request 1 5 0])) ⟨10, rfl⟩
    ⟨1, 5, 0, true, true, 4⟩ (by decide) rfl⟩

/-- C4: in a tick executed at floor `F = sim.currFloor` and clock
`T = sim.time`, for the request stored at any index `j` (`r` before the tick,
`r'` after it): if its picked-up flag goes from false to true then its origin
is `F`; if its serviced flag goes from false to true then it was already
picked up before the tick, its destination is `F` and its arrival time after
the tick is `T`; in particular it is not both picked up and serviced in this
tick. -/
theorem C4_flag_transitions (sim : ECElevatorSim) (j : Nat) (r r' : ECElevatorSimRequest)
    (hr : sim.listRequests[j]? = some r)
    (hr' : (NextDecision sim).listRequests[j]? = some r') :
    (r.fFloorReqDone = false → r'.fFloorReqDone = true → r.floorSrc = sim.currFloor) ∧
    (r.fServiced = false → r'.fServiced = true →
      r.fFloorReqDone = true ∧ r.floorDest = sim.currFloor ∧ r'.timeArrive = sim.time) ∧
    ¬ (r.fFloorReqDone = false ∧ r'.fFloorReqDone = true ∧
        r.fServiced = false ∧ r'.fServiced = true) := by
  have key : r' = r ∨ r' = serviceOne sim.currFloor sim.time r := by
    rcases NextDecision_get sim j with heq | ⟨r2, hr2, _, _, hget⟩
    · left
      rw [heq, hr] at hr'
      cases hr'
      rfl
    · right
      rw [hr] at hr2
      cases hr2
      rw [hget] at hr'
      cases hr'
      rfl
  rcases key with he | he
  · subst he
    refine ⟨?_, ?_, ?_⟩
    · intro h1 h2; rw [h1] at h2; cases h2
    · intro h1 h2; rw [h1] at h2; cases h2
    · rintro ⟨h1, h2, _, _⟩; rw [h1] at h2; cases h2
  · rcases serviceOne_cases sim.currFloor sim.time r with ⟨hsrc, hnd, hs⟩ | ⟨hdst, hd, hs⟩ | hs
    · rw [hs] at he
      subst he
      refine ⟨fun _ _ => hsrc, ?_, ?_⟩
      · intro h1 h2; simp only at h2; rw [h1] at h2; cases h2
      · rintro ⟨_, _, h1, h2⟩; simp only at h2; rw [h1] at h2; cases h2
    · rw [hs] at he
      subst he
      refine ⟨?_, fun _ _ => ⟨hd, hdst, rfl⟩, ?_⟩
      · intro h1; rw [hd] at h1; cases h1
      · rintro ⟨h1, _⟩; rw [hd] at h1; cases h1
    · rw [hs] at he
      subst he
      refine ⟨?_, ?_, ?_⟩
      · intro h1 h2; rw [h1] at h2; cases h2
      · intro h1 h2; rw [h1] at h2; cases h2
      · rintro ⟨h1, h2, _, _⟩; rw [h1] at h2; cases h2

/-- C4 at a concrete tick: floor 5 at clock 4 in the Up variant, where the
request from floor 1 to floor 5, picked up earlier, is serviced. -/
theorem C4_flag_transitions_witness :
    (⟨5, 5, .EC_ELEVATOR_UP, .ECElevatorUp, 4, [⟨1, 5, 0, true, false, -1⟩]⟩ :
        ECElevatorSim).listRequests[0]? = some ⟨1, 5, 0, true, false, -1⟩ ∧
    (NextDecision ⟨5, 5, .EC_ELEVATOR_UP, .ECElevatorUp, 4,
        [⟨1, 5, 0, true, false, -1⟩]⟩).listRequests[0]? = some ⟨1, 5, 0, true, true, 4⟩ ∧
    ((⟨1, 5, 0, true, false, -1⟩ : ECElevatorSimRequest).fFloorReqDone = true ∧
      (⟨1, 5, 0, true, false, -1⟩ : ECElevatorSimRequest).floorDest = 5 ∧
      (⟨1, 5, 0, true, true, 4⟩ : ECElevatorSimRequest).timeArrive = 4) :=
  ⟨rfl, by decide,
    (C4_flag_transitions
      ⟨5, 5, .EC_ELEVATOR_UP, .ECElevatorUp, 4, [⟨1, 5, 0, true, false, -1⟩]⟩ 0
      ⟨1, 5, 0, true, false, -1⟩ ⟨1, 5, 0, true, true, 4⟩ rfl (by decide)).2.1 rfl rfl⟩

/-- C5: in every state `s` reachable from the initial state (requests not
picked up and not serviced), with clock `T = s.time`, a request whose
creation time is >= `T` is still not picked up and not serviced; and a
request is in the active-request sequence computed at `T` exactly when its
creation time is <= `T` and it is not serviced. -/
theorem C5_not_before_creation (N : Int) (reqs : List ECElevatorSimRequest)
    (hfresh : ∀ r ∈ reqs, r.fFloorReqDone = false ∧ r.fServiced = false)
    (s : ECElevatorSim) (hs : Reachable (ECElevatorSim.new N reqs) s)
    (j : Nat) (r : ECElevatorSimRequest) (hr : s.listRequests[j]? = some r) :
    (r.time ≥ s.time → r.fFloorReqDone = false ∧ r.fServiced = false) ∧
    (∀ a : List Nat, j ∈ GetActiveRequests s a ↔ (r.time ≤ s.time ∧ r.fServiced = false)) := by
  have hinv : FutureFresh s :=
    Reachable_induct FutureFresh (FutureFresh_init N reqs hfresh) (fun t _ ht => FutureFresh_step t ht) hs
  refine ⟨fun h => hinv j r hr h, fun a => ?_⟩
  rw [GetActiveRequests_mem]
  constructor
  · rintro ⟨r2, hr2, h⟩
    rw [hr] at hr2
    cases hr2
    exact h
  · intro h
    exact ⟨r, hr, h⟩

/-- C5 at a concrete run: five floors, a request from 1 to 5 made at tick 0
and a request from 3 to 1 made at tick 5.  After four ticks the elevator has
passed floor 3 and stands at floor 5; the second request is untouched and
not active. -/
theorem C5_not_before_creation_witness :
    (NextDecision^[4] (ECElevatorSim.new 5
      [ECElevatorSimRequest.request 1 5 0, ECElevatorSimRequest.request 3 1 5])).currFloor = 5 ∧
    (NextDecision^[4] (ECElevatorSim.new 5
      [ECElevatorSimRequest.request 1 5 0, ECElevatorSimRequest.request 3 1 5])).time = 4 ∧
    ((ECElevatorSimRequest.request 3 1 5).fFloorReqDone = false ∧
      (ECElevatorSimRequest.request 3 1 5).fServiced = false) ∧
    1 ∉ GetActiveRequests (NextDecision^[4] (ECElevatorSim.new 5
      [ECElevatorSimRequest.request 1 5 0, ECElevatorSimRequest.request 3 1 5])) [] :=
  have h := C5_not_before_creation 5
    [ECElevatorSimRequest.request 1 5 0, ECElevatorSimRequest.request 3 1 5] (by decide)
    (NextDecision^[4] (ECElevatorSim.new 5
      [ECElevatorSimRequest.request 1 5 0, ECElevatorSimRequest.request 3 1 5])) ⟨4, rfl⟩
    1 (ECElevatorSimRequest.request 3 1 5) (by decide)
  ⟨by decide, by decide, h.1 (by decide), fun hmem => absurd ((h.2 []).mp hmem).1 (by decide)⟩

/-- C6: a request that is serviced before a tick is the same record after it
(origin, destination, creation time, picked-up flag, serviced flag, arrival
time), whichever of the three variants executes the tick. -/
theorem C6_serviced_frozen (sim : ECElevatorSim) (j : Nat) (r : ECElevatorSimRequest)
    (hr : sim.listRequests[j]? = some r) (hserv : r.fServiced = true) :
    (ECElevatorStopped.NextDecision sim).listRequests[j]? = some r ∧
    (ECElevatorUp.NextDecision sim).listRequests[j]? = some r ∧
    (ECElevatorDown.NextDecision sim).listRequests[j]? = some r ∧
    (NextDecision sim).listRequests[j]? = some r := by
  have key : ∀ L : List ECElevatorSimRequest,
      (L = sim.listRequests ∨
        L = (DoCurrentFloorRequests sim (GetActiveRequests sim [])).listRequests) →
      L[j]? = some r := by
    intro L hL
    rcases listRequests_get_of_cases sim L hL j with heq | ⟨r2, hr2, _, hns, _⟩
    · rw [heq, hr]
    · rw [hr] at hr2
      cases hr2
      rw [hserv] at hns
      cases hns
  exact ⟨key _ (ECElevatorStopped_NextDecision_listRequests sim),
    key _ (ECElevatorUp_NextDecision_listRequests sim),
    key _ (ECElevatorDown_NextDecision_listRequests sim),
    key _ (NextDecision_listRequests sim)⟩

/-- C6 at a concrete tick: the Down variant standing at floor 1, the
destination of a request that is already serviced. -/
theorem C6_serviced_frozen_witness :
    (NextDecision ⟨5, 1, .EC_ELEVATOR_DOWN, .ECElevatorDown, 9,
      [⟨3, 1, 0, true, true, 7⟩, ⟨1, 2, 0, false, false, -1⟩]⟩).listRequests[0]? =
        some ⟨3, 1, 0, true, true, 7⟩ :=
  (C6_serviced_frozen ⟨5, 1, .EC_ELEVATOR_DOWN, .ECElevatorDown, 9,
      [⟨3, 1, 0, true, true, 7⟩, ⟨1, 2, 0, false, false, -1⟩]⟩ 0
      ⟨3, 1, 0, true, true, 7⟩ rfl rfl).2.2.2

/-- C7: `Simulate lenSim` runs exactly `max lenSim 0` ticks, each adding one
to the clock; from the freshly constructed state the clock afterwards is
`max lenSim 0`; and for `lenSim <= 0` the state is returned unchanged. -/
theorem C7_simulate_tick_count (lenSim : Int) (sim : ECElevatorSim) (N : Int)
    (reqs : List ECElevatorSimRequest) :
    Simulate lenSim sim = NextDecision^[(max lenSim 0).toNat] sim ∧
    (∀ t : ECElevatorSim, (NextDecision t).time = t.time + 1) ∧
    (Simulate lenSim sim).time = sim.time + max lenSim 0 ∧
    (Simulate lenSim (ECElevatorSim.new N reqs)).time = max lenSim 0 ∧
    (lenSim ≤ 0 → Simulate lenSim sim = sim) := by
  have hmax : (max lenSim 0).toNat = lenSim.toNat := by
    rcases le_total lenSim 0 with h | h
    · rw [max_eq_right h]; omega
    · rw [max_eq_left h]
  have hcast : ((lenSim.toNat : Nat) : Int) = max lenSim 0 := by
    rcases le_total lenSim 0 with h | h
    · rw [max_eq_right h]; omega
    · rw [max_eq_left h]; omega
  refine ⟨?_, NextDecision_time, ?_, ?_, ?_⟩
  · rw [hmax, Simulate_eq_iterate]
  · rw [Simulate_eq_iterate, iterate_time, hcast]
  · rw [Simulate_eq_iterate, iterate_time, hcast]
    simp [ECElevatorSim.new]
  · intro h
    rw [Simulate_eq_iterate]
    have : lenSim.toNat = 0 := by omega
    rw [this]
    rfl

/-- C7 at a concrete call: `Simulate (-3)` on a state with an active request
at the current floor returns that state. -/
theorem C7_simulate_tick_count_witness :
    (-3 : Int) ≤ 0 ∧
    Simulate (-3) ⟨5, 2, .EC_ELEVATOR_UP, .ECElevatorUp, 1, [⟨2, 4, 0, false, false, -1⟩]⟩ =
      ⟨5, 2, .EC_ELEVATOR_UP, .ECElevatorUp, 1, [⟨2, 4, 0, false, false, -1⟩]⟩ :=
  ⟨by decide,
    (C7_simulate_tick_count (-3)
      ⟨5, 2, .EC_ELEVATOR_UP, .ECElevatorUp, 1, [⟨2, 4, 0, false, false, -1⟩]⟩ 5 []).2.2.2.2
      (by decide)⟩

/-- C8 (Scenario A): five floors, one request from floor 1 to floor 5 made
at tick 0; after `Simulate 10` from the initial state the elevator is at
floor 5, the active variant and the reported direction are Stopped, and the
request is picked up and serviced with arrival time 4. -/
theorem C8_scenario_A :
    (Simulate 10 (ECElevatorSim.new 5 [ECElevatorSimRequest.request 1 5 0])).currFloor = 5 ∧
    (Simulate 10 (ECElevatorSim.new 5 [ECElevatorSimRequest.request 1 5 0])).currState =
      .ECElevatorStopped ∧
    (Simulate 10 (ECElevatorSim.new 5 [ECElevatorSimRequest.request 1 5 0])).currDir =
      .EC_ELEVATOR_STOPPED ∧
    (Simulate 10 (ECElevatorSim.new 5 [ECElevatorSimRequest.request 1 5 0])).listRequests =
      [⟨1, 5, 0, true, true, 4⟩] := by
  rw [Simulate_eq_iterate]
  decide

/-- C9 (Scenario B): three floors, requests (1 to 3, made at 0) and
(3 to 1, made at 0).  After the first tick the variant is MovingUp and the
floor is 2, the closest target computed in that tick (after the same-floor
service, both targets at distance 2) being floor 3 above; and there is a
tick count (six) after which both requests are serviced, the first arriving
at tick 2 and the second at tick 5. -/
theorem C9_scenario_B :
    GetClosestRequestFloor
      { ECElevatorSim.new 3
          [ECElevatorSimRequest.request 1 3 0, ECElevatorSimRequest.request 3 1 0] with
        listRequests := (DoCurrentFloorRequests (ECElevatorSim.new 3
          [ECElevatorSimRequest.request 1 3 0, ECElevatorSimRequest.request 3 1 0])
          [0, 1]).listRequests }
      (DoCurrentFloorRequests (ECElevatorSim.new 3
        [ECElevatorSimRequest.request 1 3 0, ECElevatorSimRequest.request 3 1 0])
        [0, 1]).requests = 3 ∧
    (NextDecision (ECElevatorSim.new 3
      [ECElevatorSimRequest.request 1 3 0, ECElevatorSimRequest.request 3 1 0])).currState =
        .ECElevatorUp ∧
    (NextDecision (ECElevatorSim.new 3
      [ECElevatorSimRequest.request 1 3 0, ECElevatorSimRequest.request 3 1 0])).currFloor = 2 ∧
    (∃ n : Int, ∀ r ∈ (Simulate n (ECElevatorSim.new 3
      [ECElevatorSimRequest.request 1 3 0, ECElevatorSimRequest.request 3 1 0])).listRequests,
        r.fServiced = true) ∧
    (Simulate 6 (ECElevatorSim.new 3
      [ECElevatorSimRequest.request 1 3 0, ECElevatorSimRequest.request 3 1 0])).listRequests =
        [⟨1, 3, 0, true, true, 2⟩, ⟨3, 1, 0, true, true, 5⟩] := by
  refine ⟨by decide, by decide, by decide, ⟨6, ?_⟩, ?_⟩
  · rw [Simulate_eq_iterate]
    decide
  · rw [Simulate_eq_iterate]
    decide

/-- C10: for every state, if a tick changes the active variant then the
reported direction at the end of the tick is the direction of the new
variant. -/
theorem C10_direction_matches_new_variant (sim : ECElevatorSim)
    (h : (NextDecision sim).currState ≠ sim.currState) :
    (NextDecision sim).currDir = (NextDecision sim).currState.GetDirection := by
  have key : (NextDecision sim).currState = sim.currState ∨
      (NextDecision sim).currDir = (NextDecision sim).currState.GetDirection := by
    unfold NextDecision
    split
    · exact ECElevatorStopped_NextDecision_currDir sim
    · exact ECElevatorUp_NextDecision_currDir sim
    · exact ECElevatorDown_NextDecision_currDir sim
  rcases key with hk | hk
  · exact absurd hk h
  · exact hk

/-- C10 at a concrete tick: the Up variant at floor 3 with nothing above
reverses to Down and reports Down. -/
theorem C10_direction_matches_new_variant_witness :
    (NextDecision ⟨3, 3, .EC_ELEVATOR_STOPPED, .ECElevatorUp, 3,
      [⟨3, 1, 0, true, false, -1⟩]⟩).currState ≠ .ECElevatorUp ∧
    (NextDecision ⟨3, 3, .EC_ELEVATOR_STOPPED, .ECElevatorUp, 3,
      [⟨3, 1, 0, true, false, -1⟩]⟩).currDir = .EC_ELEVATOR_DOWN :=
  ⟨by decide,
    C10_direction_matches_new_variant
      ⟨3, 3, .EC_ELEVATOR_STOPPED, .ECElevatorUp, 3, [⟨3, 1, 0, true, false, -1⟩]⟩ (by decide)⟩

/-! ## C11: the active-request query is the order-preserving filter -/

theorem GetActiveRequests_loop_lookup (T : Int) (pre rs : List ECElevatorSimRequest) :
    (GetActiveRequests.loop T pre.length rs).map (fun k => (pre ++ rs)[k]?) =
      (rs.filter (ECElevatorSimRequest.isActive T)).map some := by
  induction rs generalizing pre with
  | nil => simp [GetActiveRequests.loop]
  | cons r rs ih =>
    have h := ih (pre ++ [r])
    simp only [List.length_append, List.length_singleton, List.append_assoc,
      List.singleton_append] at h
    unfold GetActiveRequests.loop
    by_cases hc : r.time ≤ T ∧ r.fServiced = false
    · have ha : ECElevatorSimRequest.isActive T r = true := by
        simp [ECElevatorSimRequest.isActive, hc.1, hc.2]
      simp only [hc, and_self, if_true, List.map_cons, List.filter_cons, ha, h]
      have hhead : (pre ++ r :: rs)[pre.length]? = some r := by
        rw [List.getElem?_append_right (Nat.le_refl _)]
        simp
      rw [hhead]
    · have ha : ECElevatorSimRequest.isActive T r = false := by
        cases hs : r.fServiced
        · have : ¬ r.time ≤ T := fun h1 => hc ⟨h1, hs⟩
          simp [ECElevatorSimRequest.isActive, this]
        · simp [ECElevatorSimRequest.isActive, hs]
      simp only [hc, if_false, List.filter_cons, ha, h]
      simp

theorem GetActiveRequests_loop_increasing (T : Int) (i : Nat) (rs : List ECElevatorSimRequest) :
    (GetActiveRequests.loop T i rs).Pairwise (fun a b => a < b) := by
  induction rs generalizing i with
  | nil => simp [GetActiveRequests.loop]
  | cons r rs ih =>
    unfold GetActiveRequests.loop
    split_ifs
    · refine List.pairwise_cons.mpr ⟨?_, ih (i + 1)⟩
      intro k hk
      have := ((GetActiveRequests_loop_mem T k (i + 1) rs).mp hk).1
      omega
    · exact ih (i + 1)

/-- C11: for every request list, clock `T = sim.time` and previous content
`a` of the output vector, `GetActiveRequests` returns pointers to exactly the
requests with creation time <= `T` and not serviced: the requests pointed to,
read in order, are the order-preserving filter of the full list by that
condition; the pointers are strictly increasing positions of the list (each
request once, in insertion order); a position is returned exactly when its
request meets the condition; and the result does not depend on `a`. -/
theorem C11_active_requests_filter (sim : ECElevatorSim) (a : List Nat) :
    (GetActiveRequests sim a).map (fun k => sim.listRequests[k]?) =
      (sim.listRequests.filter (fun r => decide (r.time ≤ sim.time) && !r.fServiced)).map some ∧
    (GetActiveRequests sim a).Pairwise (fun i j => i < j) ∧
    (∀ j : Nat, j ∈ GetActiveRequests sim a ↔
      ∃ r, sim.listRequests[j]? = some r ∧ r.time ≤ sim.time ∧ r.fServiced = false) ∧
    GetActiveRequests sim a = GetActiveRequests sim [] := by
  refine ⟨?_, ?_, fun j => GetActiveRequests_mem sim a j, ?_⟩
  · rw [GetActiveRequests_eq]
    have h := GetActiveRequests_loop_lookup sim.time [] sim.listRequests
    simp only [List.length_nil, List.nil_append] at h
    exact h
  · rw [GetActiveRequests_eq]
    exact GetActiveRequests_loop_increasing _ _ _
  · rw [GetActiveRequests_eq, GetActiveRequests_eq]

/-! ## C12: the same-floor service pass -/

theorem staysAfterService_set (F : Int) (reqs : List ECElevatorSimRequest) (p q : Nat)
    (x : ECElevatorSimRequest) (h : p ≠ q) :
    staysAfterService F (reqs.set p x) q = staysAfterService F reqs q := by
  unfold staysAfterService
  rw [List.getElem?_set_ne h]

theorem DoCurrentFloorRequests_loop_requests (F T : Int) (ps : List Nat)
    (reqs : List ECElevatorSimRequest) (b : Bool) (hnd : ps.Nodup) :
    (DoCurrentFloorRequests.loop F T ps reqs b).requests =
      ps.filter (staysAfterService F reqs) := by
  induction ps generalizing reqs b with
  | nil => rfl
  | cons p ps ih =>
    have hp : p ∉ ps := (List.nodup_cons.mp hnd).1
    have hnd2 : ps.Nodup := (List.nodup_cons.mp hnd).2
    have hcongr : ∀ x : ECElevatorSimRequest,
        ps.filter (staysAfterService F (reqs.set p x)) = ps.filter (staysAfterService F reqs) := by
      intro x
      apply List.filter_congr
      intro q hq
      exact staysAfterService_set F reqs p q x (fun e => hp (e ▸ hq))
    unfold DoCurrentFloorRequests.loop
    cases hr : reqs[p]? with
    | none =>
      have hk : staysAfterService F reqs p = true := by simp [staysAfterService, hr]
      simp only [List.filter_cons, hk, if_true, ih reqs b hnd2]
    | some r =>
      simp only
      split_ifs with h1 h2
      · have hk : staysAfterService F reqs p = true := by
          simp [staysAfterService, hr, h1.2]
        simp only [List.filter_cons, hk, if_true, ih _ _ hnd2, hcongr]
      · have hk : staysAfterService F reqs p = false := by
          simp [staysAfterService, hr, h2.1, h2.2]
        simp only [List.filter_cons, hk, ih _ _ hnd2, hcongr]
        simp
      · have hk : staysAfterService F reqs p = true := by
          simp only [staysAfterService, hr]
          cases hd : r.fFloorReqDone
          · simp
          · have : ¬ r.floorDest = F := fun e => h2 ⟨e, hd⟩
            simp [this]
        simp only [List.filter_cons, hk, if_true, ih reqs b hnd2]

theorem DoCurrentFloorRequests_loop_found (F T : Int) (ps : List Nat)
    (reqs : List ECElevatorSimRequest) (b : Bool) (hnd : ps.Nodup) :
    (DoCurrentFloorRequests.loop F T ps reqs b).requestFound = true ↔
      b = true ∨ ∃ p ∈ ps, ∃ r, reqs[p]? = some r ∧
        ((r.floorSrc = F ∧ r.fFloorReqDone = false) ∨
          (r.floorDest = F ∧ r.fFloorReqDone = true)) := by
  induction ps generalizing reqs b with
  | nil => simp [DoCurrentFloorRequests.loop]
  | cons p ps ih =>
    have hp : p ∉ ps := (List.nodup_cons.mp hnd).1
    have hnd2 : ps.Nodup := (List.nodup_cons.mp hnd).2
    unfold DoCurrentFloorRequests.loop
    cases hr : reqs[p]? with
    | none =>
      simp only [ih reqs b hnd2]
      constructor
      · rintro (hb | ⟨q, hq, r, hqr, hc⟩)
        · exact Or.inl hb
        · exact Or.inr ⟨q, List.mem_cons_of_mem _ hq, r, hqr, hc⟩
      · rintro (hb | ⟨q, hq, r, hqr, hc⟩)
        · exact Or.inl hb
        · rcases List.mem_cons.mp hq with e | hq2
          · subst e; rw [hr] at hqr; cases hqr
          · exact Or.inr ⟨q, hq2, r, hqr, hc⟩
    | some r =>
      simp only
      split_ifs with h1 h2
      · simp only [ih _ true hnd2, true_or, true_iff]
        exact Or.inr ⟨p, List.mem_cons_self _ _, r, hr, Or.inl h1⟩
      · simp only [ih _ true hnd2, true_or, true_iff]
        exact Or.inr ⟨p, List.mem_cons_self _ _, r, hr, Or.inr h2⟩
      · simp only [ih reqs b hnd2]
        constructor
        · rintro (hb | ⟨q, hq, r2, hqr, hc⟩)
          · exact Or.inl hb
          · exact Or.inr ⟨q, List.mem_cons_of_mem _ hq, r2, hqr, hc⟩
        · rintro (hb | ⟨q, hq, r2, hqr, hc⟩)
          · exact Or.inl hb
          · rcases List.mem_cons.mp hq with e | hq2
            · subst e
              rw [hr] at hqr
              cases hqr
              rcases hc with hc | hc
              · exact absurd hc h1
              · exact absurd hc h2
            · exact Or.inr ⟨q, hq2, r2, hqr, hc⟩

/-- C12: for every sequence `ps` of distinct request pointers, current floor
`F = sim.currFloor` and clock `T = sim.time`, one call of
`DoCurrentFloorRequests` treats each pointed-to request once: (1) a request
with origin `F` that is not picked up becomes picked up (nothing else
changes) and its pointer stays; (2) a request with destination `F` that is
picked up gets arrival time `T` and serviced = true and its pointer is
removed; (3) any other request is unchanged and its pointer stays; requests
not pointed to are unchanged; the resulting sequence is `ps` without the
pointers of case (2), in the same order; and the call returns true exactly
when some pointed-to request fell under (1) or (2). -/
theorem C12_same_floor_service (sim : ECElevatorSim) (ps : List Nat) (hnd : ps.Nodup) :
    (∀ p ∈ ps, ∀ r : ECElevatorSimRequest, sim.listRequests[p]? = some r →
      ((r.floorSrc = sim.currFloor ∧ r.fFloorReqDone = false) →
        (DoCurrentFloorRequests sim ps).listRequests[p]? =
            some { r with fFloorReqDone := true } ∧
          p ∈ (DoCurrentFloorRequests sim ps).requests) ∧
      ((r.floorDest = sim.currFloor ∧ r.fFloorReqDone = true) →
        (DoCurrentFloorRequests sim ps).listRequests[p]? =
            some { r with timeArrive := sim.time, fServiced := true } ∧
          p ∉ (DoCurrentFloorRequests sim ps).requests) ∧
      ((¬ (r.floorSrc = sim.currFloor ∧ r.fFloorReqDone = false) ∧
          ¬ (r.floorDest = sim.currFloor ∧ r.fFloorReqDone = true)) →
        (DoCurrentFloorRequests sim ps).listRequests[p]? = some r ∧
          p ∈ (DoCurrentFloorRequests sim ps).requests)) ∧
    (∀ j : Nat, j ∉ ps →
      (DoCurrentFloorRequests sim ps).listRequests[j]? = sim.listRequests[j]?) ∧
    (DoCurrentFloorRequests sim ps).listRequests.length = sim.listRequests.length ∧
    (DoCurrentFloorRequests sim ps).requests =
      ps.filter (fun p =>
        match sim.listRequests[p]? with
        | some r => !(decide (r.floorDest = sim.currFloor) && r.fFloorReqDone)
        | none => true) ∧
    ((DoCurrentFloorRequests sim ps).requestFound = true ↔
      ∃ p ∈ ps, ∃ r : ECElevatorSimRequest, sim.listRequests[p]? = some r ∧
        ((r.floorSrc = sim.currFloor ∧ r.fFloorReqDone = false) ∨
          (r.floorDest = sim.currFloor ∧ r.fFloorReqDone = true))) := by
  have hreq := DoCurrentFloorRequests_loop_requests sim.currFloor sim.time ps
    sim.listRequests false hnd
  have hmemreq : ∀ p, p ∈ (DoCurrentFloorRequests sim ps).requests ↔
      p ∈ ps ∧ staysAfterService sim.currFloor sim.listRequests p = true := by
    intro p
    unfold DoCurrentFloorRequests
    rw [hreq, List.mem_filter]
  refine ⟨?_, ?_, ?_, ?_, ?_⟩
  · intro p hp r hr
    have hget : (DoCurrentFloorRequests sim ps).listRequests[p]? =
        some (serviceOne sim.currFloor sim.time r) :=
      DoCurrentFloorRequests_loop_mem _ _ p ps _ _ r hnd hp hr
    refine ⟨?_, ?_, ?_⟩
    · intro h1
      constructor
      · rw [hget]; unfold serviceOne; rw [if_pos h1]
      · rw [hmemreq]
        refine ⟨hp, ?_⟩
        simp [staysAfterService, hr, h1.2]
    · intro h2
      have h1 : ¬ (r.floorSrc = sim.currFloor ∧ r.fFloorReqDone = false) := by
        intro h; rw [h2.2] at h; cases h.2
      constructor
      · rw [hget]; unfold serviceOne; rw [if_neg h1, if_pos h2]
      · rw [hmemreq]
        rintro ⟨_, hs⟩
        simp [staysAfterService, hr, h2.1, h2.2] at hs
    · rintro ⟨h1, h2⟩
      constructor
      · rw [hget]; unfold serviceOne; rw [if_neg h1, if_neg h2]
      · rw [hmemreq]
        refine ⟨hp, ?_⟩
        simp only [staysAfterService, hr]
        cases hd : r.fFloorReqDone
        · simp
        · have : ¬ r.floorDest = sim.currFloor := fun e => h2 ⟨e, hd⟩
          simp [this]
  · intro j hj
    exact DoCurrentFloorRequests_loop_frame _ _ j ps _ _ hj
  · exact DoCurrentFloorRequests_loop_length _ _ _ _ _
  · unfold DoCurrentFloorRequests
    rw [hreq]
    rfl
  · unfold DoCurrentFloorRequests
    rw [DoCurrentFloorRequests_loop_found _ _ _ _ _ hnd]
    simp

/-- C12 at a concrete call at floor 3, clock 7: the first request (waiting
at floor 3) is picked up, the second (in the elevator, going to floor 3) is
dropped off and its pointer erased, the third (waiting at floor 4) is left
alone. -/
theorem C12_same_floor_service_witness :
    ([0, 1, 2] : List Nat).Nodup ∧
    (DoCurrentFloorRequests
      ⟨5, 3, .EC_ELEVATOR_UP, .ECElevatorUp, 7,
        [⟨3, 5, 0, false, false, -1⟩, ⟨1, 3, 0, true, false, -1⟩,
         ⟨4, 2, 0, false, false, -1⟩]⟩ [0, 1, 2]).requests = [0, 2] ∧
    (DoCurrentFloorRequests
      ⟨5, 3, .EC_ELEVATOR_UP, .ECElevatorUp, 7,
        [⟨3, 5, 0, false, false, -1⟩, ⟨1, 3, 0, true, false, -1⟩,
         ⟨4, 2, 0, false, false, -1⟩]⟩ [0, 1, 2]).listRequests[1]? =
      some ⟨1, 3, 0, true, true, 7⟩ :=
  ⟨by decide,
    (C12_same_floor_service
      ⟨5, 3, .EC_ELEVATOR_UP, .ECElevatorUp, 7,
        [⟨3, 5, 0, false, false, -1⟩, ⟨1, 3, 0, true, false, -1⟩,
         ⟨4, 2, 0, false, false, -1⟩]⟩ [0, 1, 2] (by decide)).2.2.2.1.trans (by decide),
    ((C12_same_floor_service
      ⟨5, 3, .EC_ELEVATOR_UP, .ECElevatorUp, 7,
        [⟨3, 5, 0, false, false, -1⟩, ⟨1, 3, 0, true, false, -1⟩,
         ⟨4, 2, 0, false, false, -1⟩]⟩ [0, 1, 2] (by decide)).1 1 (by decide)
      ⟨1, 3, 0, true, false, -1⟩ rfl).2.1 ⟨rfl, rfl⟩ |>.1⟩

/-! ## C13: the closest target floor -/

theorem GetClosestRequestFloor_body_cases (F : Int) (acc : Int × Int)
    (r : ECElevatorSimRequest) :
    (r.dist F < acc.1 ∧ GetClosestRequestFloor.body F acc r = (r.dist F, r.target)) ∨
    (¬ r.dist F < acc.1 ∧ r.dist F = acc.1 ∧ r.target > F ∧
      GetClosestRequestFloor.body F acc r = (acc.1, r.target)) ∨
    (¬ r.dist F < acc.1 ∧ ¬ (r.dist F = acc.1 ∧ r.target > F) ∧
      GetClosestRequestFloor.body F acc r = acc) := by
  unfold GetClosestRequestFloor.body ECElevatorSimRequest.dist ECElevatorSimRequest.target
  cases hd : r.fFloorReqDone <;> simp only [if_true, if_false, Bool.false_eq_true] <;>
    split_ifs with h1 h2
  · exact Or.inl ⟨h1, rfl⟩
  · exact Or.inr (Or.inl ⟨h1, h2.1, h2.2, rfl⟩)
  · exact Or.inr (Or.inr ⟨h1, h2, rfl⟩)
  · exact Or.inl ⟨h1, rfl⟩
  · exact Or.inr (Or.inl ⟨h1, h2.1, h2.2, rfl⟩)
  · exact Or.inr (Or.inr ⟨h1, h2, rfl⟩)

theorem GetClosestRequestFloor_loop_eq_foldl (F : Int) (reqs : List ECElevatorSimRequest)
    (ps : List Nat) (acc : Int × Int) :
    GetClosestRequestFloor.loop F reqs ps acc =
      (pointed reqs ps).foldl (GetClosestRequestFloor.body F) acc := by
  induction ps generalizing acc with
  | nil => rfl
  | cons p ps ih =>
    unfold GetClosestRequestFloor.loop pointed
    cases hr : reqs[p]? with
    | none =>
      simp only [List.filterMap_cons, hr]
      exact ih acc
    | some r =>
      simp only [List.filterMap_cons, hr, List.foldl_cons]
      exact ih _

/-- Invariant of the scan for the closest target, started from the pair
`acc = (minDist, closestFloor)`. -/
theorem GetClosestRequestFloor_foldl_inv (F : Int) (rs : List ECElevatorSimRequest)
    (acc : Int × Int) :
    (rs.foldl (GetClosestRequestFloor.body F) acc).1 ≤ acc.1 ∧
    (∀ r ∈ rs, (rs.foldl (GetClosestRequestFloor.body F) acc).1 ≤ r.dist F) ∧
    (((rs.foldl (GetClosestRequestFloor.body F) acc).1 = acc.1 ∧
        (rs.foldl (GetClosestRequestFloor.body F) acc).2 = acc.2) ∨
      ∃ r ∈ rs, r.target = (rs.foldl (GetClosestRequestFloor.body F) acc).2 ∧
        r.dist F = (rs.foldl (GetClosestRequestFloor.body F) acc).1) ∧
    ((rs.foldl (GetClosestRequestFloor.body F) acc).1 = acc.1 → acc.2 > F →
      (rs.foldl (GetClosestRequestFloor.body F) acc).2 > F) ∧
    (∀ r ∈ rs, r.target > F → r.dist F = (rs.foldl (GetClosestRequestFloor.body F) acc).1 →
      (rs.foldl (GetClosestRequestFloor.body F) acc).2 > F) := by
  induction rs generalizing acc with
  | nil => simp
  | cons r rs ih =>
    simp only [List.foldl_cons]
    obtain ⟨ha, hb, hc, hd, he⟩ := ih (GetClosestRequestFloor.body F acc r)
    generalize hres : rs.foldl (GetClosestRequestFloor.body F)
      (GetClosestRequestFloor.body F acc r) = res at ha hb hc hd he ⊢
    rcases GetClosestRequestFloor_body_cases F acc r with ⟨h1, hbody⟩ | ⟨h1, h2, h3, hbody⟩ |
      ⟨h1, h2, hbody⟩
    · rw [hbody] at ha hc hd
      simp only at ha hc hd
      refine ⟨by omega, ?_, ?_, ?_, ?_⟩
      · intro x hx
        rcases List.mem_cons.mp hx with e | hx
        · subst e; exact ha
        · exact hb x hx
      · right
        rcases hc with ⟨c1, c2⟩ | ⟨x, hx, c1, c2⟩
        · exact ⟨r, List.mem_cons_self _ _, c2.symm, c1.symm⟩
        · exact ⟨x, List.mem_cons_of_mem _ hx, c1, c2⟩
      · intro h; omega
      · intro x hx hxt hxd
        rcases List.mem_cons.mp hx with e | hx
        · subst e; exact hd hxd.symm hxt
        · exact he x hx hxt hxd
    · rw [hbody] at ha hc hd
      simp only at ha hc hd
      refine ⟨ha, ?_, ?_, ?_, ?_⟩
      · intro x hx
        rcases List.mem_cons.mp hx with e | hx
        · subst e; omega
        · exact hb x hx
      · right
        rcases hc with ⟨c1, c2⟩ | ⟨x, hx, c1, c2⟩
        · exact ⟨r, List.mem_cons_self _ _, c2.symm, by omega⟩
        · exact ⟨x, List.mem_cons_of_mem _ hx, c1, c2⟩
      · intro h _; exact hd h h3
      · intro x hx hxt hxd
        rcases List.mem_cons.mp hx with e | hx
        · subst e; exact hd (by omega) hxt
        · exact he x hx hxt hxd
    · rw [hbody] at ha hc hd
      refine ⟨ha, ?_, ?_, hd, ?_⟩
      · intro x hx
        rcases List.mem_cons.mp hx with e | hx
        · subst e; omega
        · exact hb x hx
      · rcases hc with hc | ⟨x, hx, c1, c2⟩
        · exact Or.inl hc
        · exact Or.inr ⟨x, List.mem_cons_of_mem _ hx, c1, c2⟩
      · intro x hx hxt hxd
        rcases List.mem_cons.mp hx with e | hx
        · subst e
          exfalso
          apply h2
          exact ⟨by omega, hxt⟩
        · exact he x hx hxt hxd

theorem mem_pointed (reqs : List ECElevatorSimRequest) (ps : List Nat)
    (r : ECElevatorSimRequest) :
    r ∈ pointed reqs ps ↔ ∃ p ∈ ps, reqs[p]? = some r := by
  unfold pointed
  rw [List.mem_filterMap]

theorem target_in_range (N : Int) (r : ECElevatorSimRequest)
    (h : 1 ≤ r.floorSrc ∧ r.floorSrc ≤ N ∧ 1 ≤ r.floorDest ∧ r.floorDest ≤ N) :
    1 ≤ r.target ∧ r.target ≤ N := by
  unfold ECElevatorSimRequest.target
  split_ifs
  · exact ⟨h.2.2.1, h.2.2.2⟩
  · exact ⟨h.1, h.2.1⟩

theorem wrapInt32_eq (x : Int) (h1 : -2147483648 ≤ x) (h2 : x ≤ 2147483647) :
    wrapInt32 x = x := by
  unfold wrapInt32
  omega

/-- What `GetClosestRequestFloor` returns on a non-empty vector of pointers
to requests with floors in range, at a floor in range, when the `int` sum
`currFloor + numFloors` does not overflow. -/
theorem GetClosestRequestFloor_spec (sim : ECElevatorSim) (ps : List Nat)
    (hF : 1 ≤ sim.currFloor ∧ sim.currFloor ≤ sim.numFloors)
    (hno : sim.currFloor + sim.numFloors ≤ 2147483647)
    (hne : ps ≠ [])
    (hvalid : ∀ p ∈ ps, ∃ r : ECElevatorSimRequest, sim.listRequests[p]? = some r ∧
      1 ≤ r.floorSrc ∧ r.floorSrc ≤ sim.numFloors ∧
      1 ≤ r.floorDest ∧ r.floorDest ≤ sim.numFloors) :
    (∃ p ∈ ps, ∃ r : ECElevatorSimRequest, sim.listRequests[p]? = some r ∧
      r.target = GetClosestRequestFloor sim ps) ∧
    (∀ p ∈ ps, ∀ r : ECElevatorSimRequest, sim.listRequests[p]? = some r →
      (GetClosestRequestFloor sim ps - sim.currFloor).natAbs ≤
        (r.target - sim.currFloor).natAbs) ∧
    (∀ p ∈ ps, ∀ r : ECElevatorSimRequest, sim.listRequests[p]? = some r →
      r.target > sim.currFloor →
      (∀ q ∈ ps, ∀ r2 : ECElevatorSimRequest, sim.listRequests[q]? = some r2 →
        (r.target - sim.currFloor).natAbs ≤ (r2.target - sim.currFloor).natAbs) →
      GetClosestRequestFloor sim ps = r.target) := by
  have hc : GetClosestRequestFloor sim ps =
      ((pointed sim.listRequests ps).foldl (GetClosestRequestFloor.body sim.currFloor)
        (sim.currFloor + sim.numFloors, 0)).2 := by
    unfold GetClosestRequestFloor
    rw [GetClosestRequestFloor_loop_eq_foldl, wrapInt32_eq _ (by omega) hno]
  obtain ⟨ha, hb, hcs, _, he⟩ := GetClosestRequestFloor_foldl_inv sim.currFloor
    (pointed sim.listRequests ps) (sim.currFloor + sim.numFloors, 0)
  rw [← hc] at hcs he
  generalize hm : ((pointed sim.listRequests ps).foldl
    (GetClosestRequestFloor.body sim.currFloor) (sim.currFloor + sim.numFloors, 0)).1 = m
    at ha hb hcs he
  generalize GetClosestRequestFloor sim ps = c at hcs he ⊢
  simp only at ha hcs
  have hbound : ∀ r ∈ pointed sim.listRequests ps,
      r.dist sim.currFloor < sim.currFloor + sim.numFloors := by
    intro r hr
    obtain ⟨p, hp, hpr⟩ := (mem_pointed _ _ _).mp hr
    obtain ⟨r2, hr2, hrange⟩ := hvalid p hp
    rw [hpr] at hr2
    cases hr2
    have ht := target_in_range sim.numFloors r hrange
    unfold ECElevatorSimRequest.dist
    omega
  obtain ⟨p0, hp0⟩ := List.exists_mem_of_ne_nil ps hne
  obtain ⟨r0, hr0, _⟩ := hvalid p0 hp0
  have hr0mem : r0 ∈ pointed sim.listRequests ps := (mem_pointed _ _ _).mpr ⟨p0, hp0, hr0⟩
  have hlt : m < sim.currFloor + sim.numFloors :=
    lt_of_le_of_lt (hb r0 hr0mem) (hbound r0 hr0mem)
  have hwit : ∃ r ∈ pointed sim.listRequests ps, r.target = c ∧ r.dist sim.currFloor = m := by
    rcases hcs with ⟨h1, _⟩ | h
    · omega
    · exact h
  obtain ⟨rw, hrwmem, hrwt, hrwd⟩ := hwit
  obtain ⟨pw, hpw, hpwr⟩ := (mem_pointed _ _ _).mp hrwmem
  refine ⟨⟨pw, hpw, rw, hpwr, hrwt⟩, ?_, ?_⟩
  · intro p hp r hr
    have h1 := hb r ((mem_pointed _ _ _).mpr ⟨p, hp, hr⟩)
    unfold ECElevatorSimRequest.dist at h1 hrwd
    rw [hrwt] at hrwd
    omega
  · intro p hp r hr habove hmin
    have hrmem : r ∈ pointed sim.listRequests ps := (mem_pointed _ _ _).mpr ⟨p, hp, hr⟩
    have h1 := hb r hrmem
    have h2 := hmin pw hpw rw hpwr
    have hd : r.dist sim.currFloor = m := by
      unfold ECElevatorSimRequest.dist at h1 hrwd ⊢
      omega
    have hcabove := he r hrmem habove hd
    unfold ECElevatorSimRequest.dist at hd hrwd
    rw [hrwt] at hrwd
    omega

/-- Below the overflow of `currFloor + numFloors`: for a current floor in
`[1, N]` (`N = sim.numFloors`) and a non-empty sequence `ps` whose requests
have origin and destination in `[1, N]`, `GetClosestRequestFloor` returns the
target floor of some request of the sequence (destination if picked up, else
origin) whose distance to the current floor is minimal among all targets; and
whenever the minimal distance is attained by a target strictly above the
current floor (whether or not a target below attains it too) the returned
floor is that target, so the result is the same for every reordering of the
sequence. -/
theorem GetClosestRequestFloor_closest (sim : ECElevatorSim) (ps : List Nat)
    (hF : 1 ≤ sim.currFloor ∧ sim.currFloor ≤ sim.numFloors)
    (hno : sim.currFloor + sim.numFloors ≤ 2147483647)
    (hne : ps ≠ [])
    (hvalid : ∀ p ∈ ps, ∃ r : ECElevatorSimRequest, sim.listRequests[p]? = some r ∧
      1 ≤ r.floorSrc ∧ r.floorSrc ≤ sim.numFloors ∧
      1 ≤ r.floorDest ∧ r.floorDest ≤ sim.numFloors) :
    (∃ p ∈ ps, ∃ r : ECElevatorSimRequest, sim.listRequests[p]? = some r ∧
      (if r.fFloorReqDone = true then r.floorDest else r.floorSrc) =
        GetClosestRequestFloor sim ps) ∧
    (∀ p ∈ ps, ∀ r : ECElevatorSimRequest, sim.listRequests[p]? = some r →
      (GetClosestRequestFloor sim ps - sim.currFloor).natAbs ≤
        (r.target - sim.currFloor).natAbs) ∧
    (∀ p ∈ ps, ∀ r : ECElevatorSimRequest, sim.listRequests[p]? = some r →
      r.target > sim.currFloor →
      (∀ q ∈ ps, ∀ r2 : ECElevatorSimRequest, sim.listRequests[q]? = some r2 →
        (r.target - sim.currFloor).natAbs ≤ (r2.target - sim.currFloor).natAbs) →
      GetClosestRequestFloor sim ps = r.target ∧
      ∀ ps' : List Nat, ps'.Perm ps →
        GetClosestRequestFloor sim ps' = GetClosestRequestFloor sim ps) := by
  obtain ⟨h1, h2, h3⟩ := GetClosestRequestFloor_spec sim ps hF hno hne hvalid
  refine ⟨h1, h2, ?_⟩
  intro p hp r hr habove hmin
  refine ⟨h3 p hp r hr habove hmin, ?_⟩
  intro ps' hperm
  have hne' : ps' ≠ [] := by
    intro e
    rw [e] at hperm
    exact hne (List.Perm.eq_nil hperm.symm)
  have hvalid' : ∀ q ∈ ps', ∃ r : ECElevatorSimRequest, sim.listRequests[q]? = some r ∧
      1 ≤ r.floorSrc ∧ r.floorSrc ≤ sim.numFloors ∧
      1 ≤ r.floorDest ∧ r.floorDest ≤ sim.numFloors :=
    fun q hq => hvalid q (hperm.mem_iff.mp hq)
  obtain ⟨_, _, h3'⟩ := GetClosestRequestFloor_spec sim ps' hF hno hne' hvalid'
  rw [h3' p (hperm.mem_iff.mpr hp) r hr habove
    (fun q hq r2 hr2 => hmin q (hperm.mem_iff.mp hq) r2 hr2), h3 p hp r hr habove hmin]

/-- C13 (the code breaks it): with `numFloors = 2147483647 = INT_MAX`, the
elevator at floor 1 and an active sequence holding one request that waits at
floor 3 (origin 3, destination 1, not picked up), the floor is in
`[1, numFloors]`, the sequence is non-empty, origin and destination are in
`[1, numFloors]`, and the only target is floor 3; but the `int` sum
`1 + 2147483647` wraps to `-2147483648`, no distance is below it, and
`GetClosestRequestFloor` returns its initial value 0, which is the target of
no request. -/
theorem C13_overflow_returns_no_target :
    (1 ≤ (1 : Int) ∧ (1 : Int) ≤ 2147483647) ∧
    ([0] : List Nat) ≠ [] ∧
    (⟨2147483647, 1, .EC_ELEVATOR_STOPPED, .ECElevatorStopped, 0,
      [⟨3, 1, 0, false, false, -1⟩]⟩ : ECElevatorSim).listRequests[0]? =
        some ⟨3, 1, 0, false, false, -1⟩ ∧
    (1 ≤ (3 : Int) ∧ (3 : Int) ≤ 2147483647 ∧ 1 ≤ (1 : Int) ∧ (1 : Int) ≤ 2147483647) ∧
    (⟨3, 1, 0, false, false, -1⟩ : ECElevatorSimRequest).target = 3 ∧
    wrapInt32 (1 + 2147483647) = -2147483648 ∧
    GetClosestRequestFloor
      ⟨2147483647, 1, .EC_ELEVATOR_STOPPED, .ECElevatorStopped, 0,
        [⟨3, 1, 0, false, false, -1⟩]⟩ [0] = 0 :=
  ⟨by decide, by decide, rfl, by decide, by decide, by decide, by decide⟩

/-! ## C14, C16: the Stopped variant; moving variants with nothing active -/

theorem length_pos_of_ne_nil_nat (l : List Nat) (h : l ≠ []) : l.length > 0 :=
  List.length_pos.mpr h

/-- C14: for every state in the Stopped variant: if the active-request
sequence is empty, the tick only advances the clock by one; otherwise it runs
the same-floor service and, with `c` the closest target floor computed after
that service on the remaining sequence, if `c` is above the current floor the
new state has variant MovingUp, floor + 1 and reported direction Up, else
variant MovingDown, floor - 1 and reported direction Down; in both cases the
clock advances by one and the requests are those left by the service. -/
theorem C14_stopped_tick (sim : ECElevatorSim)
    (hst : sim.currState = .ECElevatorStopped) :
    (GetActiveRequests sim [] = [] →
      NextDecision sim = { sim with time := sim.time + 1 }) ∧
    (GetActiveRequests sim [] ≠ [] →
      (GetClosestRequestFloor
          { sim with listRequests :=
              (DoCurrentFloorRequests sim (GetActiveRequests sim [])).listRequests }
          (DoCurrentFloorRequests sim (GetActiveRequests sim [])).requests > sim.currFloor →
        NextDecision sim =
          { numFloors := sim.numFloors
            currFloor := sim.currFloor + 1
            currDir := .EC_ELEVATOR_UP
            currState := .ECElevatorUp
            time := sim.time + 1
            listRequests :=
              (DoCurrentFloorRequests sim (GetActiveRequests sim [])).listRequests }) ∧
      (¬ GetClosestRequestFloor
          { sim with listRequests :=
              (DoCurrentFloorRequests sim (GetActiveRequests sim [])).listRequests }
          (DoCurrentFloorRequests sim (GetActiveRequests sim [])).requests > sim.currFloor →
        NextDecision sim =
          { numFloors := sim.numFloors
            currFloor := sim.currFloor - 1
            currDir := .EC_ELEVATOR_DOWN
            currState := .ECElevatorDown
            time := sim.time + 1
            listRequests :=
              (DoCurrentFloorRequests sim (GetActiveRequests sim [])).listRequests })) := by
  have hnd : NextDecision sim = ECElevatorStopped.NextDecision sim := by
    unfold NextDecision
    rw [hst]
  rw [hnd]
  unfold ECElevatorStopped.NextDecision
  simp only [ECElevatorSim.SetCurrDir, ECElevatorSim.SetCurrFloor, ECElevatorSim.ChangeState,
    ECElevatorSim.SetTime, ECElevatorState.GetDirection]
  refine ⟨?_, ?_⟩
  · intro h
    rw [h]
    simp
  · intro h
    have hpos := length_pos_of_ne_nil_nat _ h
    refine ⟨?_, ?_⟩
    · intro hc
      rw [if_pos hpos, if_pos hc]
    · intro hc
      rw [if_pos hpos, if_neg hc]

/-- C14 at a concrete tick: Stopped at floor 3 of 5 with a request waiting at
floor 1 and one at floor 5 (equal distance): the tick goes up. -/
theorem C14_stopped_tick_witness :
    NextDecision ⟨5, 3, .EC_ELEVATOR_STOPPED, .ECElevatorStopped, 0,
        [⟨1, 2, 0, false, false, -1⟩, ⟨5, 2, 0, false, false, -1⟩]⟩ =
      ⟨5, 4, .EC_ELEVATOR_UP, .ECElevatorUp, 1,
        [⟨1, 2, 0, false, false, -1⟩, ⟨5, 2, 0, false, false, -1⟩]⟩ :=
  ((C14_stopped_tick ⟨5, 3, .EC_ELEVATOR_STOPPED, .ECElevatorStopped, 0,
        [⟨1, 2, 0, false, false, -1⟩, ⟨5, 2, 0, false, false, -1⟩]⟩ rfl).2
      (by decide)).1 (by decide) |>.trans (by decide)

/-- C16: for every state in the MovingUp or MovingDown variant whose
active-request sequence is empty, the tick makes Stopped the active variant
and the reported direction, advances the clock by one and changes nothing
else (floor and requests are the same). -/
theorem C16_moving_idle_stops (sim : ECElevatorSim)
    (hst : sim.currState = .ECElevatorUp ∨ sim.currState = .ECElevatorDown)
    (hidle : GetActiveRequests sim [] = []) :
    NextDecision sim =
      { numFloors := sim.numFloors
        currFloor := sim.currFloor
        currDir := .EC_ELEVATOR_STOPPED
        currState := .ECElevatorStopped
        time := sim.time + 1
        listRequests := sim.listRequests } := by
  rcases hst with hst | hst
  · have hnd : NextDecision sim = ECElevatorUp.NextDecision sim := by
      unfold NextDecision
      rw [hst]
    rw [hnd]
    unfold ECElevatorUp.NextDecision
    simp only [ECElevatorSim.SetCurrDir, ECElevatorSim.ChangeState, ECElevatorSim.SetTime,
      ECElevatorState.GetDirection, hidle, List.length_nil, if_true]
  · have hnd : NextDecision sim = ECElevatorDown.NextDecision sim := by
      unfold NextDecision
      rw [hst]
    rw [hnd]
    unfold ECElevatorDown.NextDecision
    simp only [ECElevatorSim.SetCurrDir, ECElevatorSim.ChangeState, ECElevatorSim.SetTime,
      ECElevatorState.GetDirection, hidle, List.length_nil, if_true]

/-- C16 at a concrete tick: the Down variant at floor 2, direction Down, at
clock 5 with a single request that is only made at tick 9. -/
theorem C16_moving_idle_stops_witness :
    NextDecision ⟨5, 2, .EC_ELEVATOR_DOWN, .ECElevatorDown, 5, [⟨1, 5, 9, false, false, -1⟩]⟩ =
      ⟨5, 2, .EC_ELEVATOR_STOPPED, .ECElevatorStopped, 6, [⟨1, 5, 9, false, false, -1⟩]⟩ :=
  C16_moving_idle_stops
    ⟨5, 2, .EC_ELEVATOR_DOWN, .ECElevatorDown, 5, [⟨1, 5, 9, false, false, -1⟩]⟩
    (Or.inr rfl) (by decide)

/-! ## Moving variants: the branches of one tick -/

theorem DoCurrentFloorRequests_loop_found_true (F T : Int) (ps : List Nat)
    (reqs : List ECElevatorSimRequest) :
    (DoCurrentFloorRequests.loop F T ps reqs true).requestFound = true := by
  induction ps generalizing reqs with
  | nil => rfl
  | cons p ps ih =>
    unfold DoCurrentFloorRequests.loop
    split
    · exact ih reqs
    · split_ifs
      · exact ih _
      · exact ih _
      · exact ih reqs

/-- A pass that reports nothing found has changed nothing. -/
theorem DoCurrentFloorRequests_loop_not_found (F T : Int) (ps : List Nat)
    (reqs : List ECElevatorSimRequest) (b : Bool)
    (h : (DoCurrentFloorRequests.loop F T ps reqs b).requestFound = false) :
    (DoCurrentFloorRequests.loop F T ps reqs b).listRequests = reqs ∧
      (DoCurrentFloorRequests.loop F T ps reqs b).requests = ps := by
  induction ps generalizing reqs b with
  | nil => exact ⟨rfl, rfl⟩
  | cons p ps ih =>
    unfold DoCurrentFloorRequests.loop at h ⊢
    split at h
    · rename_i hr
      simp only at h
      obtain ⟨h1, h2⟩ := ih reqs b h
      simp only [hr, h1, h2, and_self]
    · rename_i r hr
      simp only [hr]
      split_ifs at h ⊢ with c1 c2
      · simp only at h
        rw [DoCurrentFloorRequests_loop_found_true] at h
        cases h
      · rw [DoCurrentFloorRequests_loop_found_true] at h
        cases h
      · simp only at h
        obtain ⟨h1, h2⟩ := ih reqs b h
        simp only [h1, h2, and_self]

theorem DoCurrentFloorRequests_found_iff (sim : ECElevatorSim) :
    (DoCurrentFloorRequests sim (GetActiveRequests sim [])).requestFound = true ↔
      ∃ (j : Nat) (r : ECElevatorSimRequest), ActiveAt sim j r ∧ r.handledAt sim.currFloor := by
  unfold DoCurrentFloorRequests
  rw [DoCurrentFloorRequests_loop_found _ _ _ _ _ (GetActiveRequests_nodup sim [])]
  constructor
  · rintro (h | ⟨p, hp, r, hr, hc⟩)
    · cases h
    · obtain ⟨r2, hr2, hact⟩ := (GetActiveRequests_mem sim [] p).mp hp
      rw [hr] at hr2
      cases hr2
      exact ⟨p, r, ⟨hr, hact.1, hact.2⟩, hc⟩
  · rintro ⟨j, r, ⟨hr, ht, hs⟩, hc⟩
    exact Or.inr ⟨j, (GetActiveRequests_mem sim [] j).mpr ⟨r, hr, ht, hs⟩, r, hr, hc⟩

theorem ECElevatorUp_RequestOnPath_iff (sim : ECElevatorSim) (ps : List Nat) :
    ECElevatorUp.RequestOnPath sim ps = true ↔
      ∃ p ∈ ps, ∃ r : ECElevatorSimRequest, sim.listRequests[p]? = some r ∧
        r.aheadUp sim.currFloor := by
  induction ps with
  | nil => simp [ECElevatorUp.RequestOnPath]
  | cons p ps ih =>
    unfold ECElevatorUp.RequestOnPath
    cases hr : sim.listRequests[p]? with
    | none =>
      simp only [ih]
      constructor
      · rintro ⟨q, hq, r, hqr, hc⟩
        exact ⟨q, List.mem_cons_of_mem _ hq, r, hqr, hc⟩
      · rintro ⟨q, hq, r, hqr, hc⟩
        rcases List.mem_cons.mp hq with e | hq2
        · subst e; rw [hr] at hqr; cases hqr
        · exact ⟨q, hq2, r, hqr, hc⟩
    | some r =>
      simp only
      split_ifs with c1 c2
      · simp only [true_iff]
        exact ⟨p, List.mem_cons_self _ _, r, hr, Or.inl c1⟩
      · simp only [true_iff]
        exact ⟨p, List.mem_cons_self _ _, r, hr, Or.inr c2⟩
      · rw [ih]
        constructor
        · rintro ⟨q, hq, r2, hqr, hc⟩
          exact ⟨q, List.mem_cons_of_mem _ hq, r2, hqr, hc⟩
        · rintro ⟨q, hq, r2, hqr, hc⟩
          rcases List.mem_cons.mp hq with e | hq2
          · subst e
            rw [hr] at hqr
            cases hqr
            rcases hc with hc | hc
            · exact absurd hc c1
            · exact absurd hc c2
          · exact ⟨q, hq2, r2, hqr, hc⟩

theorem ECElevatorDown_RequestOnPath_iff (sim : ECElevatorSim) (ps : List Nat) :
    ECElevatorDown.RequestOnPath sim ps = true ↔
      ∃ p ∈ ps, ∃ r : ECElevatorSimRequest, sim.listRequests[p]? = some r ∧
        r.aheadDown sim.currFloor := by
  induction ps with
  | nil => simp [ECElevatorDown.RequestOnPath]
  | cons p ps ih =>
    unfold ECElevatorDown.RequestOnPath
    cases hr : sim.listRequests[p]? with
    | none =>
      simp only [ih]
      constructor
      · rintro ⟨q, hq, r, hqr, hc⟩
        exact ⟨q, List.mem_cons_of_mem _ hq, r, hqr, hc⟩
      · rintro ⟨q, hq, r, hqr, hc⟩
        rcases List.mem_cons.mp hq with e | hq2
        · subst e; rw [hr] at hqr; cases hqr
        · exact ⟨q, hq2, r, hqr, hc⟩
    | some r =>
      simp only
      split_ifs with c1 c2
      · simp only [true_iff]
        exact ⟨p, List.mem_cons_self _ _, r, hr, Or.inl c1⟩
      · simp only [true_iff]
        exact ⟨p, List.mem_cons_self _ _, r, hr, Or.inr c2⟩
      · rw [ih]
        constructor
        · rintro ⟨q, hq, r2, hqr, hc⟩
          exact ⟨q, List.mem_cons_of_mem _ hq, r2, hqr, hc⟩
        · rintro ⟨q, hq, r2, hqr, hc⟩
          rcases List.mem_cons.mp hq with e | hq2
          · subst e
            rw [hr] at hqr
            cases hqr
            rcases hc with hc | hc
            · exact absurd hc c1
            · exact absurd hc c2
          · exact ⟨q, hq2, r2, hqr, hc⟩

/-- Some active request has a target strictly above the current floor. -/
theorem ECElevatorUp_onPath_active (sim : ECElevatorSim) :
    ECElevatorUp.RequestOnPath sim (GetActiveRequests sim []) = true ↔
      ∃ (j : Nat) (r : ECElevatorSimRequest), ActiveAt sim j r ∧ r.aheadUp sim.currFloor := by
  rw [ECElevatorUp_RequestOnPath_iff]
  constructor
  · rintro ⟨p, hp, r, hr, hc⟩
    obtain ⟨r2, hr2, hact⟩ := (GetActiveRequests_mem sim [] p).mp hp
    rw [hr] at hr2
    cases hr2
    exact ⟨p, r, ⟨hr, hact.1, hact.2⟩, hc⟩
  · rintro ⟨j, r, ⟨hr, ht, hs⟩, hc⟩
    exact ⟨j, (GetActiveRequests_mem sim [] j).mpr ⟨r, hr, ht, hs⟩, r, hr, hc⟩

theorem ECElevatorDown_onPath_active (sim : ECElevatorSim) :
    ECElevatorDown.RequestOnPath sim (GetActiveRequests sim []) = true ↔
      ∃ (j : Nat) (r : ECElevatorSimRequest), ActiveAt sim j r ∧ r.aheadDown sim.currFloor := by
  rw [ECElevatorDown_RequestOnPath_iff]
  constructor
  · rintro ⟨p, hp, r, hr, hc⟩
    obtain ⟨r2, hr2, hact⟩ := (GetActiveRequests_mem sim [] p).mp hp
    rw [hr] at hr2
    cases hr2
    exact ⟨p, r, ⟨hr, hact.1, hact.2⟩, hc⟩
  · rintro ⟨j, r, ⟨hr, ht, hs⟩, hc⟩
    exact ⟨j, (GetActiveRequests_mem sim [] j).mpr ⟨r, hr, ht, hs⟩, r, hr, hc⟩

theorem NextDecision_of_up (sim : ECElevatorSim) (hst : sim.currState = .ECElevatorUp) :
    NextDecision sim = ECElevatorUp.NextDecision sim := by
  unfold NextDecision
  rw [hst]

theorem NextDecision_of_down (sim : ECElevatorSim) (hst : sim.currState = .ECElevatorDown) :
    NextDecision sim = ECElevatorDown.NextDecision sim := by
  unfold NextDecision
  rw [hst]

theorem NextDecision_of_stopped (sim : ECElevatorSim)
    (hst : sim.currState = .ECElevatorStopped) :
    NextDecision sim = ECElevatorStopped.NextDecision sim := by
  unfold NextDecision
  rw [hst]

/-- Up variant, something active, service skipped or nothing handled: the
tick advances when a request lies ahead and reverses otherwise. -/
theorem ECElevatorUp_tick_advance (sim : ECElevatorSim)
    (hst : sim.currState = .ECElevatorUp) (hne : GetActiveRequests sim [] ≠ [])
    (hskip : sim.currDir = .EC_ELEVATOR_STOPPED ∨
      (DoCurrentFloorRequests sim (GetActiveRequests sim [])).requestFound = false) :
    (ECElevatorUp.RequestOnPath sim (GetActiveRequests sim []) = true →
      NextDecision sim =
        { numFloors := sim.numFloors, currFloor := sim.currFloor + 1,
          currDir := .EC_ELEVATOR_UP, currState := .ECElevatorUp,
          time := sim.time + 1, listRequests := sim.listRequests }) ∧
    (ECElevatorUp.RequestOnPath sim (GetActiveRequests sim []) = false →
      NextDecision sim =
        { numFloors := sim.numFloors, currFloor := sim.currFloor - 1,
          currDir := .EC_ELEVATOR_DOWN, currState := .ECElevatorDown,
          time := sim.time + 1, listRequests := sim.listRequests }) := by
  have hlen : ¬ (GetActiveRequests sim []).length = 0 := by
    intro h
    exact hne (List.length_eq_zero.mp h)
  rw [NextDecision_of_up sim hst]
  unfold ECElevatorUp.NextDecision
  simp only [hlen, if_false]
  by_cases hdir : sim.currDir = .EC_ELEVATOR_STOPPED
  · simp only [hdir, if_true]
    unfold ECElevatorUp.advance
    simp only [ECElevatorSim.SetCurrDir, ECElevatorSim.SetCurrFloor, ECElevatorSim.ChangeState,
      ECElevatorSim.SetTime]
    constructor
    · intro h
      simp only [h, if_true, hst, ECElevatorState.GetDirection]
    · intro h
      simp only [h, Bool.false_eq_true, if_false, ECElevatorState.GetDirection]
  · have hfound : (DoCurrentFloorRequests sim (GetActiveRequests sim [])).requestFound = false := by
      rcases hskip with h | h
      · exact absurd h hdir
      · exact h
    obtain ⟨h1, h2⟩ := DoCurrentFloorRequests_loop_not_found _ _ _ _ _ hfound
    have h1' : (DoCurrentFloorRequests sim (GetActiveRequests sim [])).listRequests =
        sim.listRequests := h1
    have h2' : (DoCurrentFloorRequests sim (GetActiveRequests sim [])).requests =
        GetActiveRequests sim [] := h2
    have hsim : ({ sim with listRequests :=
        (DoCurrentFloorRequests sim (GetActiveRequests sim [])).listRequests } :
          ECElevatorSim) = sim := by
      rw [h1']
    simp only [hdir, if_false, hfound, if_true, hsim, h2']
    unfold ECElevatorUp.advance
    simp only [ECElevatorSim.SetCurrDir, ECElevatorSim.SetCurrFloor, ECElevatorSim.ChangeState,
      ECElevatorSim.SetTime]
    constructor
    · intro h
      simp only [h, if_true, hst, ECElevatorState.GetDirection]
    · intro h
      simp only [h, Bool.false_eq_true, if_false, ECElevatorState.GetDirection]

/-- Down variant, something active, service skipped or nothing handled. -/
theorem ECElevatorDown_tick_advance (sim : ECElevatorSim)
    (hst : sim.currState = .ECElevatorDown) (hne : GetActiveRequests sim [] ≠ [])
    (hskip : sim.currDir = .EC_ELEVATOR_STOPPED ∨
      (DoCurrentFloorRequests sim (GetActiveRequests sim [])).requestFound = false) :
    (ECElevatorDown.RequestOnPath sim (GetActiveRequests sim []) = true →
      NextDecision sim =
        { numFloors := sim.numFloors, currFloor := sim.currFloor - 1,
          currDir := .EC_ELEVATOR_DOWN, currState := .ECElevatorDown,
          time := sim.time + 1, listRequests := sim.listRequests }) ∧
    (ECElevatorDown.RequestOnPath sim (GetActiveRequests sim []) = false →
      NextDecision sim =
        { numFloors := sim.numFloors, currFloor := sim.currFloor + 1,
          currDir := .EC_ELEVATOR_UP, currState := .ECElevatorUp,
          time := sim.time + 1, listRequests := sim.listRequests }) := by
  have hlen : ¬ (GetActiveRequests sim []).length = 0 := by
    intro h
    exact hne (List.length_eq_zero.mp h)
  rw [NextDecision_of_down sim hst]
  unfold ECElevatorDown.NextDecision
  simp only [hlen, if_false]
  by_cases hdir : sim.currDir = .EC_ELEVATOR_STOPPED
  · simp only [hdir, if_true]
    unfold ECElevatorDown.advance
    simp only [ECElevatorSim.SetCurrDir, ECElevatorSim.SetCurrFloor, ECElevatorSim.ChangeState,
      ECElevatorSim.SetTime]
    constructor
    · intro h
      simp only [h, if_true, hst, ECElevatorState.GetDirection]
    · intro h
      simp only [h, Bool.false_eq_true, if_false, ECElevatorState.GetDirection]
  · have hfound : (DoCurrentFloorRequests sim (GetActiveRequests sim [])).requestFound = false := by
      rcases hskip with h | h
      · exact absurd h hdir
      · exact h
    obtain ⟨h1, h2⟩ := DoCurrentFloorRequests_loop_not_found _ _ _ _ _ hfound
    have h1' : (DoCurrentFloorRequests sim (GetActiveRequests sim [])).listRequests =
        sim.listRequests := h1
    have h2' : (DoCurrentFloorRequests sim (GetActiveRequests sim [])).requests =
        GetActiveRequests sim [] := h2
    have hsim : ({ sim with listRequests :=
        (DoCurrentFloorRequests sim (GetActiveRequests sim [])).listRequests } :
          ECElevatorSim) = sim := by
      rw [h1']
    simp only [hdir, if_false, hfound, if_true, hsim, h2']
    unfold ECElevatorDown.advance
    simp only [ECElevatorSim.SetCurrDir, ECElevatorSim.SetCurrFloor, ECElevatorSim.ChangeState,
      ECElevatorSim.SetTime]
    constructor
    · intro h
      simp only [h, if_true, hst, ECElevatorState.GetDirection]
    · intro h
      simp only [h, Bool.false_eq_true, if_false, ECElevatorState.GetDirection]

/-- Moving variant, something active, reported direction not Stopped, and
the service pass handled something: the tick only sets the marker. -/
theorem moving_tick_marker (sim : ECElevatorSim)
    (hst : sim.currState = .ECElevatorUp ∨ sim.currState = .ECElevatorDown)
    (hne : GetActiveRequests sim [] ≠ [])
    (hdir : sim.currDir ≠ .EC_ELEVATOR_STOPPED)
    (hfound : (DoCurrentFloorRequests sim (GetActiveRequests sim [])).requestFound = true) :
    NextDecision sim =
      { numFloors := sim.numFloors, currFloor := sim.currFloor,
        currDir := .EC_ELEVATOR_STOPPED, currState := sim.currState,
        time := sim.time + 1,
        listRequests := (DoCurrentFloorRequests sim (GetActiveRequests sim [])).listRequests } := by
  have hlen : ¬ (GetActiveRequests sim []).length = 0 := by
    intro h
    exact hne (List.length_eq_zero.mp h)
  rcases hst with hst | hst
  · rw [NextDecision_of_up sim hst]
    unfold ECElevatorUp.NextDecision
    simp only [hlen, if_false, hdir, hfound, Bool.true_eq_false, ECElevatorSim.SetCurrDir,
      ECElevatorSim.SetTime]
  · rw [NextDecision_of_down sim hst]
    unfold ECElevatorDown.NextDecision
    simp only [hlen, if_false, hdir, hfound, Bool.true_eq_false, ECElevatorSim.SetCurrDir,
      ECElevatorSim.SetTime]

/-- Moving variant with nothing active: the tick switches to Stopped. -/
theorem moving_tick_idle (sim : ECElevatorSim)
    (hst : sim.currState = .ECElevatorUp ∨ sim.currState = .ECElevatorDown)
    (hidle : GetActiveRequests sim [] = []) :
    NextDecision sim =
      { numFloors := sim.numFloors, currFloor := sim.currFloor,
        currDir := .EC_ELEVATOR_STOPPED, currState := .ECElevatorStopped,
        time := sim.time + 1, listRequests := sim.listRequests } := by
  rcases hst with hst | hst
  · rw [NextDecision_of_up sim hst]
    unfold ECElevatorUp.NextDecision
    simp only [ECElevatorSim.SetCurrDir, ECElevatorSim.ChangeState, ECElevatorSim.SetTime,
      ECElevatorState.GetDirection, hidle, List.length_nil, if_true]
  · rw [NextDecision_of_down sim hst]
    unfold ECElevatorDown.NextDecision
    simp only [ECElevatorSim.SetCurrDir, ECElevatorSim.ChangeState, ECElevatorSim.SetTime,
      ECElevatorState.GetDirection, hidle, List.length_nil, if_true]

theorem found_false_or_true (sim : ECElevatorSim) :
    (DoCurrentFloorRequests sim (GetActiveRequests sim [])).requestFound = false ∨
      (DoCurrentFloorRequests sim (GetActiveRequests sim [])).requestFound = true := by
  cases (DoCurrentFloorRequests sim (GetActiveRequests sim [])).requestFound
  · exact Or.inl rfl
  · exact Or.inr rfl

/-- The four ways a tick of a moving variant can go. -/
theorem moving_tick_cases (sim : ECElevatorSim)
    (hst : sim.currState = .ECElevatorUp ∨ sim.currState = .ECElevatorDown) :
    (GetActiveRequests sim [] = [] ∧
      NextDecision sim =
        { numFloors := sim.numFloors, currFloor := sim.currFloor,
          currDir := .EC_ELEVATOR_STOPPED, currState := .ECElevatorStopped,
          time := sim.time + 1, listRequests := sim.listRequests }) ∨
    (GetActiveRequests sim [] ≠ [] ∧
      (sim.currDir = .EC_ELEVATOR_STOPPED ∨
        (DoCurrentFloorRequests sim (GetActiveRequests sim [])).requestFound = false) ∧
      (NextDecision sim =
          { numFloors := sim.numFloors, currFloor := sim.currFloor + 1,
            currDir := .EC_ELEVATOR_UP, currState := .ECElevatorUp,
            time := sim.time + 1, listRequests := sim.listRequests } ∨
        NextDecision sim =
          { numFloors := sim.numFloors, currFloor := sim.currFloor - 1,
            currDir := .EC_ELEVATOR_DOWN, currState := .ECElevatorDown,
            time := sim.time + 1, listRequests := sim.listRequests })) ∨
    (GetActiveRequests sim [] ≠ [] ∧ sim.currDir ≠ .EC_ELEVATOR_STOPPED ∧
      (DoCurrentFloorRequests sim (GetActiveRequests sim [])).requestFound = true ∧
      NextDecision sim =
        { numFloors := sim.numFloors, currFloor := sim.currFloor,
          currDir := .EC_ELEVATOR_STOPPED, currState := sim.currState,
          time := sim.time + 1,
          listRequests :=
            (DoCurrentFloorRequests sim (GetActiveRequests sim [])).listRequests }) := by
  by_cases hne : GetActiveRequests sim [] = []
  · exact Or.inl ⟨hne, moving_tick_idle sim hst hne⟩
  · by_cases hdir : sim.currDir = .EC_ELEVATOR_STOPPED
    · right; left
      refine ⟨hne, Or.inl hdir, ?_⟩
      rcases hst with hst | hst
      · obtain ⟨h1, h2⟩ := ECElevatorUp_tick_advance sim hst hne (Or.inl hdir)
        cases hp : ECElevatorUp.RequestOnPath sim (GetActiveRequests sim [])
        · exact Or.inr (h2 hp)
        · exact Or.inl (h1 hp)
      · obtain ⟨h1, h2⟩ := ECElevatorDown_tick_advance sim hst hne (Or.inl hdir)
        cases hp : ECElevatorDown.RequestOnPath sim (GetActiveRequests sim [])
        · exact Or.inl (h2 hp)
        · exact Or.inr (h1 hp)
    · rcases found_false_or_true sim with hf | hf
      · right; left
        refine ⟨hne, Or.inr hf, ?_⟩
        rcases hst with hst | hst
        · obtain ⟨h1, h2⟩ := ECElevatorUp_tick_advance sim hst hne (Or.inr hf)
          cases hp : ECElevatorUp.RequestOnPath sim (GetActiveRequests sim [])
          · exact Or.inr (h2 hp)
          · exact Or.inl (h1 hp)
        · obtain ⟨h1, h2⟩ := ECElevatorDown_tick_advance sim hst hne (Or.inr hf)
          cases hp : ECElevatorDown.RequestOnPath sim (GetActiveRequests sim [])
          · exact Or.inl (h2 hp)
          · exact Or.inr (h1 hp)
      · right; right
        exact ⟨hne, hdir, hf, moving_tick_marker sim hst hne hdir hf⟩

/-- A tick of a moving variant does not both move and touch a request. -/
theorem moving_tick_floor_or_requests (sim : ECElevatorSim)
    (hst : sim.currState = .ECElevatorUp ∨ sim.currState = .ECElevatorDown) :
    (NextDecision sim).currFloor = sim.currFloor ∨
      (NextDecision sim).listRequests = sim.listRequests := by
  rcases moving_tick_cases sim hst with ⟨_, h⟩ | ⟨_, _, h | h⟩ | ⟨_, _, _, h⟩
  · left; rw [h]
  · right; rw [h]
  · right; rw [h]
  · left; rw [h]

/-! ## C15, C17: reversal and the same-floor marker -/

/-- C15: (a) for every state in the MovingUp variant, if the tick ends in the
MovingDown variant then no request active at that tick has an unfulfilled
target strictly above the current floor (origin above and not picked up, or
destination above and picked up); (b) symmetrically for MovingDown ending in
MovingUp, with targets strictly below; (c) conversely, in a MovingUp tick
with a non-empty active sequence in which the same-floor service is skipped
(reported direction Stopped) or handles nothing, the elevator goes up one
floor and stays in MovingUp if such a request exists, and otherwise switches
to MovingDown and goes down one floor; (d) symmetrically for MovingDown. -/
theorem C15_reversal_only_when_nothing_ahead (sim : ECElevatorSim) :
    (sim.currState = .ECElevatorUp → (NextDecision sim).currState = .ECElevatorDown →
      ∀ (j : Nat) (r : ECElevatorSimRequest), ActiveAt sim j r → ¬ r.aheadUp sim.currFloor) ∧
    (sim.currState = .ECElevatorDown → (NextDecision sim).currState = .ECElevatorUp →
      ∀ (j : Nat) (r : ECElevatorSimRequest), ActiveAt sim j r → ¬ r.aheadDown sim.currFloor) ∧
    (sim.currState = .ECElevatorUp → GetActiveRequests sim [] ≠ [] →
      (sim.currDir = .EC_ELEVATOR_STOPPED ∨
        ¬ ∃ (j : Nat) (r : ECElevatorSimRequest), ActiveAt sim j r ∧ r.handledAt sim.currFloor) →
      ((∃ (j : Nat) (r : ECElevatorSimRequest), ActiveAt sim j r ∧ r.aheadUp sim.currFloor) →
        NextDecision sim =
          { numFloors := sim.numFloors, currFloor := sim.currFloor + 1,
            currDir := .EC_ELEVATOR_UP, currState := .ECElevatorUp,
            time := sim.time + 1, listRequests := sim.listRequests }) ∧
      ((¬ ∃ (j : Nat) (r : ECElevatorSimRequest), ActiveAt sim j r ∧ r.aheadUp sim.currFloor) →
        NextDecision sim =
          { numFloors := sim.numFloors, currFloor := sim.currFloor - 1,
            currDir := .EC_ELEVATOR_DOWN, currState := .ECElevatorDown,
            time := sim.time + 1, listRequests := sim.listRequests })) ∧
    (sim.currState = .ECElevatorDown → GetActiveRequests sim [] ≠ [] →
      (sim.currDir = .EC_ELEVATOR_STOPPED ∨
        ¬ ∃ (j : Nat) (r : ECElevatorSimRequest), ActiveAt sim j r ∧ r.handledAt sim.currFloor) →
      ((∃ (j : Nat) (r : ECElevatorSimRequest), ActiveAt sim j r ∧ r.aheadDown sim.currFloor) →
        NextDecision sim =
          { numFloors := sim.numFloors, currFloor := sim.currFloor - 1,
            currDir := .EC_ELEVATOR_DOWN, currState := .ECElevatorDown,
            time := sim.time + 1, listRequests := sim.listRequests }) ∧
      ((¬ ∃ (j : Nat) (r : ECElevatorSimRequest), ActiveAt sim j r ∧ r.aheadDown sim.currFloor) →
        NextDecision sim =
          { numFloors := sim.numFloors, currFloor := sim.currFloor + 1,
            currDir := .EC_ELEVATOR_UP, currState := .ECElevatorUp,
            time := sim.time + 1, listRequests := sim.listRequests })) := by
  have hskip : (sim.currDir = .EC_ELEVATOR_STOPPED ∨
      ¬ ∃ (j : Nat) (r : ECElevatorSimRequest), ActiveAt sim j r ∧ r.handledAt sim.currFloor) →
      (sim.currDir = .EC_ELEVATOR_STOPPED ∨
        (DoCurrentFloorRequests sim (GetActiveRequests sim [])).requestFound = false) := by
    rintro (h | h)
    · exact Or.inl h
    · right
      rcases found_false_or_true sim with hf | hf
      · exact hf
      · exact absurd ((DoCurrentFloorRequests_found_iff sim).mp hf) h
  refine ⟨?_, ?_, ?_, ?_⟩
  · intro hst hrev j r hact hahead
    have hpath : ECElevatorUp.RequestOnPath sim (GetActiveRequests sim []) = true :=
      (ECElevatorUp_onPath_active sim).mpr ⟨j, r, hact, hahead⟩
    rcases moving_tick_cases sim (Or.inl hst) with ⟨_, h⟩ | ⟨hne, hsk, _⟩ | ⟨_, _, _, h⟩
    · rw [h] at hrev; cases hrev
    · have h := (ECElevatorUp_tick_advance sim hst hne hsk).1 hpath
      rw [h] at hrev; cases hrev
    · rw [h, hst] at hrev; cases hrev
  · intro hst hrev j r hact hahead
    have hpath : ECElevatorDown.RequestOnPath sim (GetActiveRequests sim []) = true :=
      (ECElevatorDown_onPath_active sim).mpr ⟨j, r, hact, hahead⟩
    rcases moving_tick_cases sim (Or.inr hst) with ⟨_, h⟩ | ⟨hne, hsk, _⟩ | ⟨_, _, _, h⟩
    · rw [h] at hrev; cases hrev
    · have h := (ECElevatorDown_tick_advance sim hst hne hsk).1 hpath
      rw [h] at hrev; cases hrev
    · rw [h, hst] at hrev; cases hrev
  · intro hst hne hsk
    obtain ⟨h1, h2⟩ := ECElevatorUp_tick_advance sim hst hne (hskip hsk)
    refine ⟨fun h => h1 ((ECElevatorUp_onPath_active sim).mpr h), fun h => h2 ?_⟩
    cases hp : ECElevatorUp.RequestOnPath sim (GetActiveRequests sim [])
    · rfl
    · exact absurd ((ECElevatorUp_onPath_active sim).mp hp) h
  · intro hst hne hsk
    obtain ⟨h1, h2⟩ := ECElevatorDown_tick_advance sim hst hne (hskip hsk)
    refine ⟨fun h => h1 ((ECElevatorDown_onPath_active sim).mpr h), fun h => h2 ?_⟩
    cases hp : ECElevatorDown.RequestOnPath sim (GetActiveRequests sim [])
    · rfl
    · exact absurd ((ECElevatorDown_onPath_active sim).mp hp) h

/-- C15 at a concrete tick: MovingUp at floor 3 of 3 just after picking up a
request for floor 1 (marker set): the tick reverses, and the request has
nothing above. -/
theorem C15_reversal_only_when_nothing_ahead_witness :
    (NextDecision ⟨3, 3, .EC_ELEVATOR_STOPPED, .ECElevatorUp, 3,
      [⟨3, 1, 0, true, false, -1⟩]⟩).currState = .ECElevatorDown ∧
    ¬ (⟨3, 1, 0, true, false, -1⟩ : ECElevatorSimRequest).aheadUp 3 :=
  ⟨by decide,
    (C15_reversal_only_when_nothing_ahead
      ⟨3, 3, .EC_ELEVATOR_STOPPED, .ECElevatorUp, 3, [⟨3, 1, 0, true, false, -1⟩]⟩).1
      rfl (by decide) 0 ⟨3, 1, 0, true, false, -1⟩ ⟨rfl, by decide, rfl⟩⟩

/-- C17: for every state in the MovingUp or MovingDown variant with a
non-empty active sequence and a reported direction other than Stopped: if
some active request is picked up or dropped off at the current floor by the
same-floor service, the service reports it, and the tick leaves the floor
and the variant unchanged, sets the reported direction to Stopped, advances
the clock by one and stores the serviced requests.  And every tick of a
moving variant that starts with reported direction Stopped and a non-empty
active sequence (in particular the tick following the one above) leaves
every request unchanged and changes the floor by exactly one. -/
theorem C17_service_sets_marker (sim : ECElevatorSim)
    (hst : sim.currState = .ECElevatorUp ∨ sim.currState = .ECElevatorDown)
    (hne : GetActiveRequests sim [] ≠ [])
    (hdir : sim.currDir ≠ .EC_ELEVATOR_STOPPED)
    (hhandled : ∃ (j : Nat) (r : ECElevatorSimRequest),
      ActiveAt sim j r ∧ r.handledAt sim.currFloor) :
    (DoCurrentFloorRequests sim (GetActiveRequests sim [])).requestFound = true ∧
    NextDecision sim =
      { numFloors := sim.numFloors, currFloor := sim.currFloor,
        currDir := .EC_ELEVATOR_STOPPED, currState := sim.currState,
        time := sim.time + 1,
        listRequests := (DoCurrentFloorRequests sim (GetActiveRequests sim [])).listRequests } ∧
    (GetActiveRequests (NextDecision sim) [] ≠ [] →
      (NextDecision (NextDecision sim)).listRequests = (NextDecision sim).listRequests ∧
      ((NextDecision (NextDecision sim)).currFloor = sim.currFloor + 1 ∨
        (NextDecision (NextDecision sim)).currFloor = sim.currFloor - 1)) ∧
    (∀ s : ECElevatorSim,
      (s.currState = .ECElevatorUp ∨ s.currState = .ECElevatorDown) →
      s.currDir = .EC_ELEVATOR_STOPPED → GetActiveRequests s [] ≠ [] →
      (NextDecision s).listRequests = s.listRequests ∧
      ((NextDecision s).currFloor = s.currFloor + 1 ∨
        (NextDecision s).currFloor = s.currFloor - 1)) := by
  have hgen : ∀ s : ECElevatorSim,
      (s.currState = .ECElevatorUp ∨ s.currState = .ECElevatorDown) →
      s.currDir = .EC_ELEVATOR_STOPPED → GetActiveRequests s [] ≠ [] →
      (NextDecision s).listRequests = s.listRequests ∧
      ((NextDecision s).currFloor = s.currFloor + 1 ∨
        (NextDecision s).currFloor = s.currFloor - 1) := by
    intro s hs hd hn
    rcases moving_tick_cases s hs with ⟨h, _⟩ | ⟨_, _, h | h⟩ | ⟨_, h, _⟩
    · exact absurd h hn
    · rw [h]; exact ⟨rfl, Or.inl rfl⟩
    · rw [h]; exact ⟨rfl, Or.inr rfl⟩
    · exact absurd hd h
  have hfound := (DoCurrentFloorRequests_found_iff sim).mpr hhandled
  have hmark := moving_tick_marker sim hst hne hdir hfound
  refine ⟨hfound, hmark, ?_, hgen⟩
  intro hne2
  have hst2 : (NextDecision sim).currState = .ECElevatorUp ∨
      (NextDecision sim).currState = .ECElevatorDown := by
    rw [hmark]; exact hst
  have hd2 : (NextDecision sim).currDir = .EC_ELEVATOR_STOPPED := by
    rw [hmark]
  have hf2 : (NextDecision sim).currFloor = sim.currFloor := by
    rw [hmark]
  have h := hgen (NextDecision sim) hst2 hd2 hne2
  rw [hf2] at h
  exact h

/-- C17 at a concrete tick: MovingUp at floor 3 of 3, direction Up, a request
for floor 3 in the elevator and another waiting at floor 3: the tick drops
off the first, picks up the second, and does not move. -/
theorem C17_service_sets_marker_witness :
    NextDecision ⟨3, 3, .EC_ELEVATOR_UP, .ECElevatorUp, 2,
        [⟨1, 3, 0, true, false, -1⟩, ⟨3, 1, 0, false, false, -1⟩]⟩ =
      ⟨3, 3, .EC_ELEVATOR_STOPPED, .ECElevatorUp, 3,
        [⟨1, 3, 0, true, true, 2⟩, ⟨3, 1, 0, true, false, -1⟩]⟩ :=
  (C17_service_sets_marker
    ⟨3, 3, .EC_ELEVATOR_UP, .ECElevatorUp, 2,
      [⟨1, 3, 0, true, false, -1⟩, ⟨3, 1, 0, false, false, -1⟩]⟩
    (Or.inl rfl) (by decide) (by decide)
    ⟨0, ⟨1, 3, 0, true, false, -1⟩, ⟨rfl, by decide, rfl⟩, Or.inr ⟨rfl, rfl⟩⟩).2.1.trans
    (by decide)

/-! ## The Stopped variant never holds a passenger -/

/-- The two ways a tick of the Stopped variant can go. -/
theorem stopped_tick_cases (sim : ECElevatorSim)
    (hst : sim.currState = .ECElevatorStopped) :
    (GetActiveRequests sim [] = [] ∧
      NextDecision sim = { sim with time := sim.time + 1 }) ∨
    (GetActiveRequests sim [] ≠ [] ∧
      ((GetClosestRequestFloor
          { sim with listRequests :=
              (DoCurrentFloorRequests sim (GetActiveRequests sim [])).listRequests }
          (DoCurrentFloorRequests sim (GetActiveRequests sim [])).requests > sim.currFloor ∧
        NextDecision sim =
          { numFloors := sim.numFloors, currFloor := sim.currFloor + 1,
            currDir := .EC_ELEVATOR_UP, currState := .ECElevatorUp,
            time := sim.time + 1,
            listRequests :=
              (DoCurrentFloorRequests sim (GetActiveRequests sim [])).listRequests }) ∨
      (¬ GetClosestRequestFloor
          { sim with listRequests :=
              (DoCurrentFloorRequests sim (GetActiveRequests sim [])).listRequests }
          (DoCurrentFloorRequests sim (GetActiveRequests sim [])).requests > sim.currFloor ∧
        NextDecision sim =
          { numFloors := sim.numFloors, currFloor := sim.currFloor - 1,
            currDir := .EC_ELEVATOR_DOWN, currState := .ECElevatorDown,
            time := sim.time + 1,
            listRequests :=
              (DoCurrentFloorRequests sim (GetActiveRequests sim [])).listRequests }))) := by
  rw [NextDecision_of_stopped sim hst]
  unfold ECElevatorStopped.NextDecision
  simp only [ECElevatorSim.SetCurrDir, ECElevatorSim.SetCurrFloor, ECElevatorSim.ChangeState,
    ECElevatorSim.SetTime, ECElevatorState.GetDirection]
  by_cases hne : GetActiveRequests sim [] = []
  · left
    refine ⟨hne, ?_⟩
    rw [hne]
    simp
  · right
    have hpos := length_pos_of_ne_nil_nat _ hne
    refine ⟨hne, ?_⟩
    by_cases hc : GetClosestRequestFloor
        { sim with listRequests :=
            (DoCurrentFloorRequests sim (GetActiveRequests sim [])).listRequests }
        (DoCurrentFloorRequests sim (GetActiveRequests sim [])).requests > sim.currFloor
    · left
      refine ⟨hc, ?_⟩
      rw [if_pos hpos, if_pos hc]
    · right
      refine ⟨hc, ?_⟩
      rw [if_pos hpos, if_neg hc]

theorem StoppedClear_init (N : Int) (reqs : List ECElevatorSimRequest)
    (hfresh : ∀ r ∈ reqs, r.fresh) : StoppedClear (ECElevatorSim.new N reqs) := by
  intro _ j r hr hdone
  have := (hfresh r (List.getElem?_mem hr)).1
  rw [this] at hdone
  cases hdone

theorem StoppedClear_step (s : ECElevatorSim) (hff : FutureFresh s) (h : StoppedClear s) :
    StoppedClear (NextDecision s) := by
  intro hst' j r hr hdone
  cases hst : s.currState with
  | ECElevatorStopped =>
    rcases stopped_tick_cases s hst with ⟨_, he⟩ | ⟨_, ⟨_, he⟩ | ⟨_, he⟩⟩
    · rw [he] at hr
      exact h hst j r hr hdone
    · rw [he] at hst'; cases hst'
    · rw [he] at hst'; cases hst'
  | ECElevatorUp =>
    rcases moving_tick_cases s (Or.inl hst) with ⟨hidle, he⟩ | ⟨_, _, he | he⟩ | ⟨_, _, _, he⟩
    · rw [he] at hr
      simp only at hr
      cases hs : r.fServiced
      · exfalso
        have hlt : r.time ≤ s.time := by
          by_contra hcon
          have := (hff j r hr (by omega)).1
          rw [this] at hdone
          cases hdone
        have hmem := (GetActiveRequests_mem s [] j).mpr ⟨r, hr, hlt, hs⟩
        rw [hidle] at hmem
        cases hmem
      · rfl
    · rw [he] at hst'; cases hst'
    · rw [he] at hst'; cases hst'
    · rw [he] at hst'; simp only at hst'; rw [hst] at hst'; cases hst'
  | ECElevatorDown =>
    rcases moving_tick_cases s (Or.inr hst) with ⟨hidle, he⟩ | ⟨_, _, he | he⟩ | ⟨_, _, _, he⟩
    · rw [he] at hr
      simp only at hr
      cases hs : r.fServiced
      · exfalso
        have hlt : r.time ≤ s.time := by
          by_contra hcon
          have := (hff j r hr (by omega)).1
          rw [this] at hdone
          cases hdone
        have hmem := (GetActiveRequests_mem s [] j).mpr ⟨r, hr, hlt, hs⟩
        rw [hidle] at hmem
        cases hmem
      · rfl
    · rw [he] at hst'; cases hst'
    · rw [he] at hst'; cases hst'
    · rw [he] at hst'; simp only at hst'; rw [hst] at hst'; cases hst'

/-- Both invariants hold along every run that starts with untouched
requests. -/
theorem reachable_fresh_clear (N : Int) (reqs : List ECElevatorSimRequest)
    (hfresh : ∀ r ∈ reqs, r.fresh) (s : ECElevatorSim)
    (hs : Reachable (ECElevatorSim.new N reqs) s) : FutureFresh s ∧ StoppedClear s :=
  Reachable_induct (fun t => FutureFresh t ∧ StoppedClear t)
    ⟨FutureFresh_init N reqs hfresh, StoppedClear_init N reqs hfresh⟩
    (fun t _ ht => ⟨FutureFresh_step t ht.1, StoppedClear_step t ht.1 ht.2⟩) hs

/-! ## C18: movement and service in one tick -/

/-- C18 as stated fails: with five floors and one request from floor 1 to
floor 5 made at tick 0 (a valid, untouched request), the first tick from the
initial state, run by the Stopped variant, both picks the request up (its
picked-up flag goes from false to true) and moves the elevator from floor 1
to floor 2. -/
theorem C18_counterexample :
    (∀ r ∈ [ECElevatorSimRequest.request 1 5 0],
      1 ≤ r.floorSrc ∧ r.floorSrc ≤ 5 ∧ 1 ≤ r.floorDest ∧ r.floorDest ≤ 5 ∧ 0 ≤ r.time ∧
        r.fFloorReqDone = false ∧ r.fServiced = false) ∧
    Reachable (ECElevatorSim.new 5 [ECElevatorSimRequest.request 1 5 0])
      (ECElevatorSim.new 5 [ECElevatorSimRequest.request 1 5 0]) ∧
    (ECElevatorSim.new 5 [ECElevatorSimRequest.request 1 5 0]).currFloor = 1 ∧
    (NextDecision (ECElevatorSim.new 5 [ECElevatorSimRequest.request 1 5 0])).currFloor = 2 ∧
    (ECElevatorSim.new 5 [ECElevatorSimRequest.request 1 5 0]).listRequests[0]? =
      some ⟨1, 5, 0, false, false, -1⟩ ∧
    (NextDecision (ECElevatorSim.new 5 [ECElevatorSimRequest.request 1 5 0])).listRequests[0]? =
      some ⟨1, 5, 0, true, false, -1⟩ :=
  ⟨by decide, ⟨0, rfl⟩, rfl, by decide, rfl, by decide⟩

/-- C18 amended: for every state reachable from the initial state with valid,
untouched requests, a tick that changes the current floor changes no
request's serviced flag; and if the tick is run by the MovingUp or
MovingDown variant it changes no request's picked-up flag either.  (A tick of
the Stopped variant may pick up at the current floor and move.) -/
theorem C18_move_excludes_service (N : Int) (reqs : List ECElevatorSimRequest)
    (_hvalid : ∀ r ∈ reqs, 1 ≤ r.floorSrc ∧ r.floorSrc ≤ N ∧ 1 ≤ r.floorDest ∧
      r.floorDest ≤ N ∧ 0 ≤ r.time)
    (hfresh : ∀ r ∈ reqs, r.fFloorReqDone = false ∧ r.fServiced = false)
    (s : ECElevatorSim) (hs : Reachable (ECElevatorSim.new N reqs) s)
    (hmove : (NextDecision s).currFloor ≠ s.currFloor)
    (j : Nat) (r r' : ECElevatorSimRequest)
    (hr : s.listRequests[j]? = some r) (hr' : (NextDecision s).listRequests[j]? = some r') :
    r'.fServiced = r.fServiced ∧
    (s.currState ≠ .ECElevatorStopped → r'.fFloorReqDone = r.fFloorReqDone) := by
  obtain ⟨_, hclear⟩ := reachable_fresh_clear N reqs hfresh s hs
  by_cases hst : s.currState = .ECElevatorStopped
  · refine ⟨?_, fun h => absurd hst h⟩
    rcases NextDecision_get s j with heq | ⟨r2, hr2, _, hns, hget⟩
    · rw [heq, hr] at hr'
      cases hr'
      rfl
    · rw [hr] at hr2
      cases hr2
      rw [hget] at hr'
      cases hr'
      rcases serviceOne_cases s.currFloor s.time r with ⟨_, _, he⟩ | ⟨_, hd, _⟩ | he
      · rw [he]
      · have := hclear hst j r hr hd
        rw [hns] at this
        cases this
      · rw [he]
  · have hmov : s.currState = .ECElevatorUp ∨ s.currState = .ECElevatorDown := by
      cases h : s.currState
      · exact absurd h hst
      · exact Or.inl rfl
      · exact Or.inr rfl
    rcases moving_tick_floor_or_requests s hmov with h | h
    · exact absurd h hmove
    · rw [h, hr] at hr'
      cases hr'
      exact ⟨rfl, fun _ => rfl⟩

/-- C18 amended, at a concrete tick: the second tick of Scenario A (MovingUp
at floor 2) moves to floor 3 and leaves the flags of the request alone. -/
theorem C18_move_excludes_service_witness :
    (NextDecision (NextDecision
      (ECElevatorSim.new 5 [ECElevatorSimRequest.request 1 5 0]))).currFloor ≠
      (NextDecision (ECElevatorSim.new 5 [ECElevatorSimRequest.request 1 5 0])).currFloor ∧
    ((⟨1, 5, 0, true, false, -1⟩ : ECElevatorSimRequest).fServiced =
        (⟨1, 5, 0, true, false, -1⟩ : ECElevatorSimRequest).fServiced ∧
      ((NextDecision (ECElevatorSim.new 5 [ECElevatorSimRequest.request 1 5 0])).currState ≠
          .ECElevatorStopped →
        (⟨1, 5, 0, true, false, -1⟩ : ECElevatorSimRequest).fFloorReqDone =
          (⟨1, 5, 0, true, false, -1⟩ : ECElevatorSimRequest).fFloorReqDone)) :=
  ⟨by decide,
    C18_move_excludes_service 5 [ECElevatorSimRequest.request 1 5 0] (by decide) (by decide)
      (NextDecision (ECElevatorSim.new 5 [ECElevatorSimRequest.request 1 5 0])) ⟨1, rfl⟩
      (by decide) 0 ⟨1, 5, 0, true, false, -1⟩ ⟨1, 5, 0, true, false, -1⟩
      (by decide) (by decide)⟩

/-! ## C19: the floor stays in range when origin and destination differ -/

/-- In the Stopped variant, after the same-floor service every remaining
pointer points to a request with floors in range whose target is not the
current floor, and no pointer was erased. -/
theorem stopped_service_targets (N : Int) (s : ECElevatorSim)
    (hst : s.currState = .ECElevatorStopped) (hclear : StoppedClear s) (hok : FloorsOk N s) :
    (DoCurrentFloorRequests s (GetActiveRequests s [])).requests = GetActiveRequests s [] ∧
    ∀ p ∈ GetActiveRequests s [], ∃ r' : ECElevatorSimRequest,
      (DoCurrentFloorRequests s (GetActiveRequests s [])).listRequests[p]? = some r' ∧
      (1 ≤ r'.floorSrc ∧ r'.floorSrc ≤ N ∧ 1 ≤ r'.floorDest ∧ r'.floorDest ≤ N) ∧
      r'.target ≠ s.currFloor := by
  have hnotpicked : ∀ p ∈ GetActiveRequests s [], ∃ r : ECElevatorSimRequest,
      s.listRequests[p]? = some r ∧ r.time ≤ s.time ∧ r.fServiced = false ∧
        r.fFloorReqDone = false := by
    intro p hp
    obtain ⟨r, hr, ht, hs⟩ := (GetActiveRequests_mem s [] p).mp hp
    refine ⟨r, hr, ht, hs, ?_⟩
    cases hd : r.fFloorReqDone
    · rfl
    · have := hclear hst p r hr hd
      rw [hs] at this
      cases this
  constructor
  · unfold DoCurrentFloorRequests
    rw [DoCurrentFloorRequests_loop_requests _ _ _ _ _ (GetActiveRequests_nodup s [])]
    apply List.filter_eq_self.mpr
    intro p hp
    obtain ⟨r, hr, _, _, hd⟩ := hnotpicked p hp
    simp [staysAfterService, hr, hd]
  · intro p hp
    obtain ⟨r, hr, ht, hs, hd⟩ := hnotpicked p hp
    have hget := DoCurrentFloorRequests_get s p r hr
    rw [if_pos ⟨ht, hs⟩] at hget
    obtain ⟨h1, h2, h3, h4, h5⟩ := hok.2.1 p r hr
    refine ⟨_, hget, ?_, ?_⟩
    · rw [serviceOne_floorSrc, serviceOne_floorDest]
      exact ⟨h1, h2, h3, h4⟩
    · rcases serviceOne_cases s.currFloor s.time r with ⟨hsrc, _, he⟩ | ⟨_, hd2, _⟩ | he
      · rw [he]
        unfold ECElevatorSimRequest.target
        simp only [if_true]
        intro hcon
        exact h5 (hsrc.trans hcon.symm)
      · rw [hd] at hd2; cases hd2
      · rw [he]
        unfold ECElevatorSimRequest.target
        rw [hd]
        simp only [Bool.false_eq_true, if_false]
        intro hcon
        have hnot : ¬ (r.floorSrc = s.currFloor ∧ r.fFloorReqDone = false) := by
          intro hc
          have : serviceOne s.currFloor s.time r = { r with fFloorReqDone := true } := by
            unfold serviceOne
            rw [if_pos hc]
          rw [he] at this
          have h2 := congrArg ECElevatorSimRequest.fFloorReqDone this
          simp only at h2
          rw [hd] at h2
          cases h2
        exact hnot ⟨hcon, hd⟩

/-- In the Stopped variant with something active, the closest target floor
is a floor in range other than the current one, provided the sum
`currFloor + numFloors` does not overflow. -/
theorem stopped_closest_in_range (N : Int) (s : ECElevatorSim)
    (hst : s.currState = .ECElevatorStopped) (hclear : StoppedClear s) (hok : FloorsOk N s)
    (hno : s.currFloor + s.numFloors ≤ 2147483647)
    (hne : GetActiveRequests s [] ≠ []) :
    1 ≤ GetClosestRequestFloor
        { s with listRequests :=
            (DoCurrentFloorRequests s (GetActiveRequests s [])).listRequests }
        (DoCurrentFloorRequests s (GetActiveRequests s [])).requests ∧
    GetClosestRequestFloor
        { s with listRequests :=
            (DoCurrentFloorRequests s (GetActiveRequests s [])).listRequests }
        (DoCurrentFloorRequests s (GetActiveRequests s [])).requests ≤ N ∧
    GetClosestRequestFloor
        { s with listRequests :=
            (DoCurrentFloorRequests s (GetActiveRequests s [])).listRequests }
        (DoCurrentFloorRequests s (GetActiveRequests s [])).requests ≠ s.currFloor := by
  obtain ⟨hreq, htargets⟩ := stopped_service_targets N s hst hclear hok
  rw [hreq]
  obtain ⟨hN, _, hF1, hF2, _, _⟩ := hok
  have hspec := (GetClosestRequestFloor_spec
    { s with listRequests := (DoCurrentFloorRequests s (GetActiveRequests s [])).listRequests }
    (GetActiveRequests s []) ⟨hF1, by rw [hN]; exact hF2⟩ hno hne
    (by
      intro p hp
      obtain ⟨r', hr', hrange, _⟩ := htargets p hp
      refine ⟨r', hr', ?_⟩
      rw [hN]
      exact hrange)).1
  obtain ⟨p, hp, r, hr, htr⟩ := hspec
  obtain ⟨r', hr', hrange, hneq⟩ := htargets p hp
  have hrr : r = r' := by
    have : some r = some r' := hr.symm.trans hr'
    cases this
    rfl
  subst hrr
  rw [← htr]
  have := target_in_range N r hrange
  exact ⟨this.1, this.2, hneq⟩

theorem requests_in_range_step (N : Int) (s : ECElevatorSim)
    (h : ∀ (j : Nat) (r : ECElevatorSimRequest), s.listRequests[j]? = some r →
      1 ≤ r.floorSrc ∧ r.floorSrc ≤ N ∧ 1 ≤ r.floorDest ∧ r.floorDest ≤ N ∧
        r.floorSrc ≠ r.floorDest) :
    ∀ (j : Nat) (r : ECElevatorSimRequest), (NextDecision s).listRequests[j]? = some r →
      1 ≤ r.floorSrc ∧ r.floorSrc ≤ N ∧ 1 ≤ r.floorDest ∧ r.floorDest ≤ N ∧
        r.floorSrc ≠ r.floorDest := by
  intro j r' hr'
  rcases NextDecision_get s j with heq | ⟨r, hr, _, _, hget⟩
  · exact h j r' (by rw [← heq]; exact hr')
  · rw [hget] at hr'
    cases hr'
    rw [serviceOne_floorSrc, serviceOne_floorDest]
    exact h j r hr

theorem FloorsOk_step (N : Int) (s : ECElevatorSim) (hN2 : 2 * N ≤ 2147483647)
    (hclear : StoppedClear s) (hok : FloorsOk N s) : FloorsOk N (NextDecision s) := by
  have hreqs := requests_in_range_step N s hok.2.1
  obtain ⟨hN, hR, hF1, hF2, hUp, hDown⟩ := hok
  have hno : s.currFloor + s.numFloors ≤ 2147483647 := by omega
  have hok' : FloorsOk N s := ⟨hN, hR, hF1, hF2, hUp, hDown⟩
  have assemble : ∀ (f : Int) (st : ECElevatorState),
      (NextDecision s).numFloors = s.numFloors → (NextDecision s).currFloor = f →
      (NextDecision s).currState = st → 1 ≤ f → f ≤ N →
      (st = .ECElevatorUp → 2 ≤ f) → (st = .ECElevatorDown → f ≤ N - 1) →
      FloorsOk N (NextDecision s) := by
    intro f st h1 h2 h3 h4 h5 h6 h7
    refine ⟨h1.trans hN, hreqs, ?_, ?_, ?_, ?_⟩
    · rw [h2]; exact h4
    · rw [h2]; exact h5
    · rw [h2, h3]; exact h6
    · rw [h2, h3]; exact h7
  cases hst : s.currState with
  | ECElevatorStopped =>
    rcases stopped_tick_cases s hst with ⟨_, he⟩ | ⟨hne, ⟨hc, he⟩ | ⟨hc, he⟩⟩
    · refine assemble s.currFloor .ECElevatorStopped (by rw [he]) (by rw [he])
        (by rw [he]; exact hst) hF1 hF2 ?_ ?_
      · intro h; cases h
      · intro h; cases h
    · obtain ⟨_, hc2, _⟩ := stopped_closest_in_range N s hst hclear hok' hno hne
      refine assemble (s.currFloor + 1) .ECElevatorUp (by rw [he]) (by rw [he]) (by rw [he])
        (by omega) (by omega) (fun _ => by omega) ?_
      intro h; cases h
    · obtain ⟨hc1, _, hc3⟩ := stopped_closest_in_range N s hst hclear hok' hno hne
      refine assemble (s.currFloor - 1) .ECElevatorDown (by rw [he]) (by rw [he]) (by rw [he])
        (by omega) (by omega) ?_ (fun _ => by omega)
      intro h; cases h
  | ECElevatorUp =>
    have hF3 := hUp hst
    rcases moving_tick_cases s (Or.inl hst) with ⟨_, he⟩ | ⟨hne, hsk, _⟩ | ⟨_, _, _, he⟩
    · refine assemble s.currFloor .ECElevatorStopped (by rw [he]) (by rw [he]) (by rw [he])
        hF1 hF2 ?_ ?_
      · intro h; cases h
      · intro h; cases h
    · obtain ⟨h1, h2⟩ := ECElevatorUp_tick_advance s hst hne hsk
      cases hp : ECElevatorUp.RequestOnPath s (GetActiveRequests s [])
      · have he := h2 hp
        refine assemble (s.currFloor - 1) .ECElevatorDown (by rw [he]) (by rw [he])
          (by rw [he]) (by omega) (by omega) ?_ (fun _ => by omega)
        intro h; cases h
      · have he := h1 hp
        obtain ⟨j, r, ⟨hr, _, _⟩, hahead⟩ := (ECElevatorUp_onPath_active s).mp hp
        obtain ⟨_, r2, _, r4, _⟩ := hR j r hr
        have hlt : s.currFloor < N := by
          rcases hahead with ⟨ha, _⟩ | ⟨ha, _⟩
          · omega
          · omega
        refine assemble (s.currFloor + 1) .ECElevatorUp (by rw [he]) (by rw [he])
          (by rw [he]) (by omega) (by omega) (fun _ => by omega) ?_
        intro h; cases h
    · refine assemble s.currFloor .ECElevatorUp (by rw [he]) (by rw [he])
        (by rw [he]; exact hst) hF1 hF2 (fun _ => hF3) ?_
      intro h; cases h
  | ECElevatorDown =>
    have hF3 := hDown hst
    rcases moving_tick_cases s (Or.inr hst) with ⟨_, he⟩ | ⟨hne, hsk, _⟩ | ⟨_, _, _, he⟩
    · refine assemble s.currFloor .ECElevatorStopped (by rw [he]) (by rw [he]) (by rw [he])
        hF1 hF2 ?_ ?_
      · intro h; cases h
      · intro h; cases h
    · obtain ⟨h1, h2⟩ := ECElevatorDown_tick_advance s hst hne hsk
      cases hp : ECElevatorDown.RequestOnPath s (GetActiveRequests s [])
      · have he := h2 hp
        refine assemble (s.currFloor + 1) .ECElevatorUp (by rw [he]) (by rw [he])
          (by rw [he]) (by omega) (by omega) (fun _ => by omega) ?_
        intro h; cases h
      · have he := h1 hp
        obtain ⟨j, r, ⟨hr, _, _⟩, hahead⟩ := (ECElevatorDown_onPath_active s).mp hp
        obtain ⟨r1, _, r3, _, _⟩ := hR j r hr
        have hlt : 1 < s.currFloor := by
          rcases hahead with ⟨ha, _⟩ | ⟨ha, _⟩
          · omega
          · omega
        refine assemble (s.currFloor - 1) .ECElevatorDown (by rw [he]) (by rw [he])
          (by rw [he]) (by omega) (by omega) ?_ (fun _ => by omega)
        intro h; cases h
    · refine assemble s.currFloor .ECElevatorDown (by rw [he]) (by rw [he])
        (by rw [he]; exact hst) hF1 hF2 ?_ (fun _ => hF3)
      intro h; cases h

theorem FloorsOk_init (N : Int) (reqs : List ECElevatorSimRequest) (hN : 1 ≤ N)
    (hvalid : ∀ r ∈ reqs, 1 ≤ r.floorSrc ∧ r.floorSrc ≤ N ∧ 1 ≤ r.floorDest ∧
      r.floorDest ≤ N ∧ r.floorSrc ≠ r.floorDest) :
    FloorsOk N (ECElevatorSim.new N reqs) := by
  refine ⟨rfl, ?_, ?_, ?_, ?_, ?_⟩
  · intro j r hr
    exact hvalid r (List.getElem?_mem hr)
  · exact le_refl _
  · exact hN
  · intro h; cases h
  · intro h; cases h

/-- Below the overflow (`2 * N <= INT_MAX`, so that `currFloor + numFloors`
never wraps): for every floor count `N >= 1` and every request list in which
each request has origin and destination in `[1, N]`, origin different from
destination and creation time >= 0, and is neither picked up nor serviced,
every state reachable from the initial state has its current floor in
`[1, N]`; the MovingUp variant is active only at a floor >= 2 and the
MovingDown variant only at a floor <= `N - 1`. -/
theorem floor_in_range_without_overflow (N : Int) (reqs : List ECElevatorSimRequest)
    (hN : 1 ≤ N) (hN2 : 2 * N ≤ 2147483647)
    (hvalid : ∀ r ∈ reqs, 1 ≤ r.floorSrc ∧ r.floorSrc ≤ N ∧ 1 ≤ r.floorDest ∧
      r.floorDest ≤ N ∧ r.floorSrc ≠ r.floorDest ∧ 0 ≤ r.time)
    (hfresh : ∀ r ∈ reqs, r.fFloorReqDone = false ∧ r.fServiced = false)
    (s : ECElevatorSim) (hs : Reachable (ECElevatorSim.new N reqs) s) :
    (1 ≤ s.currFloor ∧ s.currFloor ≤ N) ∧
    (s.currState = .ECElevatorUp → 2 ≤ s.currFloor) ∧
    (s.currState = .ECElevatorDown → s.currFloor ≤ N - 1) := by
  have hinv : FutureFresh s ∧ StoppedClear s ∧ FloorsOk N s :=
    Reachable_induct (fun t => FutureFresh t ∧ StoppedClear t ∧ FloorsOk N t)
      ⟨FutureFresh_init N reqs hfresh, StoppedClear_init N reqs hfresh,
        FloorsOk_init N reqs hN (fun r hr =>
          ⟨(hvalid r hr).1, (hvalid r hr).2.1, (hvalid r hr).2.2.1, (hvalid r hr).2.2.2.1,
            (hvalid r hr).2.2.2.2.1⟩)⟩
      (fun t _ ht => ⟨FutureFresh_step t ht.1, StoppedClear_step t ht.1 ht.2.1,
        FloorsOk_step N t hN2 ht.2.1 ht.2.2⟩) hs
  obtain ⟨_, _, _, _, h1, h2, h3, h4⟩ := hinv
  exact ⟨⟨h1, h2⟩, h3, h4⟩

/-- C19 (the code breaks it): with `numFloors = 2147483647 = INT_MAX` and
the single request (origin 3, destination 1, created at tick 0), whose floors
are in `[1, numFloors]` and differ, and which is neither picked up nor
serviced, the first tick computes the closest floor from the wrapped sum
`1 + 2147483647`, gets 0, and moves the elevator down: the state after one
tick is reachable, its variant is MovingDown and its current floor is 0,
outside `[1, numFloors]`. -/
theorem C19_overflow_leaves_range :
    (1 : Int) ≤ 2147483647 ∧
    (∀ r ∈ [ECElevatorSimRequest.request 3 1 0],
      1 ≤ r.floorSrc ∧ r.floorSrc ≤ 2147483647 ∧ 1 ≤ r.floorDest ∧
        r.floorDest ≤ 2147483647 ∧ r.floorSrc ≠ r.floorDest ∧ 0 ≤ r.time ∧
        r.fFloorReqDone = false ∧ r.fServiced = false) ∧
    Reachable (ECElevatorSim.new 2147483647 [ECElevatorSimRequest.request 3 1 0])
      (NextDecision (ECElevatorSim.new 2147483647 [ECElevatorSimRequest.request 3 1 0])) ∧
    (NextDecision (ECElevatorSim.new 2147483647
      [ECElevatorSimRequest.request 3 1 0])).currState = .ECElevatorDown ∧
    (NextDecision (ECElevatorSim.new 2147483647
      [ECElevatorSimRequest.request 3 1 0])).currFloor = 0 ∧
    ¬ (1 ≤ (NextDecision (ECElevatorSim.new 2147483647
      [ECElevatorSimRequest.request 3 1 0])).currFloor) :=
  ⟨by decide, by decide, ⟨1, rfl⟩, by decide, by decide, by decide⟩

/-! ## C20: a lone request -/

theorem handledAt_iff_target (f : Int) (r : ECElevatorSimRequest) :
    r.handledAt f ↔ r.target = f := by
  unfold ECElevatorSimRequest.handledAt ECElevatorSimRequest.target
  cases r.fFloorReqDone <;> simp

theorem aheadUp_iff_target (f : Int) (r : ECElevatorSimRequest) :
    r.aheadUp f ↔ f < r.target := by
  unfold ECElevatorSimRequest.aheadUp ECElevatorSimRequest.target
  cases r.fFloorReqDone <;> simp

theorem aheadDown_iff_target (f : Int) (r : ECElevatorSimRequest) :
    r.aheadDown f ↔ r.target < f := by
  unfold ECElevatorSimRequest.aheadDown ECElevatorSimRequest.target
  cases r.fFloorReqDone <;> simp

theorem ActiveAt_single (N f T : Int) (dir : EC_ELEVATOR_DIR) (st : ECElevatorState)
    (r r' : ECElevatorSimRequest) (j : Nat) :
    ActiveAt ⟨N, f, dir, st, T, [r]⟩ j r' ↔
      j = 0 ∧ r' = r ∧ r.time ≤ T ∧ r.fServiced = false := by
  unfold ActiveAt
  cases j with
  | zero =>
    simp only [List.getElem?_cons_zero, Option.some.injEq, true_and]
    constructor
    · rintro ⟨e, h1, h2⟩
      subst e
      exact ⟨rfl, h1, h2⟩
    · rintro ⟨e, h1, h2⟩
      subst e
      exact ⟨rfl, h1, h2⟩
  | succ j => simp

theorem active_single_ne_nil (N f T : Int) (dir : EC_ELEVATOR_DIR) (st : ECElevatorState)
    (r : ECElevatorSimRequest) (ht : r.time ≤ T) (hs : r.fServiced = false) :
    GetActiveRequests ⟨N, f, dir, st, T, [r]⟩ [] ≠ [] := by
  intro h
  have hmem : 0 ∈ GetActiveRequests ⟨N, f, dir, st, T, [r]⟩ [] :=
    (GetActiveRequests_mem _ [] 0).mpr ⟨r, rfl, ht, hs⟩
  rw [h] at hmem
  cases hmem

theorem active_single_eq_nil (N f T : Int) (dir : EC_ELEVATOR_DIR) (st : ECElevatorState)
    (r : ECElevatorSimRequest) (h : ¬ (r.time ≤ T ∧ r.fServiced = false)) :
    GetActiveRequests ⟨N, f, dir, st, T, [r]⟩ [] = [] := by
  apply List.eq_nil_iff_forall_not_mem.mpr
  intro j hj
  obtain ⟨r', hr', h1, h2⟩ := (GetActiveRequests_mem _ [] j).mp hj
  have := (ActiveAt_single N f T dir st r r' j).mp ⟨hr', h1, h2⟩
  exact h ⟨this.2.2.1, this.2.2.2⟩

/-- One service pass over a single active request. -/
theorem service_single (N f T : Int) (dir : EC_ELEVATOR_DIR) (st : ECElevatorState)
    (r : ECElevatorSimRequest) (ht : r.time ≤ T) (hs : r.fServiced = false) :
    (DoCurrentFloorRequests ⟨N, f, dir, st, T, [r]⟩
      (GetActiveRequests ⟨N, f, dir, st, T, [r]⟩ [])).listRequests = [serviceOne f T r] := by
  have hlen : (DoCurrentFloorRequests.loop f T
      (GetActiveRequests ⟨N, f, dir, st, T, [r]⟩ []) [r] false).listRequests.length = 1 :=
    DoCurrentFloorRequests_loop_length f T _ [r] false
  have hget : (DoCurrentFloorRequests.loop f T
      (GetActiveRequests ⟨N, f, dir, st, T, [r]⟩ []) [r] false).listRequests[0]? =
        some (serviceOne f T r) := by
    have h := DoCurrentFloorRequests_get ⟨N, f, dir, st, T, [r]⟩ 0 r rfl
    rw [if_pos ⟨ht, hs⟩] at h
    exact h
  show (DoCurrentFloorRequests.loop f T
      (GetActiveRequests ⟨N, f, dir, st, T, [r]⟩ []) [r] false).listRequests = _
  generalize (DoCurrentFloorRequests.loop f T
    (GetActiveRequests ⟨N, f, dir, st, T, [r]⟩ []) [r] false).listRequests = L at hget hlen
  cases L with
  | nil => simp at hlen
  | cons x L =>
    cases L with
    | nil =>
      simp only [List.getElem?_cons_zero, Option.some.injEq] at hget
      rw [hget]
    | cons y L => simp at hlen

theorem active_single_eq (N f T : Int) (dir : EC_ELEVATOR_DIR) (st : ECElevatorState)
    (r : ECElevatorSimRequest) (ht : r.time ≤ T) (hs : r.fServiced = false) :
    GetActiveRequests ⟨N, f, dir, st, T, [r]⟩ [] = [0] := by
  simp [GetActiveRequests, GetActiveRequests.loop, ht, hs]

theorem closest_single (N f T : Int) (dir : EC_ELEVATOR_DIR) (st : ECElevatorState)
    (r : ECElevatorSimRequest) (hf : 1 ≤ f ∧ f ≤ N) (hno : f + N ≤ 2147483647)
    (hr : 1 ≤ r.floorSrc ∧ r.floorSrc ≤ N ∧ 1 ≤ r.floorDest ∧ r.floorDest ≤ N) :
    GetClosestRequestFloor ⟨N, f, dir, st, T, [r]⟩ [0] = r.target := by
  obtain ⟨p, hp, r2, hr2, ht⟩ := (GetClosestRequestFloor_spec ⟨N, f, dir, st, T, [r]⟩ [0] hf
    hno (by simp) (by
      intro p hp
      simp only [List.mem_singleton] at hp
      subst hp
      exact ⟨r, rfl, hr⟩)).1
  simp only [List.mem_singleton] at hp
  subst hp
  simp only [List.getElem?_cons_zero, Option.some.injEq] at hr2
  subst hr2
  exact ht.symm

/-- Stopped variant, the lone request not yet active or already serviced:
only the clock moves. -/
theorem lone_idle (N f T : Int) (dir : EC_ELEVATOR_DIR) (r : ECElevatorSimRequest)
    (h : ¬ (r.time ≤ T ∧ r.fServiced = false)) :
    NextDecision ⟨N, f, dir, .ECElevatorStopped, T, [r]⟩ =
      ⟨N, f, dir, .ECElevatorStopped, T + 1, [r]⟩ := by
  rcases stopped_tick_cases ⟨N, f, dir, .ECElevatorStopped, T, [r]⟩ rfl with ⟨_, he⟩ | ⟨hne, _⟩
  · exact he
  · exact absurd (active_single_eq_nil N f T dir _ r h) hne

/-- Stopped variant, the lone request active and not picked up: the tick
picks it up if it waits here and leaves towards its target. -/
theorem lone_start (N f T : Int) (dir : EC_ELEVATOR_DIR) (r : ECElevatorSimRequest)
    (hf : 1 ≤ f ∧ f ≤ N) (hno : f + N ≤ 2147483647)
    (hr : 1 ≤ r.floorSrc ∧ r.floorSrc ≤ N ∧ 1 ≤ r.floorDest ∧ r.floorDest ≤ N)
    (ht : r.time ≤ T) (hs : r.fServiced = false) (hd : r.fFloorReqDone = false)
    (hup : f < (serviceOne f T r).target) :
    NextDecision ⟨N, f, dir, .ECElevatorStopped, T, [r]⟩ =
      ⟨N, f + 1, .EC_ELEVATOR_UP, .ECElevatorUp, T + 1, [serviceOne f T r]⟩ := by
  have hlist := service_single N f T dir .ECElevatorStopped r ht hs
  have hact := active_single_eq N f T dir .ECElevatorStopped r ht hs
  have hreq : (DoCurrentFloorRequests ⟨N, f, dir, .ECElevatorStopped, T, [r]⟩
      (GetActiveRequests ⟨N, f, dir, .ECElevatorStopped, T, [r]⟩ [])).requests = [0] := by
    unfold DoCurrentFloorRequests
    rw [DoCurrentFloorRequests_loop_requests _ _ _ _ _ (GetActiveRequests_nodup _ []), hact]
    simp [staysAfterService, hd]
  have hc : GetClosestRequestFloor
      { (⟨N, f, dir, .ECElevatorStopped, T, [r]⟩ : ECElevatorSim) with
        listRequests := (DoCurrentFloorRequests ⟨N, f, dir, .ECElevatorStopped, T, [r]⟩
          (GetActiveRequests ⟨N, f, dir, .ECElevatorStopped, T, [r]⟩ [])).listRequests }
      (DoCurrentFloorRequests ⟨N, f, dir, .ECElevatorStopped, T, [r]⟩
        (GetActiveRequests ⟨N, f, dir, .ECElevatorStopped, T, [r]⟩ [])).requests =
        (serviceOne f T r).target := by
    rw [hreq, hlist]
    exact closest_single N f T dir .ECElevatorStopped (serviceOne f T r) hf hno
      (by rw [serviceOne_floorSrc, serviceOne_floorDest]; exact hr)
  rcases stopped_tick_cases ⟨N, f, dir, .ECElevatorStopped, T, [r]⟩ rfl with
    ⟨hnil, _⟩ | ⟨_, ⟨_, he⟩ | ⟨hcn, _⟩⟩
  · rw [hact] at hnil; cases hnil
  · rw [he, hlist]
  · rw [hc] at hcn
    exact absurd hup hcn

/-- MovingUp, the lone request active with its target above: one floor up. -/
theorem lone_up_step (N f T : Int) (dir : EC_ELEVATOR_DIR) (r : ECElevatorSimRequest)
    (ht : r.time ≤ T) (hs : r.fServiced = false) (hup : f < r.target) :
    NextDecision ⟨N, f, dir, .ECElevatorUp, T, [r]⟩ =
      ⟨N, f + 1, .EC_ELEVATOR_UP, .ECElevatorUp, T + 1, [r]⟩ := by
  have hne := active_single_ne_nil N f T dir .ECElevatorUp r ht hs
  have hnf : (DoCurrentFloorRequests ⟨N, f, dir, .ECElevatorUp, T, [r]⟩
      (GetActiveRequests ⟨N, f, dir, .ECElevatorUp, T, [r]⟩ [])).requestFound = false := by
    rcases found_false_or_true ⟨N, f, dir, .ECElevatorUp, T, [r]⟩ with h | h
    · exact h
    · obtain ⟨j, r', hact, hh⟩ := (DoCurrentFloorRequests_found_iff _).mp h
      obtain ⟨_, e, _, _⟩ := (ActiveAt_single N f T dir _ r r' j).mp hact
      subst e
      have := (handledAt_iff_target f r').mp hh
      omega
  refine (ECElevatorUp_tick_advance ⟨N, f, dir, .ECElevatorUp, T, [r]⟩ rfl hne (Or.inr hnf)).1 ?_
  exact (ECElevatorUp_onPath_active _).mpr
    ⟨0, r, (ActiveAt_single N f T dir _ r r 0).mpr ⟨rfl, rfl, ht, hs⟩,
      (aheadUp_iff_target f r).mpr hup⟩

/-- MovingDown, the lone request active with its target below: one floor
down. -/
theorem lone_down_step (N f T : Int) (dir : EC_ELEVATOR_DIR) (r : ECElevatorSimRequest)
    (ht : r.time ≤ T) (hs : r.fServiced = false) (hdown : r.target < f) :
    NextDecision ⟨N, f, dir, .ECElevatorDown, T, [r]⟩ =
      ⟨N, f - 1, .EC_ELEVATOR_DOWN, .ECElevatorDown, T + 1, [r]⟩ := by
  have hne := active_single_ne_nil N f T dir .ECElevatorDown r ht hs
  have hnf : (DoCurrentFloorRequests ⟨N, f, dir, .ECElevatorDown, T, [r]⟩
      (GetActiveRequests ⟨N, f, dir, .ECElevatorDown, T, [r]⟩ [])).requestFound = false := by
    rcases found_false_or_true ⟨N, f, dir, .ECElevatorDown, T, [r]⟩ with h | h
    · exact h
    · obtain ⟨j, r', hact, hh⟩ := (DoCurrentFloorRequests_found_iff _).mp h
      obtain ⟨_, e, _, _⟩ := (ActiveAt_single N f T dir _ r r' j).mp hact
      subst e
      have := (handledAt_iff_target f r').mp hh
      omega
  refine (ECElevatorDown_tick_advance ⟨N, f, dir, .ECElevatorDown, T, [r]⟩ rfl hne
    (Or.inr hnf)).1 ?_
  exact (ECElevatorDown_onPath_active _).mpr
    ⟨0, r, (ActiveAt_single N f T dir _ r r 0).mpr ⟨rfl, rfl, ht, hs⟩,
      (aheadDown_iff_target f r).mpr hdown⟩

/-- MovingUp with the marker set, the lone request active with its target
below: the tick reverses and goes one floor down. -/
theorem lone_up_reverse (N f T : Int) (r : ECElevatorSimRequest)
    (ht : r.time ≤ T) (hs : r.fServiced = false) (hdown : r.target < f) :
    NextDecision ⟨N, f, .EC_ELEVATOR_STOPPED, .ECElevatorUp, T, [r]⟩ =
      ⟨N, f - 1, .EC_ELEVATOR_DOWN, .ECElevatorDown, T + 1, [r]⟩ := by
  have hne := active_single_ne_nil N f T .EC_ELEVATOR_STOPPED .ECElevatorUp r ht hs
  refine (ECElevatorUp_tick_advance ⟨N, f, .EC_ELEVATOR_STOPPED, .ECElevatorUp, T, [r]⟩ rfl hne
    (Or.inl rfl)).2 ?_
  cases hp : ECElevatorUp.RequestOnPath ⟨N, f, .EC_ELEVATOR_STOPPED, .ECElevatorUp, T, [r]⟩
    (GetActiveRequests ⟨N, f, .EC_ELEVATOR_STOPPED, .ECElevatorUp, T, [r]⟩ [])
  · rfl
  · obtain ⟨j, r', hact, hh⟩ := (ECElevatorUp_onPath_active _).mp hp
    obtain ⟨_, e, _, _⟩ := (ActiveAt_single N f T _ _ r r' j).mp hact
    subst e
    have := (aheadUp_iff_target f r').mp hh
    omega

/-- Moving variant, direction not Stopped, the lone request active with its
target at the current floor: the tick serves it and sets the marker. -/
theorem lone_service (N f T : Int) (dir : EC_ELEVATOR_DIR) (st : ECElevatorState)
    (r : ECElevatorSimRequest)
    (hst : st = .ECElevatorUp ∨ st = .ECElevatorDown) (hdir : dir ≠ .EC_ELEVATOR_STOPPED)
    (ht : r.time ≤ T) (hs : r.fServiced = false) (hhere : r.target = f) :
    NextDecision ⟨N, f, dir, st, T, [r]⟩ =
      ⟨N, f, .EC_ELEVATOR_STOPPED, st, T + 1, [serviceOne f T r]⟩ := by
  have hne := active_single_ne_nil N f T dir st r ht hs
  have hfound := (DoCurrentFloorRequests_found_iff ⟨N, f, dir, st, T, [r]⟩).mpr
    ⟨0, r, (ActiveAt_single N f T dir st r r 0).mpr ⟨rfl, rfl, ht, hs⟩,
      (handledAt_iff_target f r).mpr hhere⟩
  rw [moving_tick_marker ⟨N, f, dir, st, T, [r]⟩ hst hne hdir hfound,
    service_single N f T dir st r ht hs]

theorem lone_idle_iter (N f T : Int) (dir : EC_ELEVATOR_DIR) (r : ECElevatorSimRequest)
    (k : Nat) (h : T + k ≤ r.time) :
    NextDecision^[k] ⟨N, f, dir, .ECElevatorStopped, T, [r]⟩ =
      ⟨N, f, dir, .ECElevatorStopped, T + k, [r]⟩ := by
  induction k with
  | zero => simp
  | succ k ih =>
    have h1 : T + k ≤ r.time := by push_cast at h; omega
    rw [Function.iterate_succ_apply', ih h1, lone_idle N f (T + k) dir r
      (by push_cast at h; intro hc; omega)]
    push_cast
    rw [add_assoc]

theorem lone_up_iter (N f T : Int) (r : ECElevatorSimRequest) (k : Nat)
    (ht : r.time ≤ T) (hs : r.fServiced = false) (h : f + k ≤ r.target) :
    NextDecision^[k] ⟨N, f, .EC_ELEVATOR_UP, .ECElevatorUp, T, [r]⟩ =
      ⟨N, f + k, .EC_ELEVATOR_UP, .ECElevatorUp, T + k, [r]⟩ := by
  induction k with
  | zero => simp
  | succ k ih =>
    have h1 : f + k ≤ r.target := by push_cast at h; omega
    rw [Function.iterate_succ_apply', ih h1, lone_up_step N (f + k) (T + k) _ r
      (by omega) hs (by push_cast at h; omega)]
    push_cast
    rw [add_assoc, add_assoc]

theorem lone_down_iter (N f T : Int) (r : ECElevatorSimRequest) (k : Nat)
    (ht : r.time ≤ T) (hs : r.fServiced = false) (h : r.target ≤ f - k) :
    NextDecision^[k] ⟨N, f, .EC_ELEVATOR_DOWN, .ECElevatorDown, T, [r]⟩ =
      ⟨N, f - k, .EC_ELEVATOR_DOWN, .ECElevatorDown, T + k, [r]⟩ := by
  induction k with
  | zero => simp
  | succ k ih =>
    have h1 : r.target ≤ f - k := by push_cast at h; omega
    rw [Function.iterate_succ_apply', ih h1, lone_down_step N (f - k) (T + k) _ r
      (by omega) hs (by push_cast at h; omega)]
    push_cast
    rw [add_assoc, sub_sub]

/-- With nothing active a tick neither moves the elevator nor touches a
request. -/
theorem idle_tick_keeps (sim : ECElevatorSim) (h : GetActiveRequests sim [] = []) :
    (NextDecision sim).currFloor = sim.currFloor ∧
      (NextDecision sim).listRequests = sim.listRequests := by
  cases hst : sim.currState with
  | ECElevatorStopped =>
    rcases stopped_tick_cases sim hst with ⟨_, he⟩ | ⟨hne, _⟩
    · rw [he]; exact ⟨rfl, rfl⟩
    · exact absurd h hne
  | ECElevatorUp =>
    rw [moving_tick_idle sim (Or.inl hst) h]; exact ⟨rfl, rfl⟩
  | ECElevatorDown =>
    rw [moving_tick_idle sim (Or.inr hst) h]; exact ⟨rfl, rfl⟩

/-- Once the lone request is serviced the elevator stays where it is. -/
theorem lone_done_iter (sim : ECElevatorSim) (r : ECElevatorSimRequest)
    (hl : sim.listRequests = [r]) (hs : r.fServiced = true) (k : Nat) :
    (NextDecision^[k] sim).currFloor = sim.currFloor ∧
      (NextDecision^[k] sim).listRequests = [r] := by
  induction k with
  | zero => exact ⟨rfl, hl⟩
  | succ k ih =>
    rw [Function.iterate_succ_apply']
    have hidle : GetActiveRequests (NextDecision^[k] sim) [] = [] := by
      apply List.eq_nil_iff_forall_not_mem.mpr
      intro j hj
      obtain ⟨r', hr', _, h2⟩ := (GetActiveRequests_mem _ [] j).mp hj
      rw [ih.2] at hr'
      have hmem := List.getElem?_mem hr'
      simp only [List.mem_singleton] at hmem
      subst hmem
      rw [hs] at h2
      cases h2
    obtain ⟨h1, h2⟩ := idle_tick_keeps _ hidle
    exact ⟨h1.trans ih.1, h2.trans ih.2⟩

/-- A request that is serviced after some ticks is serviced after any
further ticks. -/
theorem serviced_stays (sim : ECElevatorSim) (j : Nat) (r : ECElevatorSimRequest)
    (hr : sim.listRequests[j]? = some r) (hs : r.fServiced = true) (k : Nat) :
    (NextDecision^[k] sim).listRequests[j]? = some r := by
  induction k with
  | zero => exact hr
  | succ k ih =>
    rw [Function.iterate_succ_apply']
    rcases NextDecision_get (NextDecision^[k] sim) j with heq | ⟨r2, hr2, _, hns, _⟩
    · rw [heq, ih]
    · rw [ih] at hr2
      cases hr2
      rw [hs] at hns
      cases hns

theorem serviceOne_pickup (f T : Int) (r : ECElevatorSimRequest)
    (h1 : r.floorSrc = f) (h2 : r.fFloorReqDone = false) :
    serviceOne f T r = { r with fFloorReqDone := true } := by
  unfold serviceOne
  rw [if_pos ⟨h1, h2⟩]

theorem serviceOne_untouched (f T : Int) (r : ECElevatorSimRequest)
    (h1 : r.floorSrc ≠ f) (h2 : r.fFloorReqDone = false) :
    serviceOne f T r = r := by
  unfold serviceOne
  rw [if_neg (fun h => h1 h.1), if_neg (fun h => by rw [h2] at h; cases h.2)]

theorem serviceOne_dropoff (f T : Int) (r : ECElevatorSimRequest)
    (h1 : r.floorDest = f) (h2 : r.fFloorReqDone = true) :
    serviceOne f T r = { r with timeArrive := T, fServiced := true } := by
  unfold serviceOne
  rw [if_neg (fun h => by rw [h2] at h; cases h.2), if_pos ⟨h1, h2⟩]

theorem state_eq {N f f' T T' : Int} {dir : EC_ELEVATOR_DIR} {st : ECElevatorState}
    {l : List ECElevatorSimRequest} (hf : f = f') (hT : T = T') :
    (⟨N, f, dir, st, T, l⟩ : ECElevatorSim) = ⟨N, f', dir, st, T', l⟩ := by
  subst hf hT
  rfl

theorem iterate_split (a b : Nat) (x : ECElevatorSim) :
    NextDecision^[a + b] x = NextDecision^[b] (NextDecision^[a] x) := by
  rw [Nat.add_comm, Function.iterate_add_apply]

/-- The first `t` ticks, before the lone request is made, and the tick at
`t`, which leaves floor 1 upwards (after picking the request up if it waits
at floor 1). -/
theorem lone_departure (N : Int) (r : ECElevatorSimRequest) (t : Nat)
    (hN : 2 ≤ N) (hno : N ≤ 2147483646)
    (hr : 1 ≤ r.floorSrc ∧ r.floorSrc ≤ N ∧ 1 ≤ r.floorDest ∧ r.floorDest ≤ N)
    (hne : r.floorSrc ≠ r.floorDest) (ht : r.time = t)
    (hd : r.fFloorReqDone = false) (hs : r.fServiced = false) :
    NextDecision^[t + 1] (ECElevatorSim.new N [r]) =
      ⟨N, 2, .EC_ELEVATOR_UP, .ECElevatorUp, t + 1, [serviceOne 1 t r]⟩ := by
  have e1 : NextDecision^[t] (ECElevatorSim.new N [r]) =
      ⟨N, 1, .EC_ELEVATOR_STOPPED, .ECElevatorStopped, t, [r]⟩ := by
    show NextDecision^[t] ⟨N, 1, .EC_ELEVATOR_STOPPED, .ECElevatorStopped, 0, [r]⟩ = _
    rw [lone_idle_iter N 1 0 _ r t (by omega)]
    exact state_eq rfl (by omega)
  have hup : (1 : Int) < (serviceOne 1 t r).target := by
    by_cases h1 : r.floorSrc = 1
    · rw [serviceOne_pickup 1 t r h1 hd]
      unfold ECElevatorSimRequest.target
      simp only [if_true]
      omega
    · rw [serviceOne_untouched 1 t r h1 hd]
      unfold ECElevatorSimRequest.target
      rw [hd]
      simp only [Bool.false_eq_true, if_false]
      omega
  rw [Function.iterate_succ_apply', e1,
    lone_start N 1 t _ r ⟨le_refl _, by omega⟩ (by omega) hr (by omega) hs hd hup]
  exact state_eq (by norm_num) rfl

theorem picked_target (r : ECElevatorSimRequest) :
    ({ r with fFloorReqDone := true } : ECElevatorSimRequest).target = r.floorDest := by
  unfold ECElevatorSimRequest.target
  simp

/-- The state in which the lone request is about to be dropped off: after
`A` ticks the elevator stands at the destination, moving, with the request
picked up, and the clock is `A`. -/
theorem lone_arrival (N : Int) (r : ECElevatorSimRequest) (t : Nat)
    (hN : 2 ≤ N) (hno : N ≤ 2147483646)
    (hr : 1 ≤ r.floorSrc ∧ r.floorSrc ≤ N ∧ 1 ≤ r.floorDest ∧ r.floorDest ≤ N)
    (hne : r.floorSrc ≠ r.floorDest) (ht : r.time = t)
    (hd : r.fFloorReqDone = false) (hs : r.fServiced = false) :
    ∃ (A : Nat) (dir : EC_ELEVATOR_DIR) (st : ECElevatorState),
      (A : Int) = (if r.floorSrc = 1 then r.time + ((r.floorDest - r.floorSrc).natAbs : Int)
        else r.time + r.floorSrc + ((r.floorDest - r.floorSrc).natAbs : Int)) ∧
      dir ≠ .EC_ELEVATOR_STOPPED ∧ (st = .ECElevatorUp ∨ st = .ECElevatorDown) ∧
      NextDecision^[A] (ECElevatorSim.new N [r]) =
        ⟨N, r.floorDest, dir, st, A, [{ r with fFloorReqDone := true }]⟩ := by
  have hdep := lone_departure N r t hN hno hr hne ht hd hs
  have hpt := picked_target r
  by_cases h1 : r.floorSrc = 1
  · -- the request waits at floor 1
    rw [serviceOne_pickup 1 t r h1 hd] at hdep
    obtain ⟨k, hk⟩ : ∃ k : Nat, r.floorDest = 2 + (k : Int) :=
      ⟨(r.floorDest - 2).toNat, by omega⟩
    refine ⟨(t + 1) + k, .EC_ELEVATOR_UP, .ECElevatorUp, ?_, by decide, Or.inl rfl, ?_⟩
    · rw [if_pos h1]
      omega
    · rw [iterate_split, hdep, lone_up_iter N 2 (t + 1) { r with fFloorReqDone := true } k
        (by show r.time ≤ _; omega) hs (by rw [hpt]; omega)]
      exact state_eq (by omega) (by omega)
  · -- the request waits at a floor above 1
    rw [serviceOne_untouched 1 t r h1 hd] at hdep
    obtain ⟨a, ha⟩ : ∃ a : Nat, r.floorSrc = 2 + (a : Int) :=
      ⟨(r.floorSrc - 2).toNat, by omega⟩
    have htar : r.target = r.floorSrc := by
      unfold ECElevatorSimRequest.target
      rw [hd]
      simp
    have e2 : NextDecision^[(t + 1) + a] (ECElevatorSim.new N [r]) =
        ⟨N, r.floorSrc, .EC_ELEVATOR_UP, .ECElevatorUp, t + 1 + a, [r]⟩ := by
      rw [iterate_split, hdep, lone_up_iter N 2 (t + 1) r a (by omega) hs (by omega)]
      exact state_eq (by omega) rfl
    have e3 : NextDecision^[(t + 1) + a + 1] (ECElevatorSim.new N [r]) =
        ⟨N, r.floorSrc, .EC_ELEVATOR_STOPPED, .ECElevatorUp, t + 1 + a + 1,
          [{ r with fFloorReqDone := true }]⟩ := by
      rw [Function.iterate_succ_apply', e2,
        lone_service N r.floorSrc (t + 1 + a) _ _ r (Or.inl rfl) (by decide) (by omega) hs htar,
        serviceOne_pickup _ _ r rfl hd]
    rcases lt_or_gt_of_ne hne with hlt | hgt
    · -- destination above the origin
      obtain ⟨b, hb⟩ : ∃ b : Nat, r.floorDest = r.floorSrc + 1 + (b : Int) :=
        ⟨(r.floorDest - r.floorSrc - 1).toNat, by omega⟩
      have e4 : NextDecision^[(t + 1) + a + 1 + 1] (ECElevatorSim.new N [r]) =
          ⟨N, r.floorSrc + 1, .EC_ELEVATOR_UP, .ECElevatorUp, t + 1 + a + 1 + 1,
            [{ r with fFloorReqDone := true }]⟩ := by
        rw [Function.iterate_succ_apply', e3,
          lone_up_step N r.floorSrc (t + 1 + a + 1) _ { r with fFloorReqDone := true }
            (by show r.time ≤ _; omega) hs (by rw [hpt]; omega)]
      refine ⟨(t + 1) + a + 1 + 1 + b, .EC_ELEVATOR_UP, .ECElevatorUp, ?_, by decide,
        Or.inl rfl, ?_⟩
      · rw [if_neg h1]
        omega
      · rw [iterate_split, e4, lone_up_iter N (r.floorSrc + 1) (t + 1 + a + 1 + 1)
          { r with fFloorReqDone := true } b
          (by show r.time ≤ _; omega) hs (by rw [hpt]; omega)]
        exact state_eq (by omega) (by omega)
    · -- destination below the origin
      obtain ⟨b, hb⟩ : ∃ b : Nat, r.floorSrc = r.floorDest + 1 + (b : Int) :=
        ⟨(r.floorSrc - r.floorDest - 1).toNat, by omega⟩
      have e4 : NextDecision^[(t + 1) + a + 1 + 1] (ECElevatorSim.new N [r]) =
          ⟨N, r.floorSrc - 1, .EC_ELEVATOR_DOWN, .ECElevatorDown, t + 1 + a + 1 + 1,
            [{ r with fFloorReqDone := true }]⟩ := by
        rw [Function.iterate_succ_apply', e3,
          lone_up_reverse N r.floorSrc (t + 1 + a + 1) { r with fFloorReqDone := true }
            (by show r.time ≤ _; omega) hs (by rw [hpt]; omega)]
      refine ⟨(t + 1) + a + 1 + 1 + b, .EC_ELEVATOR_DOWN, .ECElevatorDown, ?_, by decide,
        Or.inr rfl, ?_⟩
      · rw [if_neg h1]
        omega
      · rw [iterate_split, e4, lone_down_iter N (r.floorSrc - 1) (t + 1 + a + 1 + 1)
          { r with fFloorReqDone := true } b
          (by show r.time ≤ _; omega) hs (by rw [hpt]; omega)]
        exact state_eq (by omega) (by omega)

theorem iterate_length (k : Nat) (sim : ECElevatorSim) :
    (NextDecision^[k] sim).listRequests.length = sim.listRequests.length := by
  induction k with
  | zero => rfl
  | succ k ih => rw [Function.iterate_succ_apply', NextDecision_length, ih]

/-- Below the overflow (`N <= INT_MAX - 1`, so that the sum `1 + numFloors`
of the departure tick does not wrap): for every floor count `N >= 2` and a
request list consisting of a single request `r` (origin `s`, destination `d`, creation time `t`, not
picked up, not serviced) with `1 <= s, d <= N`, `s` different from `d` and
`t >= 0`, let `A = loneServiceTime r` (`t + |d - s|` if `s = 1`, else
`t + s + |d - s|`).  For every tick count `n > A`, after `Simulate n` from
the initial state the request is picked up and serviced with arrival time
exactly `A` and the elevator is at floor `d`; and for every `n <= A` the
request is not yet serviced. -/
theorem lone_service_time_without_overflow (N : Int) (r : ECElevatorSimRequest) (n : Int)
    (hN : 2 ≤ N) (hno : N ≤ 2147483646)
    (hr : 1 ≤ r.floorSrc ∧ r.floorSrc ≤ N ∧ 1 ≤ r.floorDest ∧ r.floorDest ≤ N)
    (hne : r.floorSrc ≠ r.floorDest) (ht : 0 ≤ r.time)
    (hfresh : r.fFloorReqDone = false ∧ r.fServiced = false) :
    (n > loneServiceTime r →
      (Simulate n (ECElevatorSim.new N [r])).listRequests =
        [{ r with fFloorReqDone := true, fServiced := true,
                  timeArrive := loneServiceTime r }] ∧
      (Simulate n (ECElevatorSim.new N [r])).currFloor = r.floorDest) ∧
    (n ≤ loneServiceTime r →
      ∃ r' : ECElevatorSimRequest,
        (Simulate n (ECElevatorSim.new N [r])).listRequests = [r'] ∧
        r'.fServiced = false) := by
  obtain ⟨t, ht'⟩ := Int.eq_ofNat_of_zero_le ht
  obtain ⟨A, dir, st, hA, hdir, hst, harr⟩ :=
    lone_arrival N r t hN hno hr hne ht' hfresh.1 hfresh.2
  have hAeq : loneServiceTime r = (A : Int) := by
    unfold loneServiceTime
    exact hA.symm
  have hAt : r.time ≤ (A : Int) := by
    rw [hA]
    split_ifs <;> omega
  rw [hAeq, Simulate_eq_iterate]
  constructor
  · intro hn
    have hserve : NextDecision^[A + 1] (ECElevatorSim.new N [r]) =
        ⟨N, r.floorDest, .EC_ELEVATOR_STOPPED, st, A + 1,
          [{ r with fFloorReqDone := true, fServiced := true, timeArrive := (A : Int) }]⟩ := by
      rw [Function.iterate_succ_apply', harr,
        lone_service N r.floorDest A dir st { r with fFloorReqDone := true } hst hdir
          hAt hfresh.2 (picked_target r),
        serviceOne_dropoff _ _ { r with fFloorReqDone := true } rfl rfl]
    obtain ⟨m, hm⟩ : ∃ m : Nat, n.toNat = (A + 1) + m := ⟨n.toNat - (A + 1), by omega⟩
    rw [hm, iterate_split]
    have hdone := lone_done_iter (NextDecision^[A + 1] (ECElevatorSim.new N [r]))
      { r with fFloorReqDone := true, fServiced := true, timeArrive := (A : Int) }
      (by rw [hserve]) rfl m
    refine ⟨hdone.2, ?_⟩
    rw [hdone.1, hserve]
  · intro hn
    obtain ⟨m, hm⟩ : ∃ m : Nat, A = n.toNat + m := ⟨A - n.toNat, by omega⟩
    have hlen := iterate_length n.toNat (ECElevatorSim.new N [r])
    have hlen1 : (NextDecision^[n.toNat] (ECElevatorSim.new N [r])).listRequests.length = 1 :=
      hlen
    generalize hS : NextDecision^[n.toNat] (ECElevatorSim.new N [r]) = S at hlen1
    have hSA : NextDecision^[m] S = NextDecision^[A] (ECElevatorSim.new N [r]) := by
      rw [hm, iterate_split, hS]
    cases hL : S.listRequests with
    | nil => rw [hL] at hlen1; simp at hlen1
    | cons x L =>
      cases L with
      | cons y L => rw [hL] at hlen1; simp at hlen1
      | nil =>
        refine ⟨x, rfl, ?_⟩
        cases hx : x.fServiced
        · rfl
        · exfalso
          have hstay := serviced_stays S 0 x (by rw [hL]; rfl) hx m
          rw [hSA, harr] at hstay
          simp only [List.getElem?_cons_zero, Option.some.injEq] at hstay
          rw [← hstay] at hx
          simp only at hx
          rw [hfresh.2] at hx
          cases hx

/-- C20 (the code breaks it): with `numFloors = 2147483647 = INT_MAX >= 2`
and the single request (origin 3, destination 1, created at tick 0) the
closed form gives `A = 0 + 3 + 2 = 5`.  But the first tick starts its scan
from the wrapped sum `1 + 2147483647`, gets closest floor 0 and goes down to
floor 0; the elevator then reverses, reaches floor 3 at tick 4, and drops the
request off at tick 7: after `Simulate 6` (6 > A) the request is picked up
but not serviced and the elevator is at floor 2, and after `Simulate 8` the
request is serviced with arrival time 7. -/
theorem C20_overflow_delays_service :
    (2 : Int) ≤ 2147483647 ∧
    (1 ≤ (ECElevatorSimRequest.request 3 1 0).floorSrc ∧
      (ECElevatorSimRequest.request 3 1 0).floorSrc ≤ 2147483647 ∧
      1 ≤ (ECElevatorSimRequest.request 3 1 0).floorDest ∧
      (ECElevatorSimRequest.request 3 1 0).floorDest ≤ 2147483647 ∧
      (ECElevatorSimRequest.request 3 1 0).floorSrc ≠
        (ECElevatorSimRequest.request 3 1 0).floorDest ∧
      0 ≤ (ECElevatorSimRequest.request 3 1 0).time) ∧
    loneServiceTime (ECElevatorSimRequest.request 3 1 0) = 5 ∧
    (Simulate 1 (ECElevatorSim.new 2147483647
      [ECElevatorSimRequest.request 3 1 0])).currFloor = 0 ∧
    (Simulate 6 (ECElevatorSim.new 2147483647
      [ECElevatorSimRequest.request 3 1 0])).listRequests = [⟨3, 1, 0, true, false, -1⟩] ∧
    (Simulate 6 (ECElevatorSim.new 2147483647
      [ECElevatorSimRequest.request 3 1 0])).currFloor = 2 ∧
    (Simulate 8 (ECElevatorSim.new 2147483647
      [ECElevatorSimRequest.request 3 1 0])).listRequests = [⟨3, 1, 0, true, true, 7⟩] := by
  rw [Simulate_eq_iterate, Simulate_eq_iterate, Simulate_eq_iterate]
  decide

end ECElevator
